import Mathlib

/-!
Exomit interpreter: embedding of `instruction_handler.cpp` and `main.cpp`.

The execution engine is embedded as pure functions over an explicit execution
context.  Conventions:

* the script stream (`std::ifstream`) is a record with the whole text, the
  read position, the unread characters and the two state bits `eofbit` and
  `failbit`; a read that yields `EOF` is `none`;
* `uint8_t` and `uint32_t` values are natural numbers, reduced with `u8` and
  `u32` exactly where the source narrows or wraps; `int` is 32 bits wide;
* a C++ exception is the result `Res.throw`, undefined behaviour is
  `Res.undef`, and every loop or recursion of the source is bounded by a fuel
  argument, `Res.timeout` (or `none`) meaning that the fuel ran out;
* the character constants of `instruction_handler.h` (not among the sources)
  are the fields of `Tokens`.
-/

namespace Exomit

/-! ## Tokens of `instruction_handler.h` -/

/-- The character and string constants that `instruction_handler.cpp` takes
from its header.  The header is not part of the sources, so the constants are
parameters of the embedding; a token string is the list of characters that the
source compares with and iterates over. -/
structure Tokens where
  NUMBER_START : Char
  NUMBER_END : Char
  NUMBER_MODIFIER_NEGATIVE : Char
  NUMBER_MODIFIER_VALUE_AT : Char
  NUMBER_MODIFIER_INDEX : Char
  RELATIONAL_EQUAL : List Char
  RELATIONAL_NOT_EQUAL : List Char
  RELATIONAL_GREATER_THAN : List Char
  RELATIONAL_GREATER_THAN_OR_EQUAL : List Char
  RELATIONAL_LESS_THAN : List Char
  RELATIONAL_LESS_THAN_OR_EQUAL : List Char
  CONDITIONAL_AND : List Char
  CONDITIONAL_OR : List Char
  CONDITIONAL_XOR : List Char
deriving DecidableEq, Repr

/-- A concrete token table, used to run the embedding on concrete scripts:
`[`, `]` and `i` are the characters of the specification's examples. -/
def sampleTokens : Tokens where
  NUMBER_START := '['
  NUMBER_END := ']'
  NUMBER_MODIFIER_NEGATIVE := '-'
  NUMBER_MODIFIER_VALUE_AT := 'v'
  NUMBER_MODIFIER_INDEX := 'i'
  RELATIONAL_EQUAL := ['=']
  RELATIONAL_NOT_EQUAL := ['!', '=']
  RELATIONAL_GREATER_THAN := ['>']
  RELATIONAL_GREATER_THAN_OR_EQUAL := ['>', '=']
  RELATIONAL_LESS_THAN := ['<']
  RELATIONAL_LESS_THAN_OR_EQUAL := ['<', '=']
  CONDITIONAL_AND := ['&', '&']
  CONDITIONAL_OR := ['|', '|']
  CONDITIONAL_XOR := ['^', '^']

/-- The delimiters and modifiers of a number literal can be told apart from
each other, from the digits and from the offset markers `+` and `-` (the
negative-sign marker alone may be the character `-`). -/
def Tokens.NumOK (T : Tokens) : Prop :=
  T.NUMBER_START.isDigit = false ∧ T.NUMBER_END.isDigit = false ∧
  T.NUMBER_MODIFIER_NEGATIVE.isDigit = false ∧
  T.NUMBER_MODIFIER_VALUE_AT.isDigit = false ∧
  T.NUMBER_MODIFIER_INDEX.isDigit = false ∧
  T.NUMBER_START ≠ T.NUMBER_END ∧
  T.NUMBER_START ≠ T.NUMBER_MODIFIER_NEGATIVE ∧
  T.NUMBER_START ≠ T.NUMBER_MODIFIER_VALUE_AT ∧
  T.NUMBER_START ≠ T.NUMBER_MODIFIER_INDEX ∧
  T.NUMBER_START ≠ '+' ∧ T.NUMBER_START ≠ '-' ∧
  T.NUMBER_END ≠ T.NUMBER_MODIFIER_NEGATIVE ∧
  T.NUMBER_END ≠ T.NUMBER_MODIFIER_VALUE_AT ∧
  T.NUMBER_END ≠ T.NUMBER_MODIFIER_INDEX ∧
  T.NUMBER_END ≠ '+' ∧ T.NUMBER_END ≠ '-' ∧
  T.NUMBER_MODIFIER_NEGATIVE ≠ T.NUMBER_MODIFIER_VALUE_AT ∧
  T.NUMBER_MODIFIER_NEGATIVE ≠ T.NUMBER_MODIFIER_INDEX ∧
  T.NUMBER_MODIFIER_NEGATIVE ≠ '+' ∧
  T.NUMBER_MODIFIER_VALUE_AT ≠ T.NUMBER_MODIFIER_INDEX ∧
  T.NUMBER_MODIFIER_VALUE_AT ≠ '+' ∧ T.NUMBER_MODIFIER_VALUE_AT ≠ '-' ∧
  T.NUMBER_MODIFIER_INDEX ≠ '+' ∧ T.NUMBER_MODIFIER_INDEX ≠ '-'

instance (T : Tokens) : Decidable T.NumOK := by
  unfold Tokens.NumOK; infer_instance

/-! ## The script stream -/

/-- The script `std::ifstream`: `text` is the whole file, `pos` the read
position, `rest` the characters not yet read (`text.drop pos` after every
seek), `eofbit` and `failbit` the stream state bits. -/
structure IStream where
  text : List Char
  pos : Nat
  rest : List Char
  eofbit : Bool
  failbit : Bool
deriving DecidableEq, Repr

/-- A freshly opened stream on `text`. -/
def IStream.open_ (text : List Char) : IStream :=
  { text := text, pos := 0, rest := text, eofbit := false, failbit := false }

/-- Unformatted `get()`: on a stream that is not good the sentry sets
`failbit` and `EOF` comes back; at the end of the text `eofbit` and `failbit`
are set. -/
def IStream.get (s : IStream) : Option Char × IStream :=
  if s.eofbit || s.failbit then (none, { s with failbit := true })
  else match s.rest with
    | ch :: r => (some ch, { s with pos := s.pos + 1, rest := r })
    | [] => (none, { s with eofbit := true, failbit := true })

/-- Unformatted `peek()`: at the end of the text only `eofbit` is set. -/
def IStream.peek (s : IStream) : Option Char × IStream :=
  if s.eofbit || s.failbit then (none, { s with failbit := true })
  else match s.rest with
    | ch :: _ => (some ch, s)
    | [] => (none, { s with eofbit := true })

/-- Unformatted `ignore(1)`. -/
def IStream.ignore (s : IStream) : IStream :=
  if s.eofbit || s.failbit then { s with failbit := true }
  else match s.rest with
    | _ :: r => { s with pos := s.pos + 1, rest := r }
    | [] => { s with eofbit := true }

/-- Stream state query `eof()`. -/
def IStream.eof (s : IStream) : Bool := s.eofbit

/-- Position query `tellg()`: `-1` when the stream is not good (the sentry
then also sets `failbit`). -/
def IStream.tellg (s : IStream) : Int × IStream :=
  if s.eofbit || s.failbit then (-1, { s with failbit := true })
  else ((s.pos : Int), s)

/-- Absolute `seekg(p)`: clears `eofbit`, then does nothing when `failbit` is
set; seeking to a negative position fails. -/
def IStream.seekg (s : IStream) (p : Int) : IStream :=
  if s.failbit then { s with eofbit := false }
  else if p < 0 then { s with eofbit := false, failbit := true }
  else { s with eofbit := false, pos := p.toNat, rest := s.text.drop p.toNat }

/-! ## Execution context and results -/

/-- The arguments `POINTER_INFO` threaded through every handler, with the
standard streams and the files seen as data: `input` and an open `file_input`
are the values that successive `>>` extractions of a `uint16_t` yield,
`output` the characters written so far, an open `file_output` the file name and
the characters written to it, `disk_in` the readable files and `disk_out` the
files written and closed. -/
structure Ctx where
  script : IStream
  input : List Nat
  output : List Char
  file_input : Option (List Nat)
  file_output : Option (List Char × List Char)
  disk_in : List (List Char × List Nat)
  disk_out : List (List Char × List Char)
  pointer : List Nat
  index : Nat
  uncertainty_count : Nat
  loop_stack : List Int
deriving DecidableEq, Repr

/-- The exceptions the engine can raise. -/
inductive Exn where
  | runtime_error (what : String)
  | out_of_range (what : String)
deriving DecidableEq, Repr

/-- Outcome of a call: normal return with the new context, a thrown exception
with the context at the throw, undefined behaviour, or fuel exhausted. -/
inductive Res (α : Type) where
  | ok (a : α) (c : Ctx)
  | throw (e : Exn) (c : Ctx)
  | undef
  | timeout
deriving DecidableEq, Repr

/-- Conversion to `uint8_t`. -/
def u8 (z : Int) : Nat := (z % 256).toNat

/-- Conversion to `uint32_t`. -/
def u32 (z : Int) : Nat := (z % 4294967296).toNat

/-- Bounds-checked read `pointer.at(i)`. -/
def Ctx.pointer_at (c : Ctx) (i : Nat) : Res Nat :=
  match c.pointer[i]? with
  | some v => .ok v c
  | none => .throw (.out_of_range "vector::at") c

/-- Library predicate `isdigit` on the result of a read. -/
def isdigit (op : Option Char) : Bool :=
  match op with
  | some ch => ch.isDigit
  | none => false

/-- Value of a string of decimal digits, as `std::stoi` reads it. -/
def decimal (ds : List Char) : Nat :=
  ds.foldl (fun a d => 10 * a + (d.toNat - 48)) 0

/-- Library function `std::stoi` on a string of decimal digits: the value, or
`none` for the `std::out_of_range` thrown when it does not fit an `int`. -/
def stoi (res : List Char) : Option Nat :=
  if decimal res ≤ 2147483647 then some (decimal res) else none

/-! ## Number parser -/

/-- The pattern `if (op == m) { script.ignore(1); flag = true; op = script.peek(); }`
of `parseNum`: the flag, the new `op` and the new stream. -/
def takeModifier (m : Char) (op : Option Char) (s : IStream) :
    Bool × Option Char × IStream :=
  if op = some m then (true, s.ignore.peek.1, s.ignore.peek.2) else (false, op, s)

/-- The loop `while (isdigit(op = script.get())) res.push_back(op);`: the last
`op`, the string `res` and the stream. -/
def digitLoop : Nat → IStream → List Char → Option (Option Char × List Char × IStream)
  | 0, _, _ => none
  | fuel + 1, s, res =>
    match s.get with
    | (some d, s1) =>
      if d.isDigit then digitLoop fuel s1 (res ++ [d]) else some (some d, res, s1)
    | (none, s1) => some (none, res, s1)

/-- The loop `while (script.peek() == NUMBER_END && !script.eof()) script.ignore(1);`. -/
def skipNumberEnds (T : Tokens) : Nat → IStream → Option IStream
  | 0, _ => none
  | fuel + 1, s =>
    if s.peek.1 = some T.NUMBER_END && !s.peek.2.eof then
      skipNumberEnds T fuel s.peek.2.ignore
    else some s.peek.2

/-- Sequencing of two calls: the second runs on the value and context of a
normal return of the first. -/
def Res.bind {α β : Type} (r : Res α) (f : α → Ctx → Res β) : Res β :=
  match r with
  | .ok a c => f a c
  | .throw e c => .throw e c
  | .undef => .undef
  | .timeout => .timeout

/-- Result of `(uint8_t)(neg ? (-1) * pointer.at(i) : pointer.at(i))`. -/
def negAt (neg : Bool) (c : Ctx) (i : Nat) : Res Nat :=
  (c.pointer_at i).bind (fun v c1 => .ok (u8 (if neg then (-1) * (v : Int) else (v : Int))) c1)

/-- The local variables of `parseNum` after its modifier tests (lines 95-134):
the five flags, the character `op` last peeked and the stream. -/
structure Mods where
  neg : Bool
  val : Bool
  ind : Bool
  add : Bool
  sub : Bool
  op : Option Char
  s : IStream
deriving DecidableEq, Repr

/-- Lines 107-134 of `parseNum`: the tests for the negative-sign, value-at,
index and offset markers, in this order, each made once. -/
def readModifiers (T : Tokens) (op : Option Char) (s : IStream) : Mods :=
  let m1 := takeModifier T.NUMBER_MODIFIER_NEGATIVE op s
  let m2 := takeModifier T.NUMBER_MODIFIER_VALUE_AT m1.2.1 m1.2.2
  let m3 := takeModifier T.NUMBER_MODIFIER_INDEX m2.2.1 m2.2.2
  let m4 := takeModifier '+' m3.2.1 m3.2.2
  let m5 := if m4.1 then (false, m4.2) else takeModifier '-' m4.2.1 m4.2.2
  { neg := m1.1, val := m2.1, ind := m3.1, add := m4.1, sub := m5.1, op := m5.2.1, s := m5.2.2 }

/-- Lines 138-148 of `parseNum`: the literal ends right after its modifiers;
`c` has the number-end already skipped. -/
def resolveEmpty (m : Mods) (c : Ctx) : Res Nat :=
  if !m.ind || m.add || m.sub then .throw (.runtime_error "Expected number") c
  else if m.val then negAt m.neg c c.index
  else .ok (u8 (if m.neg then u32 ((-1) * (c.index : Int)) else (c.index : Int))) c

/-- Lines 151-169 of `parseNum`: the returns of the nested-literal case, `n`
being the value of the call `parseNum(POINTER_INFO_PARAMS)` made in the
selected branch and `c` the context after that call. -/
def resolveNested (m : Mods) (n : Nat) (c : Ctx) : Res Nat :=
  let index : Int := (c.index : Int)
  let n : Int := (n : Int)
  if m.ind then
    if m.val then
      if m.add then negAt m.neg c (u32 (index + n))
      else if m.sub then negAt m.neg c (u32 (index - n))
      else negAt m.neg c n.toNat
    else
      if m.add then .ok (u8 (if m.neg then u32 ((-1) * u32 (index + n)) else u32 (index + n))) c
      else if m.sub then .ok (u8 (if m.neg then u32 ((-1) * u32 (index - n)) else u32 (index - n))) c
      else .ok (u8 (if m.neg then (-1) * n else n)) c
  else .ok (u8 (if m.neg then (-1) * n else n)) c

/-- Lines 189-207 of `parseNum`: the returns of the digit case for the value
`num` of the digits; `again` is the call `parseNum(POINTER_INFO_PARAMS)` that
line 199 makes when the literal has the index, the `+` and the negative-sign
marker and no value-at marker. -/
def resolveDigits (again : Ctx → Res Nat) (m : Mods) (num : Nat) (c : Ctx) : Res Nat :=
  let index : Int := (c.index : Int)
  let num : Int := (num : Int)
  if m.ind then
    if m.val then
      if m.add then negAt m.neg c (u32 (index + num))
      else if m.sub then negAt m.neg c (u32 (index - num))
      else negAt m.neg c num.toNat
    else
      if m.add then
        if m.neg then
          (again c).bind (fun n c3 => .ok (u8 (u32 ((-1) * u32 (index + (n : Int))))) c3)
        else .ok (u8 (u32 (index + num))) c
      else if m.sub then .ok (u8 (if m.neg then u32 ((-1) * u32 (index - num)) else u32 (index - num))) c
      else .ok (u8 (if m.neg then u32 ((-1) * num) else num)) c
  else .ok (u8 (if m.neg then u32 ((-1) * num) else num)) c

/-- Lines 136-210 of `parseNum`: the payload after the modifiers `m`; `again`
stands for the recursive calls `parseNum(POINTER_INFO_PARAMS)`. -/
def parsePayload (again : Ctx → Res Nat) (fuel : Nat) (T : Tokens) (c : Ctx) (m : Mods) :
    Res Nat :=
  if !isdigit m.op then
    if m.op = some T.NUMBER_END then resolveEmpty m { c with script := m.s.ignore }
    else if m.op = some T.NUMBER_START then
      (again { c with script := m.s }).bind (resolveNested m)
    else .ok 0 { c with script := m.s }
  else
    match digitLoop fuel m.s.ignore m.op.toList with
    | none => .timeout
    | some (op1, res, s1) =>
      if op1 ≠ some T.NUMBER_END then
        .throw (.runtime_error "Expected number end") { c with script := s1 }
      else
      match skipNumberEnds T fuel s1 with
      | none => .timeout
      | some s2 =>
        match stoi res with
        | none => .throw (.out_of_range "stoi") { c with script := s2 }
        | some num => resolveDigits again m num { c with script := s2 }

/-- Function `parseNum` (instruction_handler.cpp, lines 87-211). -/
def parseNum : Nat → Tokens → Ctx → Res Nat
  | 0, _, _ => .timeout
  | fuel + 1, T, c =>
    let g := c.script.get
    if g.1 ≠ some T.NUMBER_START then
      .throw (.runtime_error "Expected number start") { c with script := g.2 }
    else
    let p := g.2.peek
    if p.1 = some T.NUMBER_END then .ok 0 { c with script := p.2.ignore }
    else parsePayload (parseNum fuel T) fuel T c (readModifiers T p.1 p.2)

/-! ## Expression evaluator -/

/-- Conversion of the result of `script.get()` to `char`, as done by
`push_back(script.get())`: `EOF` becomes the character with all bits set. -/
def toChar (g : Option Char) : Char :=
  match g with
  | some ch => ch
  | none => Char.ofNat 255

/-- The loop `while (script.peek() != stop && !script.eof())
str.push_back(script.get());`, used with `NUMBER_START` for the relational
operator and with the double quote for a file name. -/
def readUntil (stop : Char) : Nat → IStream → List Char → Option (List Char × IStream)
  | 0, _, _ => none
  | fuel + 1, s, acc =>
    if s.peek.1 ≠ some stop && !s.peek.2.eof then
      readUntil stop fuel s.peek.2.get.2 (acc ++ [toChar s.peek.2.get.1])
    else some (acc, s.peek.2)

/-- The chain of string comparisons that selects the relational operator
(lines 223-235); `none` is the `Invalid relational operator` error. -/
def relational (T : Tokens) (rel : List Char) (left right : Nat) : Option Bool :=
  if rel = T.RELATIONAL_EQUAL then some (decide (left = right))
  else if rel = T.RELATIONAL_NOT_EQUAL then some (decide (left ≠ right))
  else if rel = T.RELATIONAL_GREATER_THAN then some (decide (left > right))
  else if rel = T.RELATIONAL_GREATER_THAN_OR_EQUAL then some (decide (left ≥ right))
  else if rel = T.RELATIONAL_LESS_THAN then some (decide (left < right))
  else if rel = T.RELATIONAL_LESS_THAN_OR_EQUAL then some (decide (left ≤ right))
  else none

/-- The loop `for (char c : TOKEN) if (script.peek() == c)
conditional_operator.push_back(script.get());` over the characters of a
token. -/
def matchToken : List Char → IStream → List Char → List Char × IStream
  | [], s, acc => (acc, s)
  | ch :: tok, s, acc =>
    if s.peek.1 = some ch then
      matchToken tok s.peek.2.get.2 (acc ++ [toChar s.peek.2.get.1])
    else matchToken tok s.peek.2 acc

/-- Lines 237-258 of `parseExpression`: the three attempts to read a
connective, with the cursor restored by `seekg(before)` after a mismatch; the
final `conditional_operator` and stream. -/
def matchConditional (T : Tokens) (s0 : IStream) : List Char × IStream :=
  let before := s0.tellg.1
  let a := matchToken T.CONDITIONAL_AND s0.tellg.2 []
  if a.1 ≠ T.CONDITIONAL_AND then
    let o := matchToken T.CONDITIONAL_OR (a.2.seekg before) []
    if o.1 ≠ T.CONDITIONAL_OR then
      let x := matchToken T.CONDITIONAL_XOR (o.2.seekg before) []
      if x.1 ≠ T.CONDITIONAL_XOR then (x.1, x.2.seekg before) else x
    else o
  else a

/-- Function `parseExpression` (instruction_handler.cpp, lines 213-267). -/
def parseExpression : Nat → Tokens → Ctx → Res Bool
  | 0, _, _ => .timeout
  | fuel + 1, T, c =>
    match parseNum fuel T c with
    | .throw e c1 => .throw e c1
    | .undef => .undef
    | .timeout => .timeout
    | .ok left c1 =>
      match readUntil T.NUMBER_START fuel c1.script [] with
      | none => .timeout
      | some (relational_operator, s2) =>
        match parseNum fuel T { c1 with script := s2 } with
        | .throw e c3 => .throw e c3
        | .undef => .undef
        | .timeout => .timeout
        | .ok right c3 =>
          match relational T relational_operator left right with
          | none => .throw (.runtime_error "Invalid relational operator") c3
          | some expression =>
            let m := matchConditional T c3.script
            let c4 := { c3 with script := m.2 }
            if m.1 = T.CONDITIONAL_AND then
              if expression then parseExpression fuel T c4 else .ok false c4
            else if m.1 = T.CONDITIONAL_OR then
              (parseExpression fuel T c4).bind (fun r c5 => .ok (r || expression) c5)
            else if m.1 = T.CONDITIONAL_XOR then
              (parseExpression fuel T c4).bind (fun r c5 => .ok (expression != r) c5)
            else .ok expression c4

/-! ## Instruction handlers -/

/-- Store `v` in the cell `pointer.at(i)`; the access throws when `i` is not
below the tape length. -/
def Ctx.store (c : Ctx) (i : Nat) (f : Nat → Nat) : Res Unit :=
  match c.pointer[i]? with
  | some v => .ok () { c with pointer := c.pointer.set i (f v) }
  | none => .throw (.out_of_range "vector::at") c

/-- Handler `VALUE_INCREMENT`: `pointer.at(index)++`. -/
def VALUE_INCREMENT (c : Ctx) : Res Unit :=
  c.store c.index (fun v => u8 ((v : Int) + 1))

/-- Handler `VALUE_DECREMENT`: `pointer.at(index)--`. -/
def VALUE_DECREMENT (c : Ctx) : Res Unit :=
  c.store c.index (fun v => u8 ((v : Int) - 1))

/-- The operators of the `switch` of `VALUE_OPERATION`, as functions of the old
cell and the operand, narrowed to `uint8_t`: the outer `none` is the `default`
case, the inner `none` is a division by zero. -/
def compound (op : Option Char) : Option (Nat → Nat → Option Nat) :=
  if op = some '$' then some (fun _ m => some (u8 m))
  else if op = some '+' then some (fun v m => some (u8 ((v : Int) + m)))
  else if op = some '-' then some (fun v m => some (u8 ((v : Int) - m)))
  else if op = some '*' then some (fun v m => some (u8 ((v : Int) * m)))
  else if op = some '/' then some (fun v m => if m = 0 then none else some (u8 (v / m : Nat)))
  else if op = some '%' then some (fun v m => if m = 0 then none else some (u8 (v % m : Nat)))
  else if op = some 'x' then some (fun v m => some (u8 (v ^^^ m : Nat)))
  else if op = some '&' then some (fun v m => some (u8 (v &&& m : Nat)))
  else if op = some '|' then some (fun v m => some (u8 (v ||| m : Nat)))
  else none

/-- One `case` of the `switch` of `VALUE_OPERATION`: the operand is parsed,
then the cell `pointer.at(i)` is read, combined and written back. -/
def applyCompound (fuel : Nat) (T : Tokens) (c : Ctx) (i : Nat)
    (f : Nat → Nat → Option Nat) : Res Unit :=
  match parseNum fuel T c with
  | .throw e c1 => .throw e c1
  | .undef => .undef
  | .timeout => .timeout
  | .ok m c1 =>
    match c1.pointer[i]? with
    | none => .throw (.out_of_range "vector::at") c1
    | some v =>
      match f v m with
      | none => .undef
      | some w => .ok () { c1 with pointer := c1.pointer.set i w }

/-- The final `script.ignore(1)` of `VALUE_OPERATION` after a `case` that
ended with `break`. -/
def ignoreClose (r : Res Unit) : Res Unit :=
  r.bind (fun _ c => .ok () { c with script := c.script.ignore })

/-- The loop `while (pointer.size() <= new_index) pointer.push_back(0)`: the
tape padded with zero cells up to length `new_index + 1`. -/
def padTo (pointer : List Nat) (new_index : Nat) : List Nat :=
  pointer ++ List.replicate (new_index + 1 - pointer.length) 0

/-- Handler `VALUE_OPERATION` (lines 277-377).  In the explicit-index form the
case of `%` works on `pointer.at(index)`, all others on
`pointer.at(new_index)`. -/
def VALUE_OPERATION (fuel : Nat) (T : Tokens) (c : Ctx) : Res Unit :=
  let p := c.script.peek
  if p.1 ≠ some T.NUMBER_START then
    let g := p.2.get
    let c1 := { c with script := g.2 }
    match compound g.1 with
    | none => .throw (.runtime_error "Invalid operator") c1
    | some f => ignoreClose (applyCompound fuel T c1 c.index f)
  else
    match parseNum fuel T { c with script := p.2 } with
    | .throw e c1 => .throw e c1
    | .undef => .undef
    | .timeout => .timeout
    | .ok new_index c1 =>
      let c2 := { c1 with pointer := padTo c1.pointer new_index }
      let g := c2.script.get
      let c3 := { c2 with script := g.2 }
      match compound g.1 with
      | none => .throw (.runtime_error "Invalid operator") c3
      | some f =>
        if g.1 = some '%' then ignoreClose (applyCompound fuel T c3 c.index f)
        else ignoreClose (applyCompound fuel T c3 new_index f)

/-- Handler `INDEX_INCREMENT`: `++index` on a `uint32_t`, then one zero cell is
appended when `index > pointer.size() - 1` (an unsigned comparison, so never
on an empty tape). -/
def INDEX_INCREMENT (c : Ctx) : Res Unit :=
  let index := u32 ((c.index : Int) + 1)
  if c.pointer.length ≠ 0 ∧ index > c.pointer.length - 1 then
    .ok () { c with index := index, pointer := c.pointer ++ [0] }
  else .ok () { c with index := index }

/-- Handler `INDEX_DECREMENT`: `--index` on a `uint32_t`. -/
def INDEX_DECREMENT (c : Ctx) : Res Unit :=
  .ok () { c with index := u32 ((c.index : Int) - 1) }

/-- Outcome of a skip scan: the stream when the count reached zero, signed
overflow of the count, or fuel exhausted. -/
inductive Scan where
  | done (s : IStream)
  | undef
  | timeout
deriving DecidableEq, Repr

/-- The skip loop of `UNCERTAINTY_START` (lines 392-398), `open_count` being an
`int`. -/
def skipUncertainty : Nat → Int → IStream → Scan
  | 0, _, _ => .timeout
  | fuel + 1, open_count, s =>
    if open_count > 0 then
      if s.get.1 = some '?' then
        if open_count = 2147483647 then .undef
        else skipUncertainty fuel (open_count + 1) s.get.2
      else if s.get.1 = some '!' then skipUncertainty fuel (open_count - 1) s.get.2
      else skipUncertainty fuel open_count s.get.2
    else .done s

/-- The skip loop of `LOOP_START` (lines 416-423), `open_count` being a
`uint32_t`. -/
def skipLoop : Nat → Nat → IStream → Scan
  | 0, _, _ => .timeout
  | fuel + 1, open_count, s =>
    if open_count > 0 then
      if s.get.1 = some '{' then skipLoop fuel (u32 ((open_count : Int) + 1)) s.get.2
      else if s.get.1 = some '}' then skipLoop fuel (u32 ((open_count : Int) - 1)) s.get.2
      else skipLoop fuel open_count s.get.2
    else .done s

/-- Handler `UNCERTAINTY_START` (lines 389-401). -/
def UNCERTAINTY_START (fuel : Nat) (T : Tokens) (c : Ctx) : Res Unit :=
  match parseExpression fuel T c with
  | .throw e c1 => .throw e c1
  | .undef => .undef
  | .timeout => .timeout
  | .ok false c1 =>
    match skipUncertainty fuel 1 c1.script with
    | .done s => .ok () { c1 with script := s }
    | .undef => .undef
    | .timeout => .timeout
  | .ok true c1 => .ok () { c1 with uncertainty_count := u32 ((c1.uncertainty_count : Int) + 1) }

/-- Handler `UNCERTAINTY_END` (lines 403-408). -/
def UNCERTAINTY_END (c : Ctx) : Res Unit :=
  if c.uncertainty_count = 0 then .throw (.runtime_error "Unexpected uncertainty end") c
  else .ok () { c with uncertainty_count := u32 ((c.uncertainty_count : Int) - 1) }

/-- Handler `LOOP_START` (lines 410-425). -/
def LOOP_START (fuel : Nat) (T : Tokens) (c : Ctx) : Res Unit :=
  let t := c.script.tellg
  match parseExpression fuel T { c with script := t.2, loop_stack := t.1 :: c.loop_stack } with
  | .throw e c1 => .throw e c1
  | .undef => .undef
  | .timeout => .timeout
  | .ok false c1 =>
    match skipLoop fuel 1 c1.script with
    | .done s => .ok () { c1 with script := s, loop_stack := c1.loop_stack.tail }
    | .undef => .undef
    | .timeout => .timeout
  | .ok true c1 => .ok () c1

/-- Handler `LOOP_END` (lines 427-437): `top()` of an empty stack is undefined
behaviour; `after_loop` is the position narrowed to `uint32_t`. -/
def LOOP_END (fuel : Nat) (T : Tokens) (c : Ctx) : Res Unit :=
  let t := c.script.tellg
  let after_loop := u32 t.1
  match c.loop_stack with
  | [] => .undef
  | top :: _ =>
    match parseExpression fuel T { c with script := t.2.seekg top } with
    | .throw e c1 => .throw e c1
    | .undef => .undef
    | .timeout => .timeout
    | .ok false c1 =>
      .ok () { c1 with loop_stack := c1.loop_stack.tail, script := c1.script.seekg (after_loop : Int) }
    | .ok true c1 => .ok () c1

/-- The stream expression `(file_output != nullptr ? (*file_output) : output) << ...`:
the characters go to the open file when there is one, else to `output`. -/
def Ctx.write (c : Ctx) (chars : List Char) : Ctx :=
  match c.file_output with
  | some f => { c with file_output := some (f.1, f.2 ++ chars) }
  | none => { c with output := c.output ++ chars }

/-- The test `format == 'n' || format == 'c' || format == '_' || format == '\\'`. -/
def isFormat (format : Option Char) : Bool :=
  format = some 'n' || format = some 'c' || format = some '_' || format = some (Char.ofNat 92)

/-- One pass of the body of the format loop of `OUTPUT_WRITE` after its
`script.ignore(1)`: the text written for one format tag. -/
def writeFormatted (format : Option Char) (c : Ctx) : Res Unit :=
  if format = some 'n' then
    (c.pointer_at c.index).bind (fun v c1 => .ok () (c1.write (Nat.repr v).toList))
  else if format = some 'c' then
    (c.pointer_at c.index).bind (fun v c1 => .ok () (c1.write [Char.ofNat v]))
  else if format = some '_' then .ok () (c.write [' '])
  else .ok () (c.write [Char.ofNat 10])

/-- The loop `while ((format == 'n' || ...) && !script.eof())` of `OUTPUT_WRITE`
(lines 447-464). -/
def writeLoop : Nat → Option Char → Ctx → Res Unit
  | 0, _, _ => .timeout
  | fuel + 1, format, c =>
    if isFormat format && !c.script.eof then
      (writeFormatted format { c with script := c.script.ignore }).bind
        (fun _ c1 => writeLoop fuel c1.script.peek.1 { c1 with script := c1.script.peek.2 })
    else .ok () c

/-- Handler `OUTPUT_WRITE` (lines 439-465). -/
def OUTPUT_WRITE (fuel : Nat) (c : Ctx) : Res Unit :=
  let p := c.script.peek
  let c1 := { c with script := p.2 }
  if !isFormat p.1 then
    (c1.pointer_at c1.index).bind (fun v c2 => .ok () (c2.write [Char.ofNat v]))
  else writeLoop fuel p.1 c1

/-- The extraction `(file_input != nullptr ? (*file_input) : input) >> num` into
a `uint16_t` that starts at 0: the next value of the active input, 0 when
there is none. -/
def Ctx.extract (c : Ctx) : Nat × Ctx :=
  match c.file_input with
  | some l => (l.headD 0, { c with file_input := some l.tail })
  | none => (c.input.headD 0, { c with input := c.input.tail })

/-- Handler `INPUT_READ`. -/
def INPUT_READ (c : Ctx) : Res Unit :=
  c.extract.2.store c.index (fun _ => u8 c.extract.1)

/-- Handler `INPUT_ADD`. -/
def INPUT_ADD (c : Ctx) : Res Unit :=
  c.extract.2.store c.index (fun v => u8 ((v : Int) + u8 c.extract.1))

/-- Handler `INPUT_XOR`. -/
def INPUT_XOR (c : Ctx) : Res Unit :=
  c.extract.2.store c.index (fun v => u8 (v ^^^ u8 c.extract.1 : Nat))

/-- Handler `INPUT_AND`. -/
def INPUT_AND (c : Ctx) : Res Unit :=
  c.extract.2.store c.index (fun v => u8 (v &&& u8 c.extract.1 : Nat))

/-- Handler `INPUT_OR`. -/
def INPUT_OR (c : Ctx) : Res Unit :=
  c.extract.2.store c.index (fun v => u8 (v ||| u8 c.extract.1 : Nat))

/-- Closing of the open output file, if any: it joins the written files. -/
def Ctx.closeOutput (c : Ctx) : Ctx :=
  match c.file_output with
  | some f => { c with disk_out := c.disk_out ++ [f], file_output := none }
  | none => c

/-- Values that a newly opened `std::ifstream(filename)` yields: those of the
file of that name among the files `disk` present when the run starts, none
when there is no such file.  A file that the run itself has written is kept
apart, in `disk_out`, and is not read back through this function. -/
def lookupFile (disk : List (List Char × List Nat)) (filename : List Char) : List Nat :=
  match disk.find? (fun f => f.1 = filename) with
  | some f => f.2
  | none => []

/-- Handler `FILE_OPEN` (lines 497-527). -/
def FILE_OPEN (fuel : Nat) (c : Ctx) : Res Unit :=
  let p := c.script.peek
  let mode := p.1
  if mode ≠ some 'v' ∧ mode ≠ some '^' then
    .throw (.runtime_error "Expected filename open mode") { c with script := p.2 }
  else
  let q := p.2.ignore.peek
  if q.1 ≠ some (Char.ofNat 34) then
    .throw (.runtime_error "Expected starting quotes") { c with script := q.2 }
  else
  match readUntil (Char.ofNat 34) fuel q.2.ignore [] with
  | none => .timeout
  | some (filename, s) =>
    if s.eof then .throw (.runtime_error "Expected ending quotes") { c with script := s }
    else
    let c1 := { c with script := s.ignore }
    if mode = some 'v' then
      .ok () { c1 with file_input := some (lookupFile c1.disk_in filename) }
    else .ok () { c1.closeOutput with file_output := some (filename, []) }

/-- Handler `FILE_CLOSE` (lines 529-550). -/
def FILE_CLOSE (c : Ctx) : Res Unit :=
  let p := c.script.peek
  let mode := p.1
  if mode ≠ some 'v' ∧ mode ≠ some '^' then
    .throw (.runtime_error "Expected filename close mode") { c with script := p.2 }
  else
  let c1 := { c with script := p.2.ignore }
  if mode = some 'v' then
    if c1.file_input.isSome then .ok () { c1 with file_input := none }
    else .throw (.runtime_error "No file opened with read mode") c1
  else
    if c1.file_output.isSome then .ok () c1.closeOutput
    else .throw (.runtime_error "No file opened with write mode") c1

/-! ## Dispatch and main loop -/

/-- The seventeen `Instruction` objects of lines 29-51, named by their
handler. -/
inductive Instr where
  | VALUE_INCREMENT | VALUE_DECREMENT | VALUE_OPERATION
  | INDEX_INCREMENT | INDEX_DECREMENT
  | UNCERTAINTY_START | UNCERTAINTY_END
  | LOOP_START | LOOP_END
  | OUTPUT_WRITE
  | INPUT_READ | INPUT_ADD | INPUT_XOR | INPUT_AND | INPUT_OR
  | FILE_OPEN | FILE_CLOSE
deriving DecidableEq, Repr

/-- The table `instruction_list` filled by `initializeInstructions`, looked up
by `findInstruction` (lines 53-85). -/
def findInstruction (id : Char) : Option Instr :=
  if id = '+' then some .VALUE_INCREMENT
  else if id = '-' then some .VALUE_DECREMENT
  else if id = '(' then some .VALUE_OPERATION
  else if id = '>' then some .INDEX_INCREMENT
  else if id = '<' then some .INDEX_DECREMENT
  else if id = '?' then some .UNCERTAINTY_START
  else if id = '!' then some .UNCERTAINTY_END
  else if id = '{' then some .LOOP_START
  else if id = '}' then some .LOOP_END
  else if id = '^' then some .OUTPUT_WRITE
  else if id = 'V' then some .INPUT_READ
  else if id = 'v' then some .INPUT_ADD
  else if id = 'x' then some .INPUT_XOR
  else if id = '&' then some .INPUT_AND
  else if id = '|' then some .INPUT_OR
  else if id = 'F' then some .FILE_OPEN
  else if id = 'f' then some .FILE_CLOSE
  else none

/-- The call `i.execute(POINTER_INFO_PARAMS)` of the handler of an
instruction. -/
def Instr.execute (i : Instr) (fuel : Nat) (T : Tokens) (c : Ctx) : Res Unit :=
  match i with
  | .VALUE_INCREMENT => Exomit.VALUE_INCREMENT c
  | .VALUE_DECREMENT => Exomit.VALUE_DECREMENT c
  | .VALUE_OPERATION => Exomit.VALUE_OPERATION fuel T c
  | .INDEX_INCREMENT => Exomit.INDEX_INCREMENT c
  | .INDEX_DECREMENT => Exomit.INDEX_DECREMENT c
  | .UNCERTAINTY_START => Exomit.UNCERTAINTY_START fuel T c
  | .UNCERTAINTY_END => Exomit.UNCERTAINTY_END c
  | .LOOP_START => Exomit.LOOP_START fuel T c
  | .LOOP_END => Exomit.LOOP_END fuel T c
  | .OUTPUT_WRITE => Exomit.OUTPUT_WRITE fuel c
  | .INPUT_READ => Exomit.INPUT_READ c
  | .INPUT_ADD => Exomit.INPUT_ADD c
  | .INPUT_XOR => Exomit.INPUT_XOR c
  | .INPUT_AND => Exomit.INPUT_AND c
  | .INPUT_OR => Exomit.INPUT_OR c
  | .FILE_OPEN => Exomit.FILE_OPEN fuel c
  | .FILE_CLOSE => Exomit.FILE_CLOSE c

/-- The test of line 120 for the characters the main loop skips. -/
def isSkipped (ch : Char) : Bool :=
  ch.toNat = 10 || ch.toNat = 13 || ch.toNat = 32 || ch.toNat = 9 || ch.toNat = 11

/-- Function `format_string` (main.cpp, lines 152-160), applied to the
characters `vsprintf` produces from its format and arguments: the string made
of them, which the program returns whatever the size `count` it asked of
`malloc` for the buffer. -/
def format_string (_count : Nat) (text : List Char) : String :=
  String.mk text

/-- The characters of the format `%s '%c'` for the words `Invalid
instruction` and an unknown instruction (line 126). -/
def invalidInstruction (ch : Char) : List Char :=
  "Invalid instruction ".toList ++ [Char.ofNat 39, ch, Char.ofNat 39]

/-- One iteration of the loop `while (script.get(current_char))` of `interpret`
(main.cpp, lines 118-127); the boolean tells whether the loop goes on. -/
def step (fuel : Nat) (T : Tokens) (c : Ctx) : Res Bool :=
  match c.script.get with
  | (none, s) => .ok false { c with script := s }
  | (some current_char, s) =>
    let c1 := { c with script := s }
    if isSkipped current_char then .ok true c1
    else
      match findInstruction current_char with
      | some i => (i.execute fuel T c1).bind (fun _ c2 => .ok true c2)
      | none => .throw (.runtime_error (format_string 23 (invalidInstruction current_char))) c1

/-- The loop `while (script.get(current_char))` of `interpret`: `fuel` bounds
the loops and recursion inside each handler, the next argument the number of
iterations of the loop itself. -/
def interpretLoop (fuel : Nat) (T : Tokens) : Nat → Ctx → Res Unit
  | 0, _ => .timeout
  | n + 1, c =>
    match step fuel T c with
    | .ok true c1 => interpretLoop fuel T n c1
    | .ok false c1 => .ok () c1
    | .throw e c1 => .throw e c1
    | .undef => .undef
    | .timeout => .timeout

/-- The context in which `interpret` starts its loop on a script, for a given
initial tape. -/
def initial (text : List Char) (pointer : List Nat) : Ctx :=
  { script := IStream.open_ text, input := [], output := [], file_input := none,
    file_output := none, disk_in := [], disk_out := [], pointer := pointer, index := 0,
    uncertainty_count := 0, loop_stack := [] }

/-! ## Notions used by the statements -/

/-- The stream after `n` further characters have been read. -/
def IStream.adv (s : IStream) (n : Nat) : IStream :=
  { s with pos := s.pos + n, rest := s.rest.drop n }

/-- A stream on which the next read is attempted: neither `eofbit` nor
`failbit` is set. -/
def IStream.Good (s : IStream) : Prop :=
  s.eofbit = false ∧ s.failbit = false

instance (s : IStream) : Decidable s.Good := by
  unfold IStream.Good; infer_instance

/-- The modifier characters of a literal with the given flags, in the order of
the grammar: negative sign, value-at, index, then `+` or `-`. -/
def modChars (T : Tokens) (neg val ind add sub : Bool) : List Char :=
  (if neg then [T.NUMBER_MODIFIER_NEGATIVE] else []) ++
  (if val then [T.NUMBER_MODIFIER_VALUE_AT] else []) ++
  (if ind then [T.NUMBER_MODIFIER_INDEX] else []) ++
  (if add then ['+'] else if sub then ['-'] else [])

/-- A character with which a payload or the end of a literal starts: a digit,
the number-start or the number-end. -/
def Tokens.payloadStart (T : Tokens) (x : Char) : Prop :=
  x.isDigit = true ∨ x = T.NUMBER_START ∨ x = T.NUMBER_END

/-- The context `c1` differs from `c` at most in the script stream: tape,
index, counter, loop stack, standard streams and files are the same. -/
def Ctx.sameMachine (c c1 : Ctx) : Prop :=
  c1 = { c with script := c1.script }

/-- A result whose context, when the call returned or threw, differs from `c`
at most in the script stream. -/
def Res.keeps {α : Type} (c : Ctx) (r : Res α) : Prop :=
  match r with
  | .ok _ c1 => c.sameMachine c1
  | .throw _ c1 => c.sameMachine c1
  | .undef => True
  | .timeout => True

/-- The text is balanced for the delimiters `o` and `cl` when read at nesting
depth `d`: every `cl` in it closes an `o` of the text or one of the `d`
enclosing levels, and the depth is back to zero at its end (so that for
`d = 0` the `cl` that follows the text is the one matching the `o` before
it). -/
def balanced (o cl : Char) : Nat → List Char → Bool
  | d, [] => d == 0
  | d, ch :: r =>
    if ch = o then balanced o cl (d + 1) r
    else if ch = cl then (if d = 0 then false else balanced o cl (d - 1) r)
    else balanced o cl d r

/-- From `c` to `c1` the index is the same and the tape has not become
shorter. -/
def Ctx.tapeKept (c c1 : Ctx) : Prop :=
  c1.index = c.index ∧ c.pointer.length ≤ c1.pointer.length

/-- The stream `s` placed in another text, `k` positions further on: the
unread characters and the state bits are those of `s`. -/
def IStream.relocate (text : List Char) (k : Nat) (s : IStream) : IStream :=
  { s with text := text, pos := s.pos + k }

/-- The context with its script stream relocated. -/
def Ctx.relocate (text : List Char) (k : Nat) (c : Ctx) : Ctx :=
  { c with script := c.script.relocate text k }

/-- The result with the script stream of its context relocated. -/
def Res.relocate {α : Type} (text : List Char) (k : Nat) (r : Res α) : Res α :=
  match r with
  | .ok a c => .ok a (c.relocate text k)
  | .throw e c => .throw e (c.relocate text k)
  | .undef => .undef
  | .timeout => .timeout

/-- The result with a returned value `r` replaced by `(256 - r) mod 256`, its
negation as a `uint8_t`. -/
def Res.negate (r : Res Nat) : Res Nat :=
  match r with
  | .ok a c => .ok ((256 - a) % 256) c
  | other => other

/-- The stream `s` with another text and other unread characters, at the same
position and in the same state. -/
def IStream.withText (s : IStream) (text rest : List Char) : IStream :=
  { text := text, pos := s.pos, rest := rest, eofbit := s.eofbit, failbit := s.failbit }

/-- The context after `n` successive iterations of the main loop, each of which
returned normally with the loop going on (an instruction executed or a skipped
character); `none` when one of them did not. -/
def iterate (fuel : Nat) (T : Tokens) : Nat → Ctx → Option Ctx
  | 0, c => some c
  | n + 1, c =>
    match step fuel T c with
    | .ok true c1 => iterate fuel T n c1
    | _ => none

/-- The readable stream on `text` with the cursor at position `p`. -/
def IStream.at_ (text : List Char) (p : Nat) : IStream :=
  { text := text, pos := p, rest := text.drop p, eofbit := false, failbit := false }

/-- Number of iterations of the main loop spent in the first `k` rounds of a
loop whose `j`-th body execution takes `nb j` iterations: each round is the
body followed by the loop-close instruction. -/
def loopIterations (nb : Nat → Nat) : Nat → Nat
  | 0 => 0
  | k + 1 => loopIterations nb k + (nb k + 1)

/-- The machine state `c` with the script stream `s` and the Loop Position
Stack `stack`. -/
def Ctx.atLoop (c : Ctx) (s : IStream) (stack : List Int) : Ctx :=
  { c with script := s, loop_stack := stack }


/-- Lines 237-266 of `parseExpression`, as a function of the relational result
`expression` and of the state `c3` left by the parse of the right number;
`again` stands for the recursive call. -/
def connective (again : Ctx → Res Bool) (T : Tokens) (expression : Bool) (c3 : Ctx) : Res Bool :=
  let m := matchConditional T c3.script
  let c4 := { c3 with script := m.2 }
  if m.1 = T.CONDITIONAL_AND then
    if expression then again c4 else .ok false c4
  else if m.1 = T.CONDITIONAL_OR then
    (again c4).bind (fun r c5 => .ok (r || expression) c5)
  else if m.1 = T.CONDITIONAL_XOR then
    (again c4).bind (fun r c5 => .ok (expression != r) c5)
  else .ok expression c4

/-- The six relational tokens, each with the comparison it stands for. -/
def Tokens.relationals (T : Tokens) : List (List Char × (Nat → Nat → Bool)) :=
  [(T.RELATIONAL_EQUAL, fun l r => decide (l = r)),
   (T.RELATIONAL_NOT_EQUAL, fun l r => decide (l ≠ r)),
   (T.RELATIONAL_GREATER_THAN, fun l r => decide (l > r)),
   (T.RELATIONAL_GREATER_THAN_OR_EQUAL, fun l r => decide (l ≥ r)),
   (T.RELATIONAL_LESS_THAN, fun l r => decide (l < r)),
   (T.RELATIONAL_LESS_THAN_OR_EQUAL, fun l r => decide (l ≤ r))]

/-- The three connective tokens. -/
def Tokens.conditionals (T : Tokens) : List (List Char) :=
  [T.CONDITIONAL_AND, T.CONDITIONAL_OR, T.CONDITIONAL_XOR]

/-- The streams `s` and `s1` are on the same text, at the same position, with
the same characters unread; the state bits may differ. -/
def IStream.samePlace (s s1 : IStream) : Prop :=
  s1.text = s.text ∧ s1.pos = s.pos ∧ s1.rest = s.rest

/-- The text that a format tag stands for when the current cell holds `v`: the
decimal digits of `v` for `n`, the character with code `v` for `c`, a space for
`_` and a line feed for the backslash. -/
def formatText (v : Nat) (tag : Char) : List Char :=
  if tag = 'n' then (Nat.repr v).toList
  else if tag = 'c' then [Char.ofNat v]
  else if tag = '_' then [' ']
  else [Char.ofNat 10]

/-- The text holds no close marker that balances the `d` levels open at its
start: read with `o` opening a level and `cl` closing one, the nesting depth,
`d` at the start, is never 0, neither inside the text nor at its end. -/
def unclosed (o cl : Char) : Nat → List Char → Bool
  | d, [] => decide (0 < d)
  | d, ch :: r =>
    decide (0 < d) &&
      (if ch = o then unclosed o cl (d + 1) r
       else if ch = cl then unclosed o cl (d - 1) r
       else unclosed o cl d r)

/-- The three logical connectives of an expression. -/
inductive Conditional where
  | AND
  | OR
  | XOR
deriving DecidableEq, Repr

/-- Meaning of a connective: conjunction, disjunction, boolean inequality. -/
def Conditional.apply (k : Conditional) (a b : Bool) : Bool :=
  match k with
  | .AND => a && b
  | .OR => a || b
  | .XOR => a != b

/-- The stream is on its text: the unread characters are those of the text
from the read position on, as on every stream obtained from an opened script
by reads and seeks. -/
def IStream.Coherent (s : IStream) : Prop :=
  s.rest = s.text.drop s.pos

/-- On the stream `failbit` is set only together with `eofbit`, as after reads
that ran into the end of the text. -/
def IStream.Ended (s : IStream) : Prop :=
  s.failbit = true → s.eofbit = true

/-- The stream `s1` comes after `s` by reads alone: same text, no more unread
characters, still on its text, and `failbit` only with `eofbit` if that held
of `s`. -/
def IStream.follows (s s1 : IStream) : Prop :=
  s1.text = s.text ∧ s1.rest.length ≤ s.rest.length ∧ (s.Coherent → s1.Coherent) ∧
    (s.Ended → s1.Ended)
/-! ## Stream primitives -/

theorem get_cons {s : IStream} {ch : Char} {r : List Char} (hg : s.Good)
    (hr : s.rest = ch :: r) : s.get = (some ch, s.adv 1) := by
  obtain ⟨h1, h2⟩ := hg
  simp [IStream.get, IStream.adv, h1, h2, hr]

theorem peek_cons {s : IStream} {ch : Char} {r : List Char} (hg : s.Good)
    (hr : s.rest = ch :: r) : s.peek = (some ch, s) := by
  obtain ⟨h1, h2⟩ := hg
  simp [IStream.peek, h1, h2, hr]

theorem ignore_cons {s : IStream} {ch : Char} {r : List Char} (hg : s.Good)
    (hr : s.rest = ch :: r) : s.ignore = s.adv 1 := by
  obtain ⟨h1, h2⟩ := hg
  simp [IStream.ignore, IStream.adv, h1, h2, hr]

theorem adv_good {s : IStream} (n : Nat) : (s.adv n).Good ↔ s.Good := Iff.rfl

theorem adv_rest (s : IStream) (n : Nat) : (s.adv n).rest = s.rest.drop n := rfl

theorem adv_adv (s : IStream) (m n : Nat) : (s.adv m).adv n = s.adv (m + n) := by
  simp only [IStream.adv, List.drop_drop, IStream.mk.injEq, and_true, true_and]
  omega

theorem adv_zero (s : IStream) : s.adv 0 = s := by
  simp [IStream.adv]


theorem digitLoop_digits (ds : List Char) : ∀ (fuel : Nat) (s : IStream) (acc : List Char)
    (e : Option Char) (tail : List Char),
    s.Good → s.rest = ds ++ e.toList ++ tail → (∀ d ∈ ds, d.isDigit = true) →
    isdigit e = false → (e = none → tail = []) →
    ds.length + 1 ≤ fuel →
    digitLoop fuel s acc = some (e, acc ++ ds,
      if e = none then { s.adv ds.length with eofbit := true, failbit := true }
      else s.adv (ds.length + 1)) := by
  induction ds with
  | nil =>
    intro fuel s acc e tail hg hr _ he hnone hf
    obtain ⟨fuel, rfl⟩ : ∃ k, fuel = k + 1 := ⟨fuel - 1, by omega⟩
    cases e with
    | none =>
      have hr2 : s.rest = [] := by simpa [hnone rfl] using hr
      obtain ⟨h1, h2⟩ := hg
      simp [digitLoop, IStream.get, h1, h2, hr2, IStream.adv]
    | some e =>
      have hr2 : s.rest = e :: tail := by simpa using hr
      simp only [isdigit] at he
      simp [digitLoop, get_cons hg hr2, he]
  | cons d ds ih =>
    intro fuel s acc e tail hg hr hd he hnone hf
    obtain ⟨fuel, rfl⟩ : ∃ k, fuel = k + 1 := ⟨fuel - 1, by simp at hf; omega⟩
    have hr2 : s.rest = d :: (ds ++ e.toList ++ tail) := by simpa using hr
    have hd1 : d.isDigit = true := hd d (by simp)
    have := ih fuel (s.adv 1) (acc ++ [d]) e tail ((adv_good 1).2 hg)
      (by simp [adv_rest, hr2]) (fun x hx => hd x (by simp [hx])) he hnone (by simp at hf; omega)
    simp only [digitLoop, get_cons hg hr2, hd1, if_true, this, adv_adv]
    simp [Nat.add_comm, Nat.add_left_comm]



theorem payloadStart_ne {T : Tokens} (hT : T.NumOK) {x : Char} (hx : T.payloadStart x) :
    x ≠ T.NUMBER_MODIFIER_NEGATIVE ∧ x ≠ T.NUMBER_MODIFIER_VALUE_AT ∧
    x ≠ T.NUMBER_MODIFIER_INDEX ∧ x ≠ '+' ∧ x ≠ '-' := by
  obtain ⟨d1, d2, d3, d4, d5, n1, n2, n3, n4, n5, n6, n7, n8, n9, n10, n11, _⟩ := hT
  rcases hx with hx | rfl | rfl
  · refine ⟨?_, ?_, ?_, ?_, ?_⟩ <;> rintro rfl <;> simp_all
  · exact ⟨n2, n3, n4, n5, n6⟩
  · exact ⟨n7, n8, n9, n10, n11⟩

theorem takeModifier_step (m : Char) (b : Bool) (s : IStream) (y : Char) (tail : List Char)
    (hg : s.Good) (hr : s.rest = (if b then [m] else []) ++ y :: tail)
    (hy : b = false → y ≠ m) :
    takeModifier m s.peek.1 s.peek.2 = (b, some y, s.adv (if b then 1 else 0)) ∧
    (s.adv (if b then 1 else 0)).peek = (some y, s.adv (if b then 1 else 0)) := by
  cases b with
  | false =>
    have hr2 : s.rest = y :: tail := by simpa using hr
    simp [takeModifier, peek_cons hg hr2, hy rfl, adv_zero]
  | true =>
    have hr2 : s.rest = m :: y :: tail := by simpa using hr
    have h3 : (s.adv 1).rest = y :: tail := by simp [adv_rest, hr2]
    have hg1 : (s.adv 1).Good := hg
    simp [takeModifier, peek_cons hg hr2, ignore_cons hg hr2, peek_cons hg1 h3]



theorem takeModifier_hit (m : Char) (s : IStream) (y : Char) (tail : List Char)
    (hg : s.Good) (hr : s.rest = m :: y :: tail) :
    takeModifier m (some m) s = (true, some y, s.adv 1) := by
  have h3 : (s.adv 1).rest = y :: tail := by simp [adv_rest, hr]
  have hg1 : (s.adv 1).Good := hg
  simp [takeModifier, ignore_cons hg hr, peek_cons hg1 h3]

theorem takeModifier_miss (m : Char) (s : IStream) (y : Char) (hy : y ≠ m) :
    takeModifier m (some y) s = (false, some y, s) := by
  simp [takeModifier, hy]

theorem readModifiers_modChars {T : Tokens} (hT : T.NumOK) (neg val ind add sub : Bool)
    (s : IStream) (x : Char) (tail : List Char) (hg : s.Good)
    (hr : s.rest = modChars T neg val ind add sub ++ x :: tail)
    (hx : T.payloadStart x) (hadd : add = true → sub = false)
    (hminus : neg = false → val = false → ind = false → sub = true →
      T.NUMBER_MODIFIER_NEGATIVE ≠ '-') :
    readModifiers T s.peek.1 s.peek.2 =
      { neg := neg, val := val, ind := ind, add := add, sub := sub, op := some x,
        s := s.adv (modChars T neg val ind add sub).length } := by
  obtain ⟨x1, x2, x3, x4, x5⟩ := payloadStart_ne hT hx
  obtain ⟨d1, d2, d3, d4, d5, n1, n2, n3, n4, n5, n6, n7, n8, n9, n10, n11,
    m1, m2, m3, m4, m5, m6, m7, m8⟩ := hT
  have pm : ('+' : Char) ≠ '-' := by decide
  obtain ⟨text, pos, rest, e, f⟩ := s
  obtain ⟨h1, h2⟩ := hg
  simp only at h1 h2 hr
  subst h1 h2 hr
  cases neg <;> cases val <;> cases ind <;> cases add <;> cases sub <;>
    first
    | (exfalso; simpa using hadd rfl)
    | (have hm := hminus rfl rfl rfl rfl
       simp [modChars, readModifiers, takeModifier, IStream.peek, IStream.ignore, IStream.adv,
         x1, x2, x3, x4, x5, Ne.symm m1, Ne.symm m2, Ne.symm m3, Ne.symm m4, Ne.symm m5, Ne.symm m6,
         Ne.symm m7, Ne.symm m8, m1, m2, m3, m4, m5, m6, m7, m8, pm, Ne.symm pm, hm, Ne.symm hm])
    | (simp [modChars, readModifiers, takeModifier, IStream.peek, IStream.ignore, IStream.adv,
         x1, x2, x3, x4, x5, Ne.symm m1, Ne.symm m2, Ne.symm m3, Ne.symm m4, Ne.symm m5, Ne.symm m6,
         Ne.symm m7, Ne.symm m8, m1, m2, m3, m4, m5, m6, m7, m8, pm, Ne.symm pm])



theorem peek_fst_good {s : IStream} (hg : s.Good) : s.peek.1 = s.rest.head? := by
  obtain ⟨h1, h2⟩ := hg
  unfold IStream.peek
  cases hr : s.rest <;> simp [h1, h2]

theorem skipNumberEnds_spec (T : Tokens) (k : Nat) : ∀ (fuel : Nat) (s : IStream)
    (tail : List Char), s.Good → s.rest = List.replicate k T.NUMBER_END ++ tail →
    tail.head? ≠ some T.NUMBER_END → k + 1 ≤ fuel →
    skipNumberEnds T fuel s = some (s.adv k).peek.2 := by
  induction k with
  | zero =>
    intro fuel s tail hg hr ht hf
    obtain ⟨fuel, rfl⟩ : ∃ n, fuel = n + 1 := ⟨fuel - 1, by omega⟩
    have hr2 : s.rest = tail := by simpa using hr
    simp [skipNumberEnds, peek_fst_good hg, hr2, ht, adv_zero]
  | succ k ih =>
    intro fuel s tail hg hr ht hf
    obtain ⟨fuel, rfl⟩ : ∃ n, fuel = n + 1 := ⟨fuel - 1, by omega⟩
    have hr2 : s.rest = T.NUMBER_END :: (List.replicate k T.NUMBER_END ++ tail) := by
      simpa [List.replicate_succ] using hr
    have := ih fuel (s.adv 1) tail hg (by simp [adv_rest, hr2]) ht (by omega)
    simp [skipNumberEnds, peek_cons hg hr2, ignore_cons hg hr2, IStream.eof, hg.1, this, adv_adv,
      Nat.add_comm]

theorem parseNum_unfold {T : Tokens} (hT : T.NumOK) (neg val ind add sub : Bool)
    (fuel : Nat) (c : Ctx) (x : Char) (tail : List Char) (hg : c.script.Good)
    (hr : c.script.rest = T.NUMBER_START :: (modChars T neg val ind add sub ++ x :: tail))
    (hx : T.payloadStart x) (hfirst : x = T.NUMBER_END → modChars T neg val ind add sub ≠ [])
    (hadd : add = true → sub = false)
    (hminus : neg = false → val = false → ind = false → sub = true →
      T.NUMBER_MODIFIER_NEGATIVE ≠ '-') :
    parseNum (fuel + 1) T c = parsePayload (parseNum fuel T) fuel T c
      { neg := neg, val := val, ind := ind, add := add, sub := sub, op := some x,
        s := c.script.adv (1 + (modChars T neg val ind add sub).length) } := by
  have hg1 : (c.script.adv 1).Good := hg
  have hr1 : (c.script.adv 1).rest = modChars T neg val ind add sub ++ x :: tail := by
    simp [adv_rest, hr]
  have hm := readModifiers_modChars hT neg val ind add sub (c.script.adv 1) x tail hg1 hr1 hx
    hadd hminus
  have hne : (c.script.adv 1).peek.1 ≠ some T.NUMBER_END := by
    rw [peek_fst_good hg1, hr1]
    obtain ⟨d1, d2, d3, d4, d5, n1, n2, n3, n4, n5, n6, n7, n8, n9, n10, n11, _⟩ := hT
    cases neg <;> cases val <;> cases ind <;> cases add <;> cases sub <;>
      simp_all [modChars, Ne.symm]
  rw [parseNum]
  simp only [get_cons hg hr, ne_eq, not_true_eq_false, if_false, hne, hm, adv_adv]

theorem parsePayload_empty (again : Ctx → Res Nat) (fuel : Nat) {T : Tokens} (hT : T.NumOK)
    (c : Ctx) (m : Mods) (hop : m.op = some T.NUMBER_END) :
    parsePayload again fuel T c m = resolveEmpty m { c with script := m.s.ignore } := by
  simp [parsePayload, hop, isdigit, hT.2.1]

theorem parsePayload_nested (again : Ctx → Res Nat) (fuel : Nat) {T : Tokens} (hT : T.NumOK)
    (c : Ctx) (m : Mods) (hop : m.op = some T.NUMBER_START) :
    parsePayload again fuel T c m = (again { c with script := m.s }).bind (resolveNested m) := by
  simp [parsePayload, hop, isdigit, hT.1, hT.2.2.2.2.2.1]

theorem parsePayload_digits (again : Ctx → Res Nat) (fuel : Nat) {T : Tokens} (hT : T.NumOK)
    (c : Ctx) (m : Mods) (d : Char) (ds : List Char) (k : Nat) (tail : List Char)
    (hop : m.op = some d) (hg : m.s.Good)
    (hr : m.s.rest = d :: ds ++ T.NUMBER_END :: (List.replicate k T.NUMBER_END ++ tail))
    (hd : ∀ x ∈ d :: ds, x.isDigit = true) (ht : tail.head? ≠ some T.NUMBER_END)
    (hf : ds.length + k + 2 ≤ fuel) :
    parsePayload again fuel T c m =
      match stoi (d :: ds) with
      | none => .throw (.out_of_range "stoi")
          { c with script := (m.s.adv (ds.length + k + 2)).peek.2 }
      | some num => resolveDigits again m num
          { c with script := (m.s.adv (ds.length + k + 2)).peek.2 } := by
  have hd1 : d.isDigit = true := hd d (by simp)
  have hr0 : m.s.rest = d :: (ds ++ T.NUMBER_END :: (List.replicate k T.NUMBER_END ++ tail)) := by
    simpa using hr
  have hl := digitLoop_digits ds fuel (m.s.adv 1) [d] (some T.NUMBER_END)
    (List.replicate k T.NUMBER_END ++ tail) hg (by simp [adv_rest, hr0])
    (fun x hx => hd x (by simp [hx])) (by simp [isdigit, hT.2.1]) (by simp) (by omega)
  have hs := skipNumberEnds_spec T k fuel (m.s.adv (ds.length + 2)) tail hg
    (by simp [adv_rest, hr0]) ht (by omega)
  simp only [parsePayload, hop, isdigit, hd1, Bool.not_true, Bool.false_eq_true, if_false,
    ignore_cons hg hr0, Option.toList_some, hl, adv_adv, ne_eq, not_true_eq_false,
    List.singleton_append, reduceCtorEq]
  have e1 : 1 + (ds.length + 1) = ds.length + 2 := by omega
  have e2 : ds.length + 2 + k = ds.length + k + 2 := by omega
  simp only [e1, hs, adv_adv, e2]



theorem split_ends (e : Char) (tail : List Char) :
    ∃ k tail1, tail = List.replicate k e ++ tail1 ∧ tail1.head? ≠ some e ∧ k ≤ tail.length := by
  induction tail with
  | nil => exact ⟨0, [], by simp⟩
  | cons a t ih =>
    by_cases h : a = e
    · obtain ⟨k, t1, h1, h2, h3⟩ := ih
      refine ⟨k + 1, t1, ?_, h2, by simp; omega⟩
      simp [List.replicate_succ, h, ← h1]
    · exact ⟨0, a :: t, by simp [h]⟩

theorem u8_natCast (n : Nat) : u8 (n : Int) = n % 256 := by
  unfold u8; omega

theorem digit_payloadStart (T : Tokens) {d : Char} (h : d.isDigit = true) : T.payloadStart d :=
  Or.inl h

/-- C1 (amended): for every non-empty string of decimal digits `ds` whose value
fits an `int`, `parseNum` started on a readable stream whose next characters
are the unmodified literal `[ds]` returns `decimal ds % 256` and changes only
the script stream; when the value exceeds 2147483647 the call raises the
`std::out_of_range` of `std::stoi` instead. -/
theorem parseNum_unmodified_literal (T : Tokens) (hT : T.NumOK) (c : Ctx)
    (ds tail : List Char) (hg : c.script.Good) (hne : ds ≠ [])
    (hd : ∀ x ∈ ds, x.isDigit = true)
    (hr : c.script.rest = T.NUMBER_START :: ds ++ T.NUMBER_END :: tail)
    (fuel : Nat) (hf : c.script.rest.length + 1 ≤ fuel) :
    ∃ s, parseNum fuel T c =
      if decimal ds ≤ 2147483647 then .ok (decimal ds % 256) { c with script := s }
      else .throw (.out_of_range "stoi") { c with script := s } := by
  obtain ⟨d, ds, rfl⟩ : ∃ d ds1, ds = d :: ds1 := by
    cases ds with
    | nil => exact absurd rfl hne
    | cons d ds1 => exact ⟨d, ds1, rfl⟩
  obtain ⟨k, tail1, rfl, ht, hk⟩ := split_ends T.NUMBER_END tail
  obtain ⟨fuel, rfl⟩ : ∃ n, fuel = n + 1 := ⟨fuel - 1, by omega⟩
  have hd1 : d.isDigit = true := hd d (by simp)
  have hlen : ds.length + k + 2 ≤ fuel := by
    simp [hr] at hf; simp at hk; omega
  have hr1 : c.script.rest = T.NUMBER_START ::
      (modChars T false false false false false ++ d :: (ds ++ T.NUMBER_END ::
        (List.replicate k T.NUMBER_END ++ tail1))) := by
    simpa [modChars] using hr
  have hu := parseNum_unfold hT false false false false false fuel c d _ hg hr1
    (digit_payloadStart T hd1)
    (fun h => by rw [h, hT.2.1] at hd1; exact absurd hd1 (by simp))
    (fun _ => rfl) (fun _ _ _ h => by simp at h)
  have hp := parsePayload_digits (parseNum fuel T) fuel hT c
    { neg := false, val := false, ind := false, add := false, sub := false, op := some d,
      s := c.script.adv (1 + (modChars T false false false false false).length) }
    d ds k tail1 rfl hg (by simp [adv_rest, hr, modChars]) hd ht hlen
  rw [hu, hp]
  refine ⟨((c.script.adv (1 + (modChars T false false false false false).length)).adv
    (ds.length + k + 2)).peek.2, ?_⟩
  by_cases hfit : decimal (d :: ds) ≤ 2147483647
  · simp [stoi, hfit, resolveDigits, u8_natCast]
  · simp [stoi, hfit]

/-- C1 (witness): the literal `[300]` yields 300 mod 256 = 44. -/
theorem parseNum_unmodified_literal_witness :
    ∃ s, parseNum 6 sampleTokens (initial "[300]".toList [0]) =
      if decimal "300".toList ≤ 2147483647 then
        .ok (decimal "300".toList % 256) { initial "[300]".toList [0] with script := s }
      else .throw (.out_of_range "stoi") { initial "[300]".toList [0] with script := s } :=
  parseNum_unmodified_literal sampleTokens (by decide) (initial "[300]".toList [0])
    "300".toList [] (by decide) (by decide) (by decide) (by decide) 6 (by decide)

/-- C1 (counterexample): the unmodified literal `[2147483648]` does not yield
2147483648 mod 256 = 0: the call raises `std::out_of_range`. -/
theorem parseNum_unmodified_literal_overflow :
    parseNum 13 sampleTokens (initial "[2147483648]".toList [0]) =
      .throw (.out_of_range "stoi")
        { initial "[2147483648]".toList [0] with
          script := { text := "[2147483648]".toList, pos := 12, rest := [],
                      eofbit := true, failbit := false } } := by
  decide



theorem u32_natCast (n : Nat) : u32 (n : Int) = n % 4294967296 := by
  unfold u32; omega

/-- C2 (amended): on a literal with the value-at-index marker, the index marker
and the offset marker `+` followed by the digits of `k` (which fits an `int`),
`parseNum` reads the cell at position `(Index + k) mod 2^32` with a
bounds-checked access: it returns that cell modulo 256 when the position is
below the tape length, and raises `std::out_of_range` when it is not; the tape
is never grown. -/
theorem parseNum_value_at_offset (T : Tokens) (hT : T.NumOK) (c : Ctx)
    (ds tail : List Char) (hg : c.script.Good) (hne : ds ≠ [])
    (hd : ∀ x ∈ ds, x.isDigit = true)
    (hr : c.script.rest = T.NUMBER_START :: T.NUMBER_MODIFIER_VALUE_AT ::
      T.NUMBER_MODIFIER_INDEX :: '+' :: ds ++ T.NUMBER_END :: tail)
    (hfit : decimal ds ≤ 2147483647)
    (fuel : Nat) (hf : c.script.rest.length + 1 ≤ fuel) :
    ∃ s, parseNum fuel T c =
      match c.pointer[(c.index + decimal ds) % 4294967296]? with
      | some v => .ok (v % 256) { c with script := s }
      | none => .throw (.out_of_range "vector::at") { c with script := s } := by
  obtain ⟨d, ds, rfl⟩ : ∃ d ds1, ds = d :: ds1 := by
    cases ds with
    | nil => exact absurd rfl hne
    | cons d ds1 => exact ⟨d, ds1, rfl⟩
  obtain ⟨k, tail1, rfl, ht, hk⟩ := split_ends T.NUMBER_END tail
  obtain ⟨fuel, rfl⟩ : ∃ n, fuel = n + 1 := ⟨fuel - 1, by omega⟩
  have hd1 : d.isDigit = true := hd d (by simp)
  have hlen : ds.length + k + 2 ≤ fuel := by
    simp [hr] at hf; simp at hk; omega
  have hr1 : c.script.rest = T.NUMBER_START ::
      (modChars T false true true true false ++ d :: (ds ++ T.NUMBER_END ::
        (List.replicate k T.NUMBER_END ++ tail1))) := by
    simpa [modChars] using hr
  have hu := parseNum_unfold hT false true true true false fuel c d _ hg hr1
    (digit_payloadStart T hd1)
    (fun h => by rw [h, hT.2.1] at hd1; exact absurd hd1 (by simp))
    (fun _ => rfl) (fun _ h => by simp at h)
  have hp := parsePayload_digits (parseNum fuel T) fuel hT c
    { neg := false, val := true, ind := true, add := true, sub := false, op := some d,
      s := c.script.adv (1 + (modChars T false true true true false).length) }
    d ds k tail1 rfl hg (by simp [adv_rest, hr, modChars]) hd ht hlen
  rw [hu, hp]
  refine ⟨((c.script.adv (1 + (modChars T false true true true false).length)).adv
    (ds.length + k + 2)).peek.2, ?_⟩
  have e : u32 ((c.index : Int) + (decimal (d :: ds) : Int)) =
      (c.index + decimal (d :: ds)) % 4294967296 := by
    rw [← u32_natCast]; simp
  simp only [stoi, hfit, if_true, resolveDigits, negAt, Ctx.pointer_at, e]
  cases c.pointer[(c.index + decimal (d :: ds)) % 4294967296]? with
  | none => simp [Res.bind]
  | some v => simp [Res.bind, u8_natCast]

/-- C2 (witness): `[vi+1]` on the tape `[5, 7]` at index 0 yields the cell 7. -/
theorem parseNum_value_at_offset_witness :
    ∃ s, parseNum 8 sampleTokens (initial "[vi+1]".toList [5, 7]) =
      match (initial "[vi+1]".toList [5, 7]).pointer[
        ((initial "[vi+1]".toList [5, 7]).index + decimal "1".toList) % 4294967296]? with
      | some v => .ok (v % 256) { initial "[vi+1]".toList [5, 7] with script := s }
      | none => .throw (.out_of_range "vector::at")
          { initial "[vi+1]".toList [5, 7] with script := s } :=
  parseNum_value_at_offset sampleTokens (by decide) (initial "[vi+1]".toList [5, 7])
    "1".toList [] (by decide) (by decide) (by decide) (by decide) (by decide) 8 (by decide)

/-- C2 (counterexample): `[vi+2]` on the tape `[5, 7]` at index 0 addresses the
position 2, at the tape length: the call does not return 0 with a grown tape,
it raises `std::out_of_range` and the tape still has two cells. -/
theorem parseNum_value_at_offset_no_growth :
    parseNum 8 sampleTokens (initial "[vi+2]".toList [5, 7]) =
      .throw (.out_of_range "vector::at")
        { initial "[vi+2]".toList [5, 7] with
          script := { text := "[vi+2]".toList, pos := 6, rest := [],
                      eofbit := true, failbit := false } } := by
  decide



theorem sameMachine_refl (c : Ctx) : c.sameMachine c := rfl

theorem sameMachine_script (c : Ctx) (s : IStream) : c.sameMachine { c with script := s } := rfl

theorem sameMachine_trans {a b c : Ctx} (h1 : a.sameMachine b) (h2 : b.sameMachine c) :
    a.sameMachine c := by
  unfold Ctx.sameMachine at *
  rw [h2, h1]

theorem sameMachine_set {a b : Ctx} (h : a.sameMachine b) (s : IStream) :
    a.sameMachine { b with script := s } :=
  sameMachine_trans h (sameMachine_script b s)

theorem keeps_of_sameMachine {α : Type} {a b : Ctx} (h : a.sameMachine b) {r : Res α}
    (hr : r.keeps b) : r.keeps a := by
  cases r <;> simp_all [Res.keeps] <;> exact sameMachine_trans h hr

theorem keeps_bind {α β : Type} {c : Ctx} {r : Res α} {f : α → Ctx → Res β}
    (hr : r.keeps c) (hf : ∀ a c1, c.sameMachine c1 → (f a c1).keeps c) :
    (r.bind f).keeps c := by
  cases r with
  | ok a c1 => exact hf a c1 hr
  | throw e c1 => exact hr
  | undef => trivial
  | timeout => trivial

theorem keeps_negAt (neg : Bool) (c : Ctx) (i : Nat) : (negAt neg c i).keeps c := by
  unfold negAt Ctx.pointer_at
  cases c.pointer[i]? <;> simp [Res.bind, Res.keeps, sameMachine_refl]

theorem keeps_resolveEmpty (m : Mods) (c : Ctx) : (resolveEmpty m c).keeps c := by
  unfold resolveEmpty
  split
  · exact sameMachine_refl c
  · split
    · exact keeps_negAt _ _ _
    · exact sameMachine_refl c

theorem keeps_resolveNested (m : Mods) (n : Nat) (c : Ctx) : (resolveNested m n c).keeps c := by
  unfold resolveNested
  simp only
  repeat' split
  all_goals first | exact keeps_negAt _ _ _ | exact sameMachine_refl c

theorem keeps_resolveDigits (again : Ctx → Res Nat) (hagain : ∀ c, (again c).keeps c)
    (m : Mods) (n : Nat) (c : Ctx) : (resolveDigits again m n c).keeps c := by
  unfold resolveDigits
  simp only
  repeat' split
  all_goals first
    | exact keeps_negAt _ _ _
    | exact sameMachine_refl c
    | exact keeps_bind (hagain c) (fun a c1 h => h)

theorem keeps_parsePayload (again : Ctx → Res Nat) (hagain : ∀ c, (again c).keeps c)
    (fuel : Nat) (T : Tokens) (c : Ctx) (m : Mods) :
    (parsePayload again fuel T c m).keeps c := by
  unfold parsePayload
  split
  · split
    · exact keeps_of_sameMachine (sameMachine_script c _) (keeps_resolveEmpty _ _)
    · split
      · exact keeps_of_sameMachine (sameMachine_script c _)
          (keeps_bind (hagain _) (fun a c1 h => keeps_of_sameMachine h (keeps_resolveNested m a c1)))
      · exact sameMachine_script c _
  · split
    · trivial
    · split
      · exact sameMachine_script c _
      · split
        · trivial
        · split
          · exact sameMachine_script c _
          · exact keeps_of_sameMachine (sameMachine_script c _)
              (keeps_resolveDigits again hagain m _ _)

theorem keeps_parseNum (fuel : Nat) (T : Tokens) : ∀ c, (parseNum fuel T c).keeps c := by
  induction fuel with
  | zero => intro c; trivial
  | succ fuel ih =>
    intro c
    rw [parseNum]
    simp only
    split
    · exact sameMachine_script c _
    · split
      · exact sameMachine_script c _
      · exact keeps_parsePayload _ ih fuel T c _



theorem keeps_parseExpression (fuel : Nat) (T : Tokens) :
    ∀ c, (parseExpression fuel T c).keeps c := by
  induction fuel with
  | zero => intro c; trivial
  | succ fuel ih =>
    intro c
    rw [parseExpression]
    have h1 := keeps_parseNum fuel T c
    split
    · rename_i e c1 heq; rw [heq] at h1; exact h1
    · trivial
    · trivial
    · rename_i left c1 heq
      rw [heq] at h1
      have h1 : c.sameMachine c1 := h1
      split
      · trivial
      · rename_i rel s2 hrel
        have h2 := keeps_parseNum fuel T { c1 with script := s2 }
        have h12 : c.sameMachine { c1 with script := s2 } := sameMachine_set h1 s2
        split
        · rename_i e c3 heq3; rw [heq3] at h2; exact sameMachine_trans h12 h2
        · trivial
        · trivial
        · rename_i right c3 heq3
          rw [heq3] at h2
          have h3 : c.sameMachine c3 := sameMachine_trans h12 h2
          split
          · exact h3
          · rename_i expression hexp
            simp only
            have h4 : c.sameMachine { c3 with script := (matchConditional T c3.script).2 } :=
              sameMachine_set h3 _
            have h5 := keeps_of_sameMachine h4 (ih { c3 with script := (matchConditional T c3.script).2 })
            split
            · split
              · exact h5
              · exact h4
            · split
              · exact keeps_bind h5 (fun a c1 h => h)
              · split
                · exact keeps_bind h5 (fun a c1 h => h)
                · exact h4



theorem skipLoop_balanced (body : List Char) : ∀ (d : Nat) (s : IStream) (post : List Char)
    (fuel : Nat), s.Good → s.rest = body ++ '}' :: post → balanced '{' '}' d body = true →
    d + body.length + 1 < 4294967296 → body.length + 2 ≤ fuel →
    skipLoop fuel (d + 1) s = .done (s.adv (body.length + 1)) := by
  induction body with
  | nil =>
    intro d s post fuel hg hr hb hd hf
    obtain ⟨fuel, rfl⟩ : ∃ n, fuel = n + 2 := ⟨fuel - 2, by simp at hf; omega⟩
    have hd0 : d = 0 := by simpa [balanced] using hb
    subst hd0
    have hr2 : s.rest = '}' :: post := by simpa using hr
    simp [skipLoop, get_cons hg hr2, u32]
  | cons ch r ih =>
    intro d s post fuel hg hr hb hd hf
    obtain ⟨fuel, rfl⟩ : ∃ n, fuel = n + 1 := ⟨fuel - 1, by simp at hf; omega⟩
    have hr2 : s.rest = ch :: (r ++ '}' :: post) := by simpa using hr
    have hg1 : (s.adv 1).Good := hg
    have hr1 : (s.adv 1).rest = r ++ '}' :: post := by simp [adv_rest, hr2]
    simp only [List.length_cons] at hd hf ⊢
    have e : 1 + (r.length + 1) = r.length + 1 + 1 := by omega
    rw [skipLoop]
    simp only [get_cons hg hr2, gt_iff_lt, Nat.zero_lt_succ, if_true, Option.some.injEq]
    by_cases h1 : ch = '{'
    · subst h1
      have hb1 : balanced '{' '}' (d + 1) r = true := by simpa [balanced] using hb
      have hu : u32 (((d + 1 : Nat) : Int) + 1) = d + 1 + 1 := by unfold u32; omega
      simp only [if_true, hu]
      rw [ih (d + 1) (s.adv 1) post fuel hg1 hr1 hb1 (by omega) (by omega), adv_adv, e]
    · by_cases h2 : ch = '}'
      · subst h2
        have hd0 : d ≠ 0 := by
          intro h; subst h; simp [balanced] at hb
        have hb1 : balanced '{' '}' (d - 1) r = true := by
          simpa [balanced, hd0] using hb
        have hu : u32 (((d + 1 : Nat) : Int) - 1) = (d - 1) + 1 := by unfold u32; omega
        simp only [h1, if_false, if_true, hu]
        rw [ih (d - 1) (s.adv 1) post fuel hg1 hr1 hb1 (by omega) (by omega), adv_adv, e]
      · have hb1 : balanced '{' '}' d r = true := by simpa [balanced, h1, h2] using hb
        simp only [h1, h2, if_false]
        rw [ih d (s.adv 1) post fuel hg1 hr1 hb1 (by omega) (by omega), adv_adv, e]

theorem skipUncertainty_balanced (body : List Char) : ∀ (d : Nat) (s : IStream)
    (post : List Char) (fuel : Nat), s.Good → s.rest = body ++ '!' :: post →
    balanced '?' '!' d body = true →
    d + body.length + 1 < 2147483647 → body.length + 2 ≤ fuel →
    skipUncertainty fuel ((d : Int) + 1) s = .done (s.adv (body.length + 1)) := by
  induction body with
  | nil =>
    intro d s post fuel hg hr hb hd hf
    obtain ⟨fuel, rfl⟩ : ∃ n, fuel = n + 2 := ⟨fuel - 2, by simp at hf; omega⟩
    have hd0 : d = 0 := by simpa [balanced] using hb
    subst hd0
    have hr2 : s.rest = '!' :: post := by simpa using hr
    simp [skipUncertainty, get_cons hg hr2]
  | cons ch r ih =>
    intro d s post fuel hg hr hb hd hf
    obtain ⟨fuel, rfl⟩ : ∃ n, fuel = n + 1 := ⟨fuel - 1, by simp at hf; omega⟩
    have hr2 : s.rest = ch :: (r ++ '!' :: post) := by simpa using hr
    have hg1 : (s.adv 1).Good := hg
    have hr1 : (s.adv 1).rest = r ++ '!' :: post := by simp [adv_rest, hr2]
    simp only [List.length_cons] at hd hf ⊢
    have e : 1 + (r.length + 1) = r.length + 1 + 1 := by omega
    have hpos : (d : Int) + 1 > 0 := by omega
    rw [skipUncertainty]
    simp only [get_cons hg hr2, hpos, if_true, Option.some.injEq]
    by_cases h1 : ch = '?'
    · subst h1
      have hb1 : balanced '?' '!' (d + 1) r = true := by simpa [balanced] using hb
      have hmax : ¬ ((d : Int) + 1 = 2147483647) := by omega
      simp only [if_true, hmax, if_false]
      have := ih (d + 1) (s.adv 1) post fuel hg1 hr1 hb1 (by omega) (by omega)
      rw [Nat.cast_add, Nat.cast_one] at this
      rw [this, adv_adv, e]
    · by_cases h2 : ch = '!'
      · subst h2
        have hd0 : d ≠ 0 := by
          intro h; subst h; simp [balanced] at hb
        have hb1 : balanced '?' '!' (d - 1) r = true := by
          simpa [balanced, hd0] using hb
        have hu : (d : Int) + 1 - 1 = ((d - 1 : Nat) : Int) + 1 := by omega
        simp only [h1, if_false, if_true, hu]
        rw [ih (d - 1) (s.adv 1) post fuel hg1 hr1 hb1 (by omega) (by omega), adv_adv, e]
      · have hb1 : balanced '?' '!' d r = true := by simpa [balanced, h1, h2] using hb
        simp only [h1, h2, if_false]
        rw [ih d (s.adv 1) post fuel hg1 hr1 hb1 (by omega) (by omega), adv_adv, e]



/-- C5: when the guard that follows a loop-open marker evaluates to false and
the text after the guard is a body balanced for `{` and `}` followed by the
close marker `}`, `LOOP_START` returns with the cursor immediately after that
close marker and with the context otherwise as it was at its call: the Loop
Position Stack, the tape, the index and everything else are unchanged, so no
instruction of the body is executed. -/
theorem LOOP_START_false_guard (T : Tokens) (c c1 : Ctx) (body post : List Char) (fuel : Nat)
    (hguard : parseExpression fuel T
      { c with script := c.script.tellg.2, loop_stack := c.script.tellg.1 :: c.loop_stack } =
        .ok false c1)
    (hg : c1.script.Good) (hr : c1.script.rest = body ++ '}' :: post)
    (hbal : balanced '{' '}' 0 body = true)
    (hlen : body.length + 1 < 4294967296) (hf : body.length + 2 ≤ fuel) :
    LOOP_START fuel T c = .ok () { c with script := c1.script.adv (body.length + 1) } ∧
    (c1.script.adv (body.length + 1)).rest = post ∧
    (c1.script.adv (body.length + 1)).pos = c1.script.pos + body.length + 1 := by
  have hk := keeps_parseExpression fuel T
    { c with script := c.script.tellg.2, loop_stack := c.script.tellg.1 :: c.loop_stack }
  rw [hguard] at hk
  have hk : c1 =
      { c with script := c1.script, loop_stack := c.script.tellg.1 :: c.loop_stack } := hk
  have hs := skipLoop_balanced body 0 c1.script post fuel hg hr hbal (by omega) hf
  refine ⟨?_, by simp [adv_rest, hr], by simp [IStream.adv, Nat.add_assoc]⟩
  unfold LOOP_START
  simp only [hguard, Nat.zero_add] at hs ⊢
  rw [hs]
  simp only
  conv_lhs => rw [hk]
  simp

/-- C5 (witness): after the open marker of `{[1]=[2]+{-}+}>` the guard is
false and the body `+{-}+` holds a nested loop: the cursor ends before `>`. -/
theorem LOOP_START_false_guard_witness :
    LOOP_START 20 sampleTokens
        { initial "\x7b[1]=[2]+\x7b-\x7d+\x7d>".toList [0] with
          script := (IStream.open_ "\x7b[1]=[2]+\x7b-\x7d+\x7d>".toList).adv 1 } =
      .ok () { initial "\x7b[1]=[2]+\x7b-\x7d+\x7d>".toList [0] with
          script := ((IStream.open_ "\x7b[1]=[2]+\x7b-\x7d+\x7d>".toList).adv 8).adv ("+\x7b-\x7d+".toList.length + 1) } ∧
    (((IStream.open_ "\x7b[1]=[2]+\x7b-\x7d+\x7d>".toList).adv 8).adv ("+\x7b-\x7d+".toList.length + 1)).rest =
      ">".toList ∧
    (((IStream.open_ "\x7b[1]=[2]+\x7b-\x7d+\x7d>".toList).adv 8).adv ("+\x7b-\x7d+".toList.length + 1)).pos =
      ((IStream.open_ "\x7b[1]=[2]+\x7b-\x7d+\x7d>".toList).adv 8).pos + "+\x7b-\x7d+".toList.length + 1 :=
  LOOP_START_false_guard sampleTokens
    { initial "\x7b[1]=[2]+\x7b-\x7d+\x7d>".toList [0] with
      script := (IStream.open_ "\x7b[1]=[2]+\x7b-\x7d+\x7d>".toList).adv 1 }
    { initial "\x7b[1]=[2]+\x7b-\x7d+\x7d>".toList [0] with
      script := (IStream.open_ "\x7b[1]=[2]+\x7b-\x7d+\x7d>".toList).adv 8, loop_stack := [1] }
    "+\x7b-\x7d+".toList ">".toList 20 (by decide) (by decide) (by decide) (by decide) (by decide)
    (by decide)



/-- C6 (amended): when the guard that follows an uncertainty-open marker
evaluates to false and the text after the guard is a body in which the
characters `?` and `!` are balanced, wherever they stand, followed by `!`,
`UNCERTAINTY_START` returns with the cursor immediately after that `!` and
with the Uncertainty Counter, tape, index, loop stack and everything else
unchanged. -/
theorem UNCERTAINTY_START_false_guard (T : Tokens) (c c1 : Ctx) (body post : List Char)
    (fuel : Nat) (hguard : parseExpression fuel T c = .ok false c1)
    (hg : c1.script.Good) (hr : c1.script.rest = body ++ '!' :: post)
    (hbal : balanced '?' '!' 0 body = true)
    (hlen : body.length + 1 < 2147483647) (hf : body.length + 2 ≤ fuel) :
    UNCERTAINTY_START fuel T c = .ok () { c with script := c1.script.adv (body.length + 1) } ∧
    (c1.script.adv (body.length + 1)).rest = post ∧
    (c1.script.adv (body.length + 1)).pos = c1.script.pos + body.length + 1 := by
  have hk := keeps_parseExpression fuel T c
  rw [hguard] at hk
  have hk : c1 = { c with script := c1.script } := hk
  have hs := skipUncertainty_balanced body 0 c1.script post fuel hg hr hbal (by omega) hf
  refine ⟨?_, by simp [adv_rest, hr], by simp [IStream.adv, Nat.add_assoc]⟩
  unfold UNCERTAINTY_START
  simp only [hguard, Nat.cast_zero, Int.zero_add] at hs ⊢
  rw [hs]
  simp only
  conv_lhs => rw [hk]

/-- C6 (witness): after the open marker of `?[1]=[2]+?[1]=[1]+!+!>` the guard is
false and the body `+?[1]=[1]+!+` holds a nested block: the cursor ends
before `>`. -/
theorem UNCERTAINTY_START_false_guard_witness :
    UNCERTAINTY_START 20 sampleTokens
        { initial "?[1]=[2]+?[1]=[1]+!+!>".toList [0] with
          script := (IStream.open_ "?[1]=[2]+?[1]=[1]+!+!>".toList).adv 1 } =
      .ok () { initial "?[1]=[2]+?[1]=[1]+!+!>".toList [0] with
          script := ((IStream.open_ "?[1]=[2]+?[1]=[1]+!+!>".toList).adv 8).adv
            ("+?[1]=[1]+!+".toList.length + 1) } ∧
    (((IStream.open_ "?[1]=[2]+?[1]=[1]+!+!>".toList).adv 8).adv
      ("+?[1]=[1]+!+".toList.length + 1)).rest = ">".toList ∧
    (((IStream.open_ "?[1]=[2]+?[1]=[1]+!+!>".toList).adv 8).adv
      ("+?[1]=[1]+!+".toList.length + 1)).pos =
      ((IStream.open_ "?[1]=[2]+?[1]=[1]+!+!>".toList).adv 8).pos +
        "+?[1]=[1]+!+".toList.length + 1 :=
  UNCERTAINTY_START_false_guard sampleTokens
    { initial "?[1]=[2]+?[1]=[1]+!+!>".toList [0] with
      script := (IStream.open_ "?[1]=[2]+?[1]=[1]+!+!>".toList).adv 1 }
    { initial "?[1]=[2]+?[1]=[1]+!+!>".toList [0] with
      script := (IStream.open_ "?[1]=[2]+?[1]=[1]+!+!>".toList).adv 8 }
    "+?[1]=[1]+!+".toList ">".toList 20 (by decide) (by decide) (by decide) (by decide)
    (by decide) (by decide)

/-- C6 (counterexample): the skip scan counts every `?` and `!` of the text.
In `?[1]=[2]F^"a!"+!>` the block closes at the last `!`, but the scan stops
after the `!` inside the file name; in `?[1]=[2]?[3]!=[4]+!+!>` the nested
block has the guard `[3]!=[4]`, whose `!` is taken for the close of the nested
block, and the scan stops after the close of the nested block, before `+!>`. -/
theorem UNCERTAINTY_START_false_guard_raw_scan :
    UNCERTAINTY_START 20 sampleTokens
        { initial ("?[1]=[2]F^".toList ++ [Char.ofNat 34, 'a', '!', Char.ofNat 34] ++ "+!>".toList) [0] with
          script := (IStream.open_
            ("?[1]=[2]F^".toList ++ [Char.ofNat 34, 'a', '!', Char.ofNat 34] ++ "+!>".toList)).adv 1 } =
      .ok () { initial ("?[1]=[2]F^".toList ++ [Char.ofNat 34, 'a', '!', Char.ofNat 34] ++ "+!>".toList) [0] with
          script := { text := "?[1]=[2]F^".toList ++ [Char.ofNat 34, 'a', '!', Char.ofNat 34] ++ "+!>".toList,
                      pos := 13, rest := Char.ofNat 34 :: "+!>".toList,
                      eofbit := false, failbit := false } } ∧
    UNCERTAINTY_START 20 sampleTokens
        { initial "?[1]=[2]?[3]!=[4]+!+!>".toList [0] with
          script := (IStream.open_ "?[1]=[2]?[3]!=[4]+!+!>".toList).adv 1 } =
      .ok () { initial "?[1]=[2]?[3]!=[4]+!+!>".toList [0] with
          script := { text := "?[1]=[2]?[3]!=[4]+!+!>".toList, pos := 19, rest := "+!>".toList,
                      eofbit := false, failbit := false } } := by
  constructor <;> decide



theorem tapeKept_refl (c : Ctx) : c.tapeKept c := ⟨rfl, Nat.le_refl _⟩

theorem tapeKept_trans {a b c : Ctx} (h1 : a.tapeKept b) (h2 : b.tapeKept c) : a.tapeKept c :=
  ⟨h2.1.trans h1.1, Nat.le_trans h1.2 h2.2⟩

theorem tapeKept_of_sameMachine {a b : Ctx} (h : a.sameMachine b) : a.tapeKept b := by
  unfold Ctx.sameMachine at h
  rw [h]
  exact ⟨rfl, Nat.le_refl _⟩

theorem parseNum_ok_tapeKept {fuel : Nat} {T : Tokens} {c c1 : Ctx} {n : Nat}
    (h : parseNum fuel T c = .ok n c1) : c.tapeKept c1 := by
  have hk := keeps_parseNum fuel T c
  rw [h] at hk
  exact tapeKept_of_sameMachine hk

theorem parseExpression_ok_tapeKept {fuel : Nat} {T : Tokens} {c c1 : Ctx} {b : Bool}
    (h : parseExpression fuel T c = .ok b c1) : c.tapeKept c1 := by
  have hk := keeps_parseExpression fuel T c
  rw [h] at hk
  exact tapeKept_of_sameMachine hk

theorem store_ok_tapeKept {c c1 : Ctx} {i : Nat} {f : Nat → Nat}
    (h : c.store i f = .ok () c1) : c.tapeKept c1 := by
  unfold Ctx.store at h
  split at h
  · simp only [Res.ok.injEq, true_and] at h
    subst h
    exact ⟨rfl, by simp⟩
  · simp at h

theorem applyCompound_ok_tapeKept {fuel : Nat} {T : Tokens} {c c1 : Ctx} {i : Nat}
    {f : Nat → Nat → Option Nat} (h : applyCompound fuel T c i f = .ok () c1) :
    c.tapeKept c1 := by
  unfold applyCompound at h
  split at h
  · simp at h
  · simp at h
  · simp at h
  · rename_i m c2 hp
    have h2 := parseNum_ok_tapeKept hp
    split at h
    · simp at h
    · split at h
      · simp at h
      · simp only [Res.ok.injEq, true_and] at h
        subst h
        exact ⟨h2.1, by simpa using h2.2⟩

theorem bind_eq_ok {α β : Type} {r : Res α} {f : α → Ctx → Res β} {b : β} {c1 : Ctx}
    (h : r.bind f = .ok b c1) : ∃ a c2, r = .ok a c2 ∧ f a c2 = .ok b c1 := by
  cases r with
  | ok a c2 => exact ⟨a, c2, rfl, h⟩
  | throw e c2 => simp [Res.bind] at h
  | undef => simp [Res.bind] at h
  | timeout => simp [Res.bind] at h

theorem ignoreClose_ok_tapeKept {r : Res Unit} {c c1 : Ctx}
    (hr : ∀ c2, r = .ok () c2 → c.tapeKept c2) (h : ignoreClose r = .ok () c1) :
    c.tapeKept c1 := by
  obtain ⟨a, c2, h1, h2⟩ := bind_eq_ok h
  simp only [Res.ok.injEq, true_and] at h2
  subst h2
  exact hr c2 h1



theorem tapeKept_script (c : Ctx) (s : IStream) : c.tapeKept { c with script := s } :=
  ⟨rfl, Nat.le_refl _⟩

theorem tapeKept_pad_script {c c2 : Ctx} (h : c.tapeKept c2) (n : Nat) (s : IStream) :
    c.tapeKept { c2 with pointer := padTo c2.pointer n, script := s } :=
  ⟨h.1, by simpa [padTo] using Nat.le_trans h.2 (Nat.le_add_right _ _)⟩

theorem VALUE_OPERATION_ok_tapeKept {fuel : Nat} {T : Tokens} {c c1 : Ctx}
    (h : VALUE_OPERATION fuel T c = .ok () c1) : c.tapeKept c1 := by
  unfold VALUE_OPERATION at h
  simp only at h
  split at h
  · split at h
    · simp at h
    · exact ignoreClose_ok_tapeKept
        (fun c2 h2 => tapeKept_trans (tapeKept_script c _) (applyCompound_ok_tapeKept h2)) h
  · split at h
    · simp at h
    · simp at h
    · simp at h
    · rename_i n c2 hp
      have h2 := parseNum_ok_tapeKept hp
      have h3 := tapeKept_pad_script (tapeKept_trans (tapeKept_script c _) h2) n
        c2.script.get.2
      split at h
      · simp at h
      · split at h
        · exact ignoreClose_ok_tapeKept
            (fun c3 h4 => tapeKept_trans h3 (applyCompound_ok_tapeKept h4)) h
        · exact ignoreClose_ok_tapeKept
            (fun c3 h4 => tapeKept_trans h3 (applyCompound_ok_tapeKept h4)) h

theorem UNCERTAINTY_START_ok_tapeKept {fuel : Nat} {T : Tokens} {c c1 : Ctx}
    (h : UNCERTAINTY_START fuel T c = .ok () c1) : c.tapeKept c1 := by
  unfold UNCERTAINTY_START at h
  split at h
  · simp at h
  · simp at h
  · simp at h
  · rename_i c2 hp
    have h2 := parseExpression_ok_tapeKept hp
    split at h
    · simp only [Res.ok.injEq, true_and] at h
      subst h
      exact h2
    · simp at h
    · simp at h
  · rename_i c2 hp
    have h2 := parseExpression_ok_tapeKept hp
    simp only [Res.ok.injEq, true_and] at h
    subst h
    exact h2

theorem LOOP_START_ok_tapeKept {fuel : Nat} {T : Tokens} {c c1 : Ctx}
    (h : LOOP_START fuel T c = .ok () c1) : c.tapeKept c1 := by
  unfold LOOP_START at h
  simp only at h
  split at h
  · simp at h
  · simp at h
  · simp at h
  · rename_i c2 hp
    have h2 := parseExpression_ok_tapeKept hp
    split at h
    · simp only [Res.ok.injEq, true_and] at h
      subst h
      exact h2
    · simp at h
    · simp at h
  · rename_i c2 hp
    have h2 := parseExpression_ok_tapeKept hp
    simp only [Res.ok.injEq, true_and] at h
    subst h
    exact h2

theorem LOOP_END_ok_tapeKept {fuel : Nat} {T : Tokens} {c c1 : Ctx}
    (h : LOOP_END fuel T c = .ok () c1) : c.tapeKept c1 := by
  unfold LOOP_END at h
  simp only at h
  split at h
  · simp at h
  · split at h
    · simp at h
    · simp at h
    · simp at h
    · rename_i c2 hp
      have h2 := parseExpression_ok_tapeKept hp
      simp only [Res.ok.injEq, true_and] at h
      subst h
      exact h2
    · rename_i c2 hp
      have h2 := parseExpression_ok_tapeKept hp
      simp only [Res.ok.injEq, true_and] at h
      subst h
      exact h2

theorem tapeKept_write (c : Ctx) (chars : List Char) : c.tapeKept (c.write chars) := by
  unfold Ctx.write
  split <;> exact ⟨rfl, Nat.le_refl _⟩

theorem pointer_at_ok {c c1 : Ctx} {i v : Nat} (h : c.pointer_at i = .ok v c1) : c1 = c := by
  unfold Ctx.pointer_at at h
  split at h
  · simp only [Res.ok.injEq] at h
    exact h.2.symm
  · simp at h

theorem writeFormatted_ok_tapeKept {format : Option Char} {c c1 : Ctx}
    (h : writeFormatted format c = .ok () c1) : c.tapeKept c1 := by
  unfold writeFormatted at h
  split at h
  · obtain ⟨v, c2, h1, h2⟩ := bind_eq_ok h
    simp only [Res.ok.injEq, true_and] at h2
    subst h2
    rw [pointer_at_ok h1]
    exact tapeKept_write _ _
  · split at h
    · obtain ⟨v, c2, h1, h2⟩ := bind_eq_ok h
      simp only [Res.ok.injEq, true_and] at h2
      subst h2
      rw [pointer_at_ok h1]
      exact tapeKept_write _ _
    · split at h <;>
      · simp only [Res.ok.injEq, true_and] at h
        subst h
        exact tapeKept_write _ _

theorem writeLoop_ok_tapeKept (fuel : Nat) : ∀ (format : Option Char) (c c1 : Ctx),
    writeLoop fuel format c = .ok () c1 → c.tapeKept c1 := by
  induction fuel with
  | zero => intro format c c1 h; simp [writeLoop] at h
  | succ fuel ih =>
    intro format c c1 h
    rw [writeLoop] at h
    split at h
    · obtain ⟨u, c2, h1, h2⟩ := bind_eq_ok h
      have h3 := writeFormatted_ok_tapeKept h1
      have h4 := ih _ _ _ h2
      exact tapeKept_trans (tapeKept_trans (tapeKept_script c _) h3)
        (tapeKept_trans (tapeKept_script c2 _) h4)
    · simp only [Res.ok.injEq, true_and] at h
      subst h
      exact tapeKept_refl _

theorem OUTPUT_WRITE_ok_tapeKept {fuel : Nat} {c c1 : Ctx}
    (h : OUTPUT_WRITE fuel c = .ok () c1) : c.tapeKept c1 := by
  unfold OUTPUT_WRITE at h
  simp only at h
  split at h
  · obtain ⟨v, c2, h1, h2⟩ := bind_eq_ok h
    simp only [Res.ok.injEq, true_and] at h2
    subst h2
    rw [pointer_at_ok h1]
    exact tapeKept_trans (tapeKept_script c _) (tapeKept_write _ _)
  · exact tapeKept_trans (tapeKept_script c _) (writeLoop_ok_tapeKept _ _ _ _ h)

theorem tapeKept_extract (c : Ctx) : c.tapeKept c.extract.2 := by
  unfold Ctx.extract
  split <;> exact ⟨rfl, Nat.le_refl _⟩

theorem FILE_OPEN_ok_tapeKept {fuel : Nat} {c c1 : Ctx}
    (h : FILE_OPEN fuel c = .ok () c1) : c.tapeKept c1 := by
  unfold FILE_OPEN at h
  simp only at h
  split at h
  · simp at h
  · split at h
    · simp at h
    · split at h
      · simp at h
      · split at h
        · simp at h
        · split at h
          · simp only [Res.ok.injEq, true_and] at h
            subst h
            exact ⟨rfl, Nat.le_refl _⟩
          · simp only [Res.ok.injEq, true_and] at h
            subst h
            unfold Ctx.closeOutput
            split <;> exact ⟨rfl, Nat.le_refl _⟩

theorem FILE_CLOSE_ok_tapeKept {c c1 : Ctx}
    (h : FILE_CLOSE c = .ok () c1) : c.tapeKept c1 := by
  unfold FILE_CLOSE at h
  simp only at h
  split at h
  · simp at h
  · split at h
    · split at h
      · simp only [Res.ok.injEq, true_and] at h
        subst h
        exact ⟨rfl, Nat.le_refl _⟩
      · simp at h
    · split at h
      · simp only [Res.ok.injEq, true_and] at h
        subst h
        unfold Ctx.closeOutput
        split <;> exact ⟨rfl, Nat.le_refl _⟩
      · simp at h

theorem UNCERTAINTY_END_ok_tapeKept {c c1 : Ctx}
    (h : UNCERTAINTY_END c = .ok () c1) : c.tapeKept c1 := by
  unfold UNCERTAINTY_END at h
  split at h
  · simp at h
  · simp only [Res.ok.injEq, true_and] at h
    subst h
    exact ⟨rfl, Nat.le_refl _⟩

theorem input_store_ok_tapeKept {c c1 : Ctx} {f : Nat → Nat}
    (h : c.extract.2.store c.index f = .ok () c1) : c.tapeKept c1 :=
  tapeKept_trans (tapeKept_extract c) (store_ok_tapeKept h)

/-- Every handler other than the two index moves leaves the index alone and
does not shorten the tape. -/
theorem execute_ok_tapeKept {i : Instr} {fuel : Nat} {T : Tokens} {c c1 : Ctx}
    (h1 : i ≠ .INDEX_INCREMENT) (h2 : i ≠ .INDEX_DECREMENT)
    (h : i.execute fuel T c = .ok () c1) : c.tapeKept c1 := by
  cases i
  case INDEX_INCREMENT => exact absurd rfl h1
  case INDEX_DECREMENT => exact absurd rfl h2
  case VALUE_INCREMENT => exact store_ok_tapeKept h
  case VALUE_DECREMENT => exact store_ok_tapeKept h
  case VALUE_OPERATION => exact VALUE_OPERATION_ok_tapeKept h
  case UNCERTAINTY_START => exact UNCERTAINTY_START_ok_tapeKept h
  case UNCERTAINTY_END => exact UNCERTAINTY_END_ok_tapeKept h
  case LOOP_START => exact LOOP_START_ok_tapeKept h
  case LOOP_END => exact LOOP_END_ok_tapeKept h
  case OUTPUT_WRITE => exact OUTPUT_WRITE_ok_tapeKept h
  case INPUT_READ => exact input_store_ok_tapeKept h
  case INPUT_ADD => exact input_store_ok_tapeKept h
  case INPUT_XOR => exact input_store_ok_tapeKept h
  case INPUT_AND => exact input_store_ok_tapeKept h
  case INPUT_OR => exact input_store_ok_tapeKept h
  case FILE_OPEN => exact FILE_OPEN_ok_tapeKept h
  case FILE_CLOSE => exact FILE_CLOSE_ok_tapeKept h



/-- C7 (amended): from a state with `Index < len(Tape)`, every handler that
completes without a fatal error leaves a state with `Index < len(Tape)` again,
except the index-decrement at Index 0: that one also completes normally (no
handler call of an index-decrement ever fails) and leaves the tape as it was
and the Index at 4294967295, the `uint32_t` below zero. -/
theorem index_in_bounds_preserved (i : Instr) (fuel : Nat) (T : Tokens) (c : Ctx)
    (hinv : c.index < c.pointer.length) :
    (∀ c1, i.execute fuel T c = .ok () c1 →
      if i = .INDEX_DECREMENT ∧ c.index = 0 then
        c1.index = 4294967295 ∧ c1.pointer = c.pointer
      else c1.index < c1.pointer.length) ∧
    (i = .INDEX_DECREMENT →
      i.execute fuel T c = .ok () { c with index := u32 ((c.index : Int) - 1) }) := by
  constructor
  · intro c1 h
    by_cases hinc : i = .INDEX_INCREMENT
    · subst hinc
      simp only [reduceCtorEq, false_and, if_false]
      simp only [Instr.execute, INDEX_INCREMENT] at h
      have hu : u32 ((c.index : Int) + 1) ≤ c.index + 1 := by unfold u32; omega
      split at h
      · rename_i hc
        simp only [Res.ok.injEq, true_and] at h
        subst h
        simp only [List.length_append, List.length_singleton]
        omega
      · rename_i hc
        simp only [Res.ok.injEq, true_and] at h
        subst h
        show u32 ((c.index : Int) + 1) < c.pointer.length
        omega
    · by_cases hdec : i = .INDEX_DECREMENT
      · subst hdec
        simp only [Instr.execute, INDEX_DECREMENT, Res.ok.injEq, true_and] at h
        subst h
        simp only [true_and]
        split
        · rename_i h0
          simp only [h0, u32]
          exact ⟨by decide, trivial⟩
        · rename_i h0
          have hu : u32 ((c.index : Int) - 1) ≤ c.index - 1 := by unfold u32; omega
          show u32 ((c.index : Int) - 1) < c.pointer.length
          omega
      · have hk := execute_ok_tapeKept hinc hdec h
        simp only [hdec, false_and, if_false]
        have h1 := hk.1
        have h2 := hk.2
        omega
  · intro hdec
    subst hdec
    rfl

/-- C7 (witness): the statement at the index-decrement on the initial tape
`[0]`, where the Index is 0. -/
theorem index_in_bounds_preserved_witness :
    (∀ c1, Instr.INDEX_DECREMENT.execute 0 sampleTokens (initial [] [0]) = .ok () c1 →
      if Instr.INDEX_DECREMENT = .INDEX_DECREMENT ∧ (initial [] [0]).index = 0 then
        c1.index = 4294967295 ∧ c1.pointer = (initial [] [0]).pointer
      else c1.index < c1.pointer.length) ∧
    (Instr.INDEX_DECREMENT = .INDEX_DECREMENT →
      Instr.INDEX_DECREMENT.execute 0 sampleTokens (initial [] [0]) =
        .ok () { initial [] [0] with index := u32 (((initial [] [0]).index : Int) - 1) }) :=
  index_in_bounds_preserved .INDEX_DECREMENT 0 sampleTokens (initial [] [0]) (by decide)

/-- C7 (counterexample): on the initial tape `[0]` at Index 0 the
index-decrement returns normally, with Index 4294967295, which is not below
the tape length 1. -/
theorem INDEX_DECREMENT_at_zero :
    Instr.INDEX_DECREMENT.execute 0 sampleTokens (initial [] [0]) =
      .ok () { initial [] [0] with index := 4294967295 } ∧
    ¬ (4294967295 < (initial [] [0]).pointer.length) := by
  decide



/-- C3 (failing input): on `[1]=[2]&&[3]=[3]+` the left operand of the logical
AND is false and `parseExpression` returns with the cursor right after the AND
token, the right operand `[3]=[3]` unread; on `[1]=[1]||[3]=[3]+`, where the
left operand of the logical OR is true, the cursor is after the right operand,
before `+`. -/
theorem parseExpression_and_false_stops_early :
    parseExpression 20 sampleTokens (initial "[1]=[2]&&[3]=[3]+".toList [0]) =
      .ok false { initial "[1]=[2]&&[3]=[3]+".toList [0] with
        script := { text := "[1]=[2]&&[3]=[3]+".toList, pos := 9, rest := "[3]=[3]+".toList,
                    eofbit := false, failbit := false } } ∧
    parseExpression 20 sampleTokens (initial "[1]=[1]||[3]=[3]+".toList [0]) =
      .ok true { initial "[1]=[1]||[3]=[3]+".toList [0] with
        script := { text := "[1]=[1]||[3]=[3]+".toList, pos := 16, rest := "+".toList,
                    eofbit := false, failbit := false } } := by
  constructor <;> decide

/-- C8 (failing input): `([1]%[2])` on the tape `[7, 9]` at Index 0.  The
handler, called after the opening bracket, leaves the cell at the explicit
index 1 at 9 and sets the cell at the Index to 7 mod 2 = 1, where the
explicit-index form is to set the cell 1 to 9 mod 2 = 1 and leave the cell 0
at 7; with `+` in place of `%` the cell 1 is the one changed. -/
theorem VALUE_OPERATION_explicit_mod_wrong_cell :
    VALUE_OPERATION 20 sampleTokens
        { initial "([1]%[2])".toList [7, 9] with
          script := (IStream.open_ "([1]%[2])".toList).adv 1 } =
      .ok () { initial "([1]%[2])".toList [7, 9] with
        pointer := [1, 9]
        script := { text := "([1]%[2])".toList, pos := 9, rest := [],
                    eofbit := false, failbit := false } } ∧
    VALUE_OPERATION 20 sampleTokens
        { initial "([1]+[2])".toList [7, 9] with
          script := (IStream.open_ "([1]+[2])".toList).adv 1 } =
      .ok () { initial "([1]+[2])".toList [7, 9] with
        pointer := [7, 11]
        script := { text := "([1]+[2])".toList, pos := 9, rest := [],
                    eofbit := false, failbit := false } } := by
  constructor <;> decide



/-- C9 (amended): on a literal that carries the index marker and no other
modifier, `parseNum` returns the current Index modulo 256 only when the payload
is empty; with a digit payload it returns the value of the digits modulo 256
(a fatal `std::out_of_range` when they do not fit an `int`), and with a nested
literal it returns the value of the nested literal; the Index plays no part in
the last two. -/
theorem parseNum_index_marker (T : Tokens) (hT : T.NumOK) (c : Ctx) (hg : c.script.Good)
    (ds tail : List Char) (fuel : Nat) :
    (c.script.rest = T.NUMBER_START :: T.NUMBER_MODIFIER_INDEX :: T.NUMBER_END :: tail →
      parseNum (fuel + 1) T c = .ok (c.index % 256) { c with script := c.script.adv 3 }) ∧
    (ds ≠ [] → (∀ x ∈ ds, x.isDigit = true) →
      c.script.rest = T.NUMBER_START :: T.NUMBER_MODIFIER_INDEX :: ds ++ T.NUMBER_END :: tail →
      c.script.rest.length ≤ fuel →
      ∃ s, parseNum (fuel + 1) T c =
        if decimal ds ≤ 2147483647 then .ok (decimal ds % 256) { c with script := s }
        else .throw (.out_of_range "stoi") { c with script := s }) ∧
    (c.script.rest = T.NUMBER_START :: T.NUMBER_MODIFIER_INDEX :: T.NUMBER_START :: tail →
      parseNum (fuel + 1) T c =
        (parseNum fuel T { c with script := c.script.adv 2 }).bind
          (fun n c1 => .ok (n % 256) c1)) := by
  refine ⟨?_, ?_, ?_⟩
  · intro hr
    have hr1 : c.script.rest = T.NUMBER_START ::
        (modChars T false false true false false ++ T.NUMBER_END :: tail) := by
      simpa [modChars] using hr
    have hu := parseNum_unfold hT false false true false false fuel c T.NUMBER_END tail hg hr1
      (Or.inr (Or.inr rfl)) (fun _ => by simp [modChars]) (fun _ => rfl)
      (fun _ _ h => by simp at h)
    rw [hu, parsePayload_empty _ _ hT _ _ rfl]
    have hg2 : (c.script.adv 2).Good := hg
    have hr2 : (c.script.adv 2).rest = T.NUMBER_END :: tail := by simp [adv_rest, hr]
    simp [modChars, resolveEmpty, ignore_cons hg2 hr2, adv_adv, u8_natCast]
  · intro hne hd hr hf
    obtain ⟨d, ds, rfl⟩ : ∃ d ds1, ds = d :: ds1 := by
      cases ds with
      | nil => exact absurd rfl hne
      | cons d ds1 => exact ⟨d, ds1, rfl⟩
    obtain ⟨k, tail1, rfl, ht, hk⟩ := split_ends T.NUMBER_END tail
    have hd1 : d.isDigit = true := hd d (by simp)
    have hlen : ds.length + k + 2 ≤ fuel := by
      simp [hr] at hf; simp at hk; omega
    have hr1 : c.script.rest = T.NUMBER_START ::
        (modChars T false false true false false ++ d :: (ds ++ T.NUMBER_END ::
          (List.replicate k T.NUMBER_END ++ tail1))) := by
      simpa [modChars] using hr
    have hu := parseNum_unfold hT false false true false false fuel c d _ hg hr1
      (digit_payloadStart T hd1)
      (fun h => by rw [h, hT.2.1] at hd1; exact absurd hd1 (by simp))
      (fun _ => rfl) (fun _ _ h => by simp at h)
    have hp := parsePayload_digits (parseNum fuel T) fuel hT c
      { neg := false, val := false, ind := true, add := false, sub := false, op := some d,
        s := c.script.adv (1 + (modChars T false false true false false).length) }
      d ds k tail1 rfl hg (by simp [adv_rest, hr, modChars]) hd ht hlen
    rw [hu, hp]
    refine ⟨((c.script.adv (1 + (modChars T false false true false false).length)).adv
      (ds.length + k + 2)).peek.2, ?_⟩
    by_cases hfit : decimal (d :: ds) ≤ 2147483647
    · simp [stoi, hfit, resolveDigits, u8_natCast]
    · simp [stoi, hfit]
  · intro hr
    have hr1 : c.script.rest = T.NUMBER_START ::
        (modChars T false false true false false ++ T.NUMBER_START :: tail) := by
      simpa [modChars] using hr
    have hu := parseNum_unfold hT false false true false false fuel c T.NUMBER_START tail hg hr1
      (Or.inr (Or.inl rfl)) (fun h => absurd h hT.2.2.2.2.2.1) (fun _ => rfl)
      (fun _ _ h => by simp at h)
    rw [hu, parsePayload_nested _ _ hT _ _ rfl]
    simp only [modChars, List.length_cons, List.length_nil, if_true, if_false,
      Bool.false_eq_true, List.append_nil, List.nil_append, List.length_singleton]
    congr 1

/-- C9 (witness): the digit payload case on `[i5]` at Index 3. -/
theorem parseNum_index_marker_witness :
    ∃ s, parseNum (4 + 1) sampleTokens { initial "[i5]".toList [0, 0, 0, 0] with index := 3 } =
      if decimal "5".toList ≤ 2147483647 then
        .ok (decimal "5".toList % 256)
          { ({ initial "[i5]".toList [0, 0, 0, 0] with index := 3 } : Ctx) with script := s }
      else .throw (.out_of_range "stoi")
          { ({ initial "[i5]".toList [0, 0, 0, 0] with index := 3 } : Ctx) with script := s } :=
  (parseNum_index_marker sampleTokens (by decide)
    { initial "[i5]".toList [0, 0, 0, 0] with index := 3 } (by decide) "5".toList [] 4).2.1
    (by decide) (by decide) (by decide) (by decide)

/-- C9 (counterexample): `[i5]` at Index 3 yields 5, the payload, not the
Index 3. -/
theorem parseNum_index_marker_payload_wins :
    parseNum 5 sampleTokens { initial "[i5]".toList [0, 0, 0, 0] with index := 3 } =
      .ok 5 { initial "[i5]".toList [0, 0, 0, 0] with
        index := 3
        script := { text := "[i5]".toList, pos := 4, rest := [],
                    eofbit := true, failbit := false } } := by
  decide



theorem get_relocate (tx : List Char) (k : Nat) (s : IStream) :
    (s.relocate tx k).get = (s.get.1, s.get.2.relocate tx k) := by
  unfold IStream.get IStream.relocate
  simp only
  split
  · rfl
  · split <;> simp [Nat.add_right_comm]

theorem peek_relocate (tx : List Char) (k : Nat) (s : IStream) :
    (s.relocate tx k).peek = (s.peek.1, s.peek.2.relocate tx k) := by
  unfold IStream.peek IStream.relocate
  simp only
  split
  · rfl
  · split <;> simp

theorem ignore_relocate (tx : List Char) (k : Nat) (s : IStream) :
    (s.relocate tx k).ignore = s.ignore.relocate tx k := by
  unfold IStream.ignore IStream.relocate
  simp only
  split
  · rfl
  · split <;> simp [Nat.add_right_comm]

theorem eof_relocate (tx : List Char) (k : Nat) (s : IStream) :
    (s.relocate tx k).eof = s.eof := rfl

theorem takeModifier_relocate (tx : List Char) (k : Nat) (m : Char) (op : Option Char)
    (s : IStream) :
    takeModifier m op (s.relocate tx k) =
      ((takeModifier m op s).1, (takeModifier m op s).2.1,
        (takeModifier m op s).2.2.relocate tx k) := by
  unfold takeModifier
  split <;> simp [ignore_relocate, peek_relocate]

theorem readModifiers_relocate (tx : List Char) (k : Nat) (T : Tokens) (op : Option Char)
    (s : IStream) :
    readModifiers T op (s.relocate tx k) =
      { readModifiers T op s with s := (readModifiers T op s).s.relocate tx k } := by
  unfold readModifiers
  simp only [takeModifier_relocate]
  split <;> simp [takeModifier_relocate]

theorem digitLoop_relocate (tx : List Char) (k : Nat) (fuel : Nat) :
    ∀ (s : IStream) (acc : List Char),
    digitLoop fuel (s.relocate tx k) acc =
      (digitLoop fuel s acc).map (fun r => (r.1, r.2.1, r.2.2.relocate tx k)) := by
  induction fuel with
  | zero => intro s acc; rfl
  | succ fuel ih =>
    intro s acc
    rw [digitLoop, digitLoop, get_relocate]
    rcases hget : s.get with ⟨g, s1⟩
    cases g with
    | none => simp
    | some d =>
      simp only
      split
      · exact ih s1 _
      · simp

theorem skipNumberEnds_relocate (tx : List Char) (k : Nat) (T : Tokens) (fuel : Nat) :
    ∀ (s : IStream),
    skipNumberEnds T fuel (s.relocate tx k) =
      (skipNumberEnds T fuel s).map (fun r => r.relocate tx k) := by
  induction fuel with
  | zero => intro s; rfl
  | succ fuel ih =>
    intro s
    rw [skipNumberEnds, skipNumberEnds]
    simp only [peek_relocate, eof_relocate, ignore_relocate]
    split
    · exact ih _
    · simp



theorem relocate_set_script (tx : List Char) (k : Nat) (c : Ctx) (s : IStream) :
    ({ c.relocate tx k with script := s.relocate tx k } : Ctx) =
      ({ c with script := s } : Ctx).relocate tx k := rfl

theorem bind_relocate {α β : Type} (tx : List Char) (k : Nat) (r : Res α)
    (f g : α → Ctx → Res β) (h : ∀ a c, f a (c.relocate tx k) = (g a c).relocate tx k) :
    (r.relocate tx k).bind f = (r.bind g).relocate tx k := by
  cases r <;> simp [Res.relocate, Res.bind, h]

theorem negAt_relocate (tx : List Char) (k : Nat) (neg : Bool) (c : Ctx) (i : Nat) :
    negAt neg (c.relocate tx k) i = (negAt neg c i).relocate tx k := by
  unfold negAt Ctx.pointer_at
  show (match c.pointer[i]? with
    | some v => Res.ok v (c.relocate tx k)
    | none => Res.throw (Exn.out_of_range "vector::at") (c.relocate tx k)).bind _ = _
  cases c.pointer[i]? <;> rfl

theorem resolveEmpty_relocate (tx : List Char) (k : Nat) (m : Mods) (s1 : IStream) (c : Ctx) :
    resolveEmpty { m with s := s1 } (c.relocate tx k) = (resolveEmpty m c).relocate tx k := by
  unfold resolveEmpty
  simp only
  split
  · rfl
  · split
    · exact negAt_relocate tx k _ c _
    · rfl

theorem resolveNested_relocate (tx : List Char) (k : Nat) (m : Mods) (s1 : IStream) (n : Nat)
    (c : Ctx) :
    resolveNested { m with s := s1 } n (c.relocate tx k) =
      (resolveNested m n c).relocate tx k := by
  unfold resolveNested
  simp only
  repeat' split
  all_goals first | exact negAt_relocate tx k _ c _ | rfl

theorem resolveDigits_relocate (tx : List Char) (k : Nat) (again : Ctx → Res Nat)
    (hagain : ∀ c, again (c.relocate tx k) = (again c).relocate tx k)
    (m : Mods) (s1 : IStream) (n : Nat) (c : Ctx) :
    resolveDigits again { m with s := s1 } n (c.relocate tx k) =
      (resolveDigits again m n c).relocate tx k := by
  unfold resolveDigits
  simp only
  repeat' split
  all_goals first
    | exact negAt_relocate tx k _ c _
    | rfl
    | (rw [hagain]; exact bind_relocate tx k _ _ _ (fun a c => rfl))

theorem parsePayload_relocate (tx : List Char) (k : Nat) (again : Ctx → Res Nat)
    (hagain : ∀ c, again (c.relocate tx k) = (again c).relocate tx k)
    (fuel : Nat) (T : Tokens) (c : Ctx) (m : Mods) :
    parsePayload again fuel T (c.relocate tx k) { m with s := m.s.relocate tx k } =
      (parsePayload again fuel T c m).relocate tx k := by
  unfold parsePayload
  simp only [ignore_relocate, relocate_set_script, digitLoop_relocate]
  split
  · split
    · exact resolveEmpty_relocate tx k m _ _
    · split
      · rw [hagain]
        exact bind_relocate tx k _ _ _ (fun a c => resolveNested_relocate tx k m _ a c)
      · rfl
  · cases hdl : digitLoop fuel m.s.ignore m.op.toList with
    | none => rfl
    | some r =>
      obtain ⟨op1, res, s1⟩ := r
      simp only [Option.map_some']
      split
      · rfl
      · simp only [skipNumberEnds_relocate]
        cases hsk : skipNumberEnds T fuel s1 with
        | none => rfl
        | some s2 =>
          simp only [Option.map_some']
          split
          · rfl
          · exact resolveDigits_relocate tx k again hagain m _ _ { c with script := s2 }

theorem parseNum_relocate (tx : List Char) (k : Nat) (T : Tokens) (fuel : Nat) :
    ∀ c, parseNum fuel T (c.relocate tx k) = (parseNum fuel T c).relocate tx k := by
  induction fuel with
  | zero => intro c; rfl
  | succ fuel ih =>
    intro c
    rw [parseNum, parseNum]
    simp only [Ctx.relocate, get_relocate, peek_relocate, ignore_relocate, readModifiers_relocate]
    split
    · rfl
    · split
      · rfl
      · exact parsePayload_relocate tx k _ ih fuel T c _



theorem u8_neg_int (v : Int) : u8 ((-1) * v) = (256 - u8 v) % 256 := by
  unfold u8; omega

theorem u8_neg_u32 (v : Int) : u8 (u32 ((-1) * v)) = (256 - u8 v) % 256 := by
  simp only [u8, u32]; omega

theorem u8_u32 (v : Int) : u8 (u32 v) = u8 v := by
  simp only [u8, u32]; omega

theorem bind_negate {α : Type} (r : Res α) (f : α → Ctx → Res Nat) :
    r.bind (fun a c => (f a c).negate) = (r.bind f).negate := by
  cases r <;> rfl

theorem negAt_true (c : Ctx) (i : Nat) : negAt true c i = (negAt false c i).negate := by
  unfold negAt Ctx.pointer_at
  cases c.pointer[i]? with
  | none => rfl
  | some v =>
    simp only [Res.bind, Res.negate, Bool.false_eq_true, if_false, if_true, Res.ok.injEq, and_true]
    unfold u8; omega

theorem resolveEmpty_neg (m : Mods) (hn : m.neg = false) (c : Ctx) :
    resolveEmpty { m with neg := true } c = (resolveEmpty m c).negate := by
  unfold resolveEmpty
  simp only [hn]
  split
  · rfl
  · split
    · exact negAt_true c _
    · simp only [Res.negate, Bool.false_eq_true, if_false, if_true, Res.ok.injEq, and_true]
      simp only [u8, u32]; omega

theorem resolveNested_neg (m : Mods) (hn : m.neg = false) (n : Nat) (c : Ctx) :
    resolveNested { m with neg := true } n c = (resolveNested m n c).negate := by
  unfold resolveNested
  simp only [hn]
  repeat' split
  all_goals first
    | exact negAt_true c _
    | contradiction
    | (simp only [Res.negate, Bool.false_eq_true, if_false, if_true, Res.ok.injEq, and_true]
       simp only [u8, u32]; omega)

theorem resolveDigits_neg (again : Ctx → Res Nat) (m : Mods) (hn : m.neg = false)
    (hslip : ¬ (m.ind = true ∧ m.val = false ∧ m.add = true)) (n : Nat) (c : Ctx) :
    resolveDigits again { m with neg := true } n c = (resolveDigits again m n c).negate := by
  unfold resolveDigits
  simp only [hn]
  repeat' split
  all_goals first
    | exact negAt_true c _
    | contradiction
    | (simp only [Res.negate, Bool.false_eq_true, if_false, if_true, Res.ok.injEq, and_true]
       simp only [u8, u32]; omega)
    | (exfalso; apply hslip; simp_all)

theorem parsePayload_neg (again : Ctx → Res Nat) (fuel : Nat) (T : Tokens) (c : Ctx) (m : Mods)
    (hn : m.neg = false)
    (hslip : isdigit m.op = true → ¬ (m.ind = true ∧ m.val = false ∧ m.add = true)) :
    parsePayload again fuel T c { m with neg := true } =
      (parsePayload again fuel T c m).negate := by
  unfold parsePayload
  simp only
  split
  · split
    · exact resolveEmpty_neg m hn _
    · split
      · rw [← bind_negate]
        congr 1
        funext n c1
        exact resolveNested_neg m hn n c1
      · rfl
  · rename_i hd
    have hd : isdigit m.op = true := by simpa using hd
    cases hdl : digitLoop fuel m.s.ignore m.op.toList with
    | none => rfl
    | some r =>
      obtain ⟨op1, res, s1⟩ := r
      simp only
      split
      · rfl
      · cases hsk : skipNumberEnds T fuel s1 with
        | none => rfl
        | some s2 =>
          simp only
          split
          · rfl
          · exact resolveDigits_neg again m hn (hslip hd) _ _



theorem parsePayload_script (again : Ctx → Res Nat) (fuel : Nat) (T : Tokens) (c : Ctx)
    (s : IStream) (m : Mods) :
    parsePayload again fuel T { c with script := s } m = parsePayload again fuel T c m := rfl

theorem readModifiers_after_neg (T : Tokens) (tx : List Char) (k : Nat) (s0 s : IStream)
    (op : Option Char) (h0 : s0.ignore.peek = (op, s.relocate tx k))
    (hop : op ≠ some T.NUMBER_MODIFIER_NEGATIVE) :
    readModifiers T (some T.NUMBER_MODIFIER_NEGATIVE) s0 =
      { readModifiers T op s with neg := true, s := (readModifiers T op s).s.relocate tx k } := by
  have e1 : takeModifier T.NUMBER_MODIFIER_NEGATIVE (some T.NUMBER_MODIFIER_NEGATIVE) s0 =
      (true, op, s.relocate tx k) := by
    simp [takeModifier, h0]
  have e2 : takeModifier T.NUMBER_MODIFIER_NEGATIVE op s = (false, op, s) := by
    simp [takeModifier, hop]
  unfold readModifiers
  simp only [e1, e2, takeModifier_relocate]
  split <;> simp [takeModifier_relocate]

theorem readModifiers_neg_false (T : Tokens) (s : IStream) (op : Option Char)
    (hop : op ≠ some T.NUMBER_MODIFIER_NEGATIVE) : (readModifiers T op s).neg = false := by
  simp [readModifiers, takeModifier, hop]

theorem readModifiers_slip_shape (T : Tokens) (s : IStream) (hg : s.Good)
    (hX1 : s.rest.head? ≠ some T.NUMBER_MODIFIER_NEGATIVE)
    (hd : isdigit (readModifiers T s.peek.1 s.peek.2).op = true)
    (hi : (readModifiers T s.peek.1 s.peek.2).ind = true)
    (hv : (readModifiers T s.peek.1 s.peek.2).val = false)
    (ha : (readModifiers T s.peek.1 s.peek.2).add = true) :
    ∃ d tail, d.isDigit = true ∧ s.rest = T.NUMBER_MODIFIER_INDEX :: '+' :: d :: tail := by
  obtain ⟨text, pos, rest, e, f⟩ := s
  obtain ⟨h1, h2⟩ := hg
  simp only at h1 h2 hX1
  subst h1 h2
  rcases rest with _ | ⟨x, X1⟩
  · simp [readModifiers, takeModifier, IStream.peek] at hi
  · have hx : x ≠ T.NUMBER_MODIFIER_NEGATIVE := by simpa using hX1
    by_cases hxv : x = T.NUMBER_MODIFIER_VALUE_AT
    · subst hxv
      simp [readModifiers, takeModifier, IStream.peek, hx] at hv
    · by_cases hxi : x = T.NUMBER_MODIFIER_INDEX
      · subst hxi
        rcases X1 with _ | ⟨y, X2⟩
        · simp [readModifiers, takeModifier, IStream.peek, IStream.ignore, hx, hxv] at ha
        · by_cases hy : y = '+'
          · subst hy
            rcases X2 with _ | ⟨d, tail⟩
            · simp [readModifiers, takeModifier, IStream.peek, IStream.ignore, hx, hxv,
                isdigit] at hd
            · refine ⟨d, tail, ?_, rfl⟩
              simpa [readModifiers, takeModifier, IStream.peek, IStream.ignore, hx, hxv,
                isdigit] using hd
          · simp [readModifiers, takeModifier, IStream.peek, IStream.ignore, hx, hxv, hy] at ha
      · simp [readModifiers, takeModifier, IStream.peek, hx, hxv, hxi] at hi



/-- C10 (amended): let a literal be accepted by `parseNum` with result `r`, the
literal not starting with the negative-sign marker, not being the bare literal
(number-start directly followed by number-end) and not consisting of the index
marker, the offset marker `+` and a digit payload.  Then the literal with the
negative-sign marker added directly after the number-start is accepted as well
and yields `(256 - r) mod 256`, the tape, the index and the rest of the machine
being as after the first parse and the cursor one character further on. -/
theorem parseNum_negative_marker (T : Tokens)
    (hne : T.NUMBER_MODIFIER_NEGATIVE ≠ T.NUMBER_END) (c c1 : Ctx) (X text1 : List Char)
    (fuel r : Nat) (hr : c.script.rest = T.NUMBER_START :: X)
    (hX1 : X.head? ≠ some T.NUMBER_MODIFIER_NEGATIVE)
    (hX2 : X.head? ≠ some T.NUMBER_END)
    (hX3 : ¬ ∃ d tail, d.isDigit = true ∧ X = T.NUMBER_MODIFIER_INDEX :: '+' :: d :: tail)
    (hacc : parseNum fuel T c = .ok r c1) :
    parseNum fuel T
        { c with script :=
                   c.script.withText text1 (T.NUMBER_START :: T.NUMBER_MODIFIER_NEGATIVE :: X) } =
      .ok ((256 - r) % 256) (c1.relocate text1 1) := by
  obtain ⟨fuel, rfl⟩ : ∃ n, fuel = n + 1 := by
    cases fuel with
    | zero => simp [parseNum] at hacc
    | succ n => exact ⟨n, rfl⟩
  have hg : c.script.Good := by
    by_contra hbad
    have : c.script.get.1 = none := by
      unfold IStream.Good at hbad
      unfold IStream.get
      split
      · rfl
      · rename_i h
        exact absurd (by simpa using h) hbad
    rw [parseNum] at hacc
    simp [this] at hacc
  -- the first parse
  have hg1 : (c.script.adv 1).Good := hg
  have hr1 : (c.script.adv 1).rest = X := by simp [adv_rest, hr]
  have hp1 : (c.script.adv 1).peek.1 = X.head? := by rw [peek_fst_good hg1, hr1]
  have hpe : ¬ ((c.script.adv 1).peek.1 = some T.NUMBER_END) := by rw [hp1]; exact hX2
  rw [parseNum] at hacc
  simp only [get_cons hg hr, ne_eq, not_true_eq_false, if_false, hpe] at hacc
  -- the parse of the negated literal
  generalize hs0 : c.script.withText text1
    (T.NUMBER_START :: T.NUMBER_MODIFIER_NEGATIVE :: X) = s0
  have hg0 : s0.Good := by subst hs0; exact hg
  have hr0 : s0.rest = T.NUMBER_START :: T.NUMBER_MODIFIER_NEGATIVE :: X := by subst hs0; rfl
  have hg01 : (s0.adv 1).Good := hg0
  have hr01 : (s0.adv 1).rest = T.NUMBER_MODIFIER_NEGATIVE :: X := by simp [adv_rest, hr0]
  have hpk : (s0.adv 1).peek = (some T.NUMBER_MODIFIER_NEGATIVE, s0.adv 1) := peek_cons hg01 hr01
  have hig : (s0.adv 1).ignore = (c.script.adv 1).relocate text1 1 := by
    rw [ignore_cons hg01 hr01, adv_adv]
    subst hs0
    simp [IStream.adv, IStream.relocate, IStream.withText, hr]
  have hm := readModifiers_after_neg T text1 1 (s0.adv 1) (c.script.adv 1).peek.2
    (c.script.adv 1).peek.1 (by rw [hig, peek_relocate]) (by rw [hp1]; exact hX1)
  have hn := readModifiers_neg_false T (c.script.adv 1).peek.2 (c.script.adv 1).peek.1
    (by rw [hp1]; exact hX1)
  have hslip : isdigit (readModifiers T (c.script.adv 1).peek.1 (c.script.adv 1).peek.2).op = true →
      ¬ ((readModifiers T (c.script.adv 1).peek.1 (c.script.adv 1).peek.2).ind = true ∧
         (readModifiers T (c.script.adv 1).peek.1 (c.script.adv 1).peek.2).val = false ∧
         (readModifiers T (c.script.adv 1).peek.1 (c.script.adv 1).peek.2).add = true) := by
    intro hd ⟨hi, hv, ha⟩
    have := readModifiers_slip_shape T (c.script.adv 1) hg1 (by rw [hr1]; exact hX1) hd hi hv ha
    rw [hr1] at this
    exact hX3 this
  rw [parseNum]
  simp only [get_cons hg0 hr0, ne_eq, not_true_eq_false, if_false, hpk, Option.some.injEq, hne, hm]
  have h1 := parsePayload_relocate text1 1 (parseNum fuel T) (parseNum_relocate text1 1 T fuel)
    fuel T c { readModifiers T (c.script.adv 1).peek.1 (c.script.adv 1).peek.2 with neg := true }
  have h2 := parsePayload_neg (parseNum fuel T) fuel T c _ hn hslip
  rw [h2, hacc] at h1
  exact h1

/-- C10 (witness): `[vi]` on the tape `[5]` yields 5, and `[-vi]` yields 251. -/
theorem parseNum_negative_marker_witness :
    parseNum 5 sampleTokens
        { initial "[vi]".toList [5] with
          script := (initial "[vi]".toList [5]).script.withText "[-vi]".toList
                      (sampleTokens.NUMBER_START :: sampleTokens.NUMBER_MODIFIER_NEGATIVE ::
                        "vi]".toList) } =
      .ok ((256 - 5) % 256)
        (Ctx.relocate "[-vi]".toList 1
          { initial "[vi]".toList [5] with script := (IStream.open_ "[vi]".toList).adv 4 }) :=
  parseNum_negative_marker sampleTokens (by decide) (initial "[vi]".toList [5])
    { initial "[vi]".toList [5] with script := (IStream.open_ "[vi]".toList).adv 4 }
    "vi]".toList "[-vi]".toList 5 5 (by decide) (by decide) (by decide)
    (by
      rintro ⟨d, tail, _, h⟩
      have h1 : "vi]".toList.head? = some sampleTokens.NUMBER_MODIFIER_INDEX := by rw [h]; rfl
      exact absurd h1 (by decide))
    (by decide)

/-- C10 (counterexample): the bare literal `[]` is accepted with result 0, but
`[-]`, the same literal with the negative-sign marker added, is rejected with
the error `Expected number`. -/
theorem parseNum_negative_bare_literal :
    parseNum 5 sampleTokens (initial "[]".toList [0]) =
      .ok 0 { initial "[]".toList [0] with
        script := { text := "[]".toList, pos := 2, rest := [],
                    eofbit := false, failbit := false } } ∧
    parseNum 5 sampleTokens (initial "[-]".toList [0]) =
      .throw (.runtime_error "Expected number") { initial "[-]".toList [0] with
        script := { text := "[-]".toList, pos := 3, rest := [],
                    eofbit := false, failbit := false } } := by
  constructor <;> decide



theorem iterate_add (fuel : Nat) (T : Tokens) (n m : Nat) : ∀ (c c1 c2 : Ctx),
    iterate fuel T n c = some c1 → iterate fuel T m c1 = some c2 →
    iterate fuel T (n + m) c = some c2 := by
  induction n with
  | zero =>
    intro c c1 c2 h1 h2
    simp only [iterate, Option.some.injEq] at h1
    subst h1
    simpa using h2
  | succ n ih =>
    intro c c1 c2 h1 h2
    rw [Nat.add_right_comm]
    rw [iterate] at h1 ⊢
    cases hs : step fuel T c with
    | ok b c3 =>
      cases b with
      | true =>
        rw [hs] at h1
        exact ih c3 c1 c2 h1 h2
      | false => rw [hs] at h1; simp at h1
    | throw e c3 => rw [hs] at h1; simp at h1
    | undef => rw [hs] at h1; simp at h1
    | timeout => rw [hs] at h1; simp at h1

theorem iterate_one {fuel : Nat} {T : Tokens} {c c1 : Ctx} (h : step fuel T c = .ok true c1) :
    iterate fuel T 1 c = some c1 := by
  simp [iterate, h]

theorem at_adv_one {text : List Char} {p : Nat} {ch : Char}
    (h : text.drop p = ch :: text.drop (p + 1)) :
    (IStream.at_ text p).adv 1 = IStream.at_ text (p + 1) := by
  simp [IStream.at_, IStream.adv, h]

theorem at_get {text : List Char} {p : Nat} {ch : Char}
    (h : text.drop p = ch :: text.drop (p + 1)) :
    (IStream.at_ text p).get = (some ch, IStream.at_ text (p + 1)) := by
  rw [get_cons (s := IStream.at_ text p) ⟨rfl, rfl⟩ h, at_adv_one h]

theorem step_loop_open (fuel : Nat) (T : Tokens) (c : Ctx) (text : List Char) (p0 : Nat)
    (ls : List Int) (hopen : text.drop p0 = '{' :: text.drop (p0 + 1)) :
    step fuel T (c.atLoop (IStream.at_ text p0) ls) =
      (LOOP_START fuel T (c.atLoop (IStream.at_ text (p0 + 1)) ls)).bind
        (fun _ c2 => .ok true c2) := by
  unfold step
  simp only [Ctx.atLoop, at_get hopen]
  rfl

theorem step_loop_close (fuel : Nat) (T : Tokens) (c : Ctx) (text : List Char) (cl : Nat)
    (ls : List Int) (hclose : text.drop cl = '}' :: text.drop (cl + 1)) :
    step fuel T (c.atLoop (IStream.at_ text cl) ls) =
      (LOOP_END fuel T (c.atLoop (IStream.at_ text (cl + 1)) ls)).bind
        (fun _ c2 => .ok true c2) := by
  unfold step
  simp only [Ctx.atLoop, at_get hclose]
  rfl

theorem seekg_at (text : List Char) (q p : Nat) :
    (IStream.at_ text q).seekg (p : Int) = IStream.at_ text p := by
  simp [IStream.seekg, IStream.at_]

theorem LOOP_END_at (fuel : Nat) (T : Tokens) (c : Ctx) (text : List Char) (cl p : Nat)
    (ls : List Int) (hcl : cl + 1 < 4294967296) (b : Bool) (s : IStream)
    (hguard : parseExpression fuel T (c.atLoop (IStream.at_ text p) ((p : Int) :: ls)) =
      .ok b (c.atLoop s ((p : Int) :: ls)))
    (hs : s.failbit = false ∧ s.text = text) :
    LOOP_END fuel T (c.atLoop (IStream.at_ text (cl + 1)) ((p : Int) :: ls)) =
      .ok () (if b then c.atLoop s ((p : Int) :: ls)
              else c.atLoop (IStream.at_ text (cl + 1)) ls) := by
  have hu : ((u32 ((cl + 1 : Nat) : Int) : Nat) : Int) = ((cl + 1 : Nat) : Int) := by
    rw [u32_natCast]; congr 1; omega
  unfold LOOP_END
  simp only [Ctx.atLoop, IStream.tellg, IStream.at_, Bool.or_self, Bool.false_eq_true, if_false]
  have e := seekg_at text (cl + 1) p
  simp only [IStream.at_] at e
  have hg := hguard
  simp only [Ctx.atLoop, IStream.at_] at hg
  rw [e, hg]
  cases b with
  | true => rfl
  | false =>
    simp only [hu, List.tail_cons, Bool.false_eq_true, if_false, Res.ok.injEq, true_and]
    obtain ⟨text1, pos1, rest1, e1, f1⟩ := s
    obtain ⟨h1, h2⟩ := hs
    simp only at h1 h2
    subst h1 h2
    simp [IStream.seekg]
    omega



theorem LOOP_START_at_true (fuel : Nat) (T : Tokens) (c : Ctx) (text : List Char) (p : Nat)
    (ls : List Int) (s : IStream)
    (hguard : parseExpression fuel T (c.atLoop (IStream.at_ text p) ((p : Int) :: ls)) =
      .ok true (c.atLoop s ((p : Int) :: ls))) :
    LOOP_START fuel T (c.atLoop (IStream.at_ text p) ls) = .ok () (c.atLoop s ((p : Int) :: ls)) := by
  unfold LOOP_START
  have hg := hguard
  simp only [Ctx.atLoop, IStream.at_] at hg
  simp only [Ctx.atLoop, IStream.tellg, IStream.at_, Bool.or_self, Bool.false_eq_true, if_false, hg]

theorem LOOP_START_at_false (fuel : Nat) (T : Tokens) (c : Ctx) (text : List Char) (p cl : Nat)
    (ls : List Int) (s : IStream) (body : List Char)
    (hguard : parseExpression fuel T (c.atLoop (IStream.at_ text p) ((p : Int) :: ls)) =
      .ok false (c.atLoop s ((p : Int) :: ls)))
    (hs : s.Good) (ht : s.text = text) (hr : s.rest = body ++ '}' :: text.drop (cl + 1))
    (hbal : balanced '{' '}' 0 body = true) (hpos : s.pos + body.length = cl)
    (hcl : cl + 1 < 4294967296) (hf : body.length + 2 ≤ fuel) :
    LOOP_START fuel T (c.atLoop (IStream.at_ text p) ls) =
      .ok () (c.atLoop (IStream.at_ text (cl + 1)) ls) := by
  have hsk := skipLoop_balanced body 0 s (text.drop (cl + 1)) fuel hs hr hbal (by omega) hf
  have hend : s.adv (body.length + 1) = IStream.at_ text (cl + 1) := by
    obtain ⟨text1, pos1, rest1, e1, f1⟩ := s
    obtain ⟨h1, h2⟩ := hs
    simp only at h1 h2 ht hr hpos
    subst h1 h2 ht hr hpos
    simp [IStream.adv, IStream.at_, Nat.add_assoc]
  unfold LOOP_START
  have hg := hguard
  simp only [Ctx.atLoop, IStream.at_] at hg
  simp only [Ctx.atLoop, IStream.tellg, IStream.at_, Bool.or_self, Bool.false_eq_true, if_false, hg]
  simp only [Nat.zero_add] at hsk
  rw [hsk, hend]
  rfl

/-- The state at the start of the `j`-th execution of the body of a loop whose
guard holds on its first `k` evaluations, for `j < k`. -/
theorem loop_body_start (T : Tokens) (fuel : Nat) (text : List Char) (p0 g cl : Nat)
    (ls : List Int) (k : Nat) (st : Nat → Ctx) (nb : Nat → Nat)
    (hopen : text.drop p0 = '{' :: text.drop (p0 + 1))
    (hclose : text.drop cl = '}' :: text.drop (cl + 1))
    (hcl : cl + 1 < 4294967296)
    (hguardT : ∀ j, j < k →
      parseExpression fuel T
          ((st j).atLoop (IStream.at_ text (p0 + 1)) (((p0 + 1 : Nat) : Int) :: ls)) =
        .ok true ((st j).atLoop (IStream.at_ text g) (((p0 + 1 : Nat) : Int) :: ls)))
    (hbody : ∀ j, j < k →
      iterate fuel T (nb j)
          ((st j).atLoop (IStream.at_ text g) (((p0 + 1 : Nat) : Int) :: ls)) =
        some ((st (j + 1)).atLoop (IStream.at_ text cl) (((p0 + 1 : Nat) : Int) :: ls))) :
    ∀ j, j < k →
      iterate fuel T (1 + loopIterations nb j) ((st 0).atLoop (IStream.at_ text p0) ls) =
        some ((st j).atLoop (IStream.at_ text g) (((p0 + 1 : Nat) : Int) :: ls)) := by
  intro j
  induction j with
  | zero =>
    intro hj
    apply iterate_one
    rw [step_loop_open fuel T _ text p0 ls hopen,
      LOOP_START_at_true fuel T _ text (p0 + 1) ls _ (hguardT 0 hj)]
    rfl
  | succ j ih =>
    intro hj
    have h1 := ih (by omega)
    have h2 := hbody j (by omega)
    have h3 : iterate fuel T 1
        ((st (j + 1)).atLoop (IStream.at_ text cl) (((p0 + 1 : Nat) : Int) :: ls)) =
        some ((st (j + 1)).atLoop (IStream.at_ text g) (((p0 + 1 : Nat) : Int) :: ls)) := by
      apply iterate_one
      rw [step_loop_close fuel T _ text cl _ hclose,
        LOOP_END_at fuel T _ text cl (p0 + 1) ls hcl true _ (hguardT (j + 1) hj) ⟨rfl, rfl⟩]
      rfl
    have h4 := iterate_add fuel T _ _ _ _ _ (iterate_add fuel T _ _ _ _ _ h1 h2) h3
    rw [loopIterations]
    rw [← h4]
    congr 1
    omega

/-- The last round of a loop: the body, then the loop-close instruction with the
guard evaluating to false. -/
theorem loop_exit_round (T : Tokens) (fuel : Nat) (text : List Char) (p g cl : Nat)
    (ls : List Int) (c c1 : Ctx) (n : Nat) (sF : IStream)
    (hclose : text.drop cl = '}' :: text.drop (cl + 1))
    (hcl : cl + 1 < 4294967296)
    (hguardF : parseExpression fuel T (c1.atLoop (IStream.at_ text p) ((p : Int) :: ls)) =
      .ok false (c1.atLoop sF ((p : Int) :: ls)))
    (hsF : sF.failbit = false ∧ sF.text = text)
    (hbody : iterate fuel T n (c.atLoop (IStream.at_ text g) ((p : Int) :: ls)) =
      some (c1.atLoop (IStream.at_ text cl) ((p : Int) :: ls))) :
    iterate fuel T (n + 1) (c.atLoop (IStream.at_ text g) ((p : Int) :: ls)) =
      some (c1.atLoop (IStream.at_ text (cl + 1)) ls) := by
  have h3 : iterate fuel T 1 (c1.atLoop (IStream.at_ text cl) ((p : Int) :: ls)) =
      some (c1.atLoop (IStream.at_ text (cl + 1)) ls) := by
    apply iterate_one
    rw [step_loop_close fuel T _ text cl _ hclose,
      LOOP_END_at fuel T _ text cl p ls hcl false _ hguardF hsF]
    rfl
  exact iterate_add fuel T _ _ _ _ _ hbody h3

/-- The only iteration spent on a loop whose guard is false at the loop-open
marker. -/
theorem loop_skip_round (T : Tokens) (fuel : Nat) (text : List Char) (p0 cl : Nat)
    (ls : List Int) (c : Ctx) (sF : IStream) (body : List Char)
    (hopen : text.drop p0 = '{' :: text.drop (p0 + 1))
    (hcl : cl + 1 < 4294967296)
    (hguardF :
      parseExpression fuel T
          (c.atLoop (IStream.at_ text (p0 + 1)) (((p0 + 1 : Nat) : Int) :: ls)) =
        .ok false (c.atLoop sF (((p0 + 1 : Nat) : Int) :: ls)))
    (hs : sF.Good) (ht : sF.text = text) (hr : sF.rest = body ++ '}' :: text.drop (cl + 1))
    (hbal : balanced '{' '}' 0 body = true) (hpos : sF.pos + body.length = cl)
    (hf : body.length + 2 ≤ fuel) :
    iterate fuel T 1 (c.atLoop (IStream.at_ text p0) ls) =
      some (c.atLoop (IStream.at_ text (cl + 1)) ls) := by
  apply iterate_one
  rw [step_loop_open fuel T _ text p0 ls hopen,
    LOOP_START_at_false fuel T _ text (p0 + 1) cl ls sF body hguardF hs ht hr hbal hpos hcl hf]
  rfl

/-- Run of a loop by the main loop: the loop-open instruction, then `k` rounds
of the body and the loop-close instruction. -/
theorem loop_rounds (T : Tokens) (fuel : Nat) (text : List Char) (p0 g cl : Nat)
    (ls : List Int) (k : Nat) (st : Nat → Ctx) (nb : Nat → Nat) (sF : IStream)
    (hopen : text.drop p0 = '{' :: text.drop (p0 + 1))
    (hclose : text.drop cl = '}' :: text.drop (cl + 1))
    (hcl : cl + 1 < 4294967296)
    (hguardT : ∀ j, j < k →
      parseExpression fuel T
          ((st j).atLoop (IStream.at_ text (p0 + 1)) (((p0 + 1 : Nat) : Int) :: ls)) =
        .ok true ((st j).atLoop (IStream.at_ text g) (((p0 + 1 : Nat) : Int) :: ls)))
    (hguardF :
      parseExpression fuel T
          ((st k).atLoop (IStream.at_ text (p0 + 1)) (((p0 + 1 : Nat) : Int) :: ls)) =
        .ok false ((st k).atLoop sF (((p0 + 1 : Nat) : Int) :: ls)))
    (hsF : sF.failbit = false ∧ sF.text = text)
    (hskip : k = 0 → sF.eofbit = false ∧ ∃ body,
      sF.rest = body ++ '}' :: text.drop (cl + 1) ∧ balanced '{' '}' 0 body = true ∧
      sF.pos + body.length = cl ∧ body.length + 2 ≤ fuel)
    (hbody : ∀ j, j < k →
      iterate fuel T (nb j)
          ((st j).atLoop (IStream.at_ text g) (((p0 + 1 : Nat) : Int) :: ls)) =
        some ((st (j + 1)).atLoop (IStream.at_ text cl) (((p0 + 1 : Nat) : Int) :: ls))) :
    iterate fuel T (1 + loopIterations nb k) ((st 0).atLoop (IStream.at_ text p0) ls) =
      some ((st k).atLoop (IStream.at_ text (cl + 1)) ls) := by
  cases k with
  | zero =>
    obtain ⟨he, body, hr, hbal, hpos, hf⟩ := hskip rfl
    exact loop_skip_round T fuel text p0 cl ls (st 0) sF body hopen hcl hguardF ⟨he, hsF.1⟩ hsF.2
      hr hbal hpos hf
  | succ k =>
    have h1 := loop_body_start T fuel text p0 g cl ls (k + 1) st nb hopen hclose hcl hguardT hbody
      k (by omega)
    have h2 := loop_exit_round T fuel text (p0 + 1) g cl ls (st k) (st (k + 1)) (nb k) sF hclose hcl
      hguardF hsF (hbody k (by omega))
    have h4 := iterate_add fuel T _ _ _ _ _ h1 h2
    rw [loopIterations, ← h4]
    congr 1
    omega

/-- C4: a loop whose guard evaluates to true on its first `k` evaluations (the
one at the loop-open marker and the re-evaluations at the loop-close marker,
in the machine states `st 0`, ..., `st (k - 1)`) and to false on the next one
(in the state `st k`), and whose body takes the machine from `st j` to
`st (j + 1)` in `nb j` iterations of the main loop, is run by the main loop as
the loop-open instruction followed by exactly `k` rounds of the body and the
loop-close instruction; after these `1 + loopIterations nb k` iterations the
machine is in the state `st k` with the cursor immediately after the close
marker and the Loop Position Stack as before the loop. -/
theorem loop_runs_body_k_times (T : Tokens) (fuel : Nat) (text : List Char) (p0 g cl : Nat)
    (ls : List Int) (k : Nat) (st : Nat → Ctx) (nb : Nat → Nat) (sF : IStream)
    (hopen : text.drop p0 = '{' :: text.drop (p0 + 1))
    (hclose : text.drop cl = '}' :: text.drop (cl + 1))
    (hcl : cl + 1 < 4294967296)
    (hguardT : ∀ j, j < k →
      parseExpression fuel T
          ((st j).atLoop (IStream.at_ text (p0 + 1)) (((p0 + 1 : Nat) : Int) :: ls)) =
        .ok true ((st j).atLoop (IStream.at_ text g) (((p0 + 1 : Nat) : Int) :: ls)))
    (hguardF :
      parseExpression fuel T
          ((st k).atLoop (IStream.at_ text (p0 + 1)) (((p0 + 1 : Nat) : Int) :: ls)) =
        .ok false ((st k).atLoop sF (((p0 + 1 : Nat) : Int) :: ls)))
    (hsF : sF.failbit = false ∧ sF.text = text)
    (hskip : k = 0 → sF.eofbit = false ∧ ∃ body,
      sF.rest = body ++ '}' :: text.drop (cl + 1) ∧ balanced '{' '}' 0 body = true ∧
      sF.pos + body.length = cl ∧ body.length + 2 ≤ fuel)
    (hbody : ∀ j, j < k →
      iterate fuel T (nb j)
          ((st j).atLoop (IStream.at_ text g) (((p0 + 1 : Nat) : Int) :: ls)) =
        some ((st (j + 1)).atLoop (IStream.at_ text cl) (((p0 + 1 : Nat) : Int) :: ls))) :
    iterate fuel T (1 + loopIterations nb k) ((st 0).atLoop (IStream.at_ text p0) ls) =
      some ((st k).atLoop (IStream.at_ text (cl + 1)) ls) := by
  cases k with
  | zero =>
    obtain ⟨he, body, hr, hbal, hpos, hf⟩ := hskip rfl
    exact loop_skip_round T fuel text p0 cl ls (st 0) sF body hopen hcl hguardF ⟨he, hsF.1⟩ hsF.2
      hr hbal hpos hf
  | succ k =>
    have h1 := loop_body_start T fuel text p0 g cl ls (k + 1) st nb hopen hclose hcl hguardT hbody
      k (by omega)
    have h2 := loop_exit_round T fuel text (p0 + 1) g cl ls (st k) (st (k + 1)) (nb k) sF hclose hcl
      hguardF hsF (hbody k (by omega))
    have h4 := iterate_add fuel T _ _ _ _ _ h1 h2
    rw [loopIterations, ← h4]
    congr 1
    omega

/-- C4 (witness): the loop `{[vi]>[0]-}` started on a cell holding 3 runs its
body three times; after 1 + 2 * 3 iterations of the main loop the cell holds 0,
the cursor is after the close marker and the Loop Position Stack is empty
again. -/
theorem loop_runs_body_k_times_witness :
    iterate 20 sampleTokens (1 + loopIterations (fun _ => 1) 3)
        ((initial "\x7b[vi]>[0]-\x7d".toList [3]).atLoop (IStream.at_ "\x7b[vi]>[0]-\x7d".toList 0) []) =
      some ((initial "\x7b[vi]>[0]-\x7d".toList [0]).atLoop
        (IStream.at_ "\x7b[vi]>[0]-\x7d".toList (10 + 1)) []) :=
  loop_runs_body_k_times sampleTokens 20 "\x7b[vi]>[0]-\x7d".toList 0 9 10 [] 3
    (fun j => initial "\x7b[vi]>[0]-\x7d".toList [3 - j]) (fun _ => 1)
    (IStream.at_ "\x7b[vi]>[0]-\x7d".toList 9)
    (by decide) (by decide) (by decide) (by decide) (by decide) (by decide)
    (fun h => absurd h (by decide)) (by decide)



theorem parseNum_plain_digits (T : Tokens) (hT : T.NumOK) (c : Ctx) (d : Char)
    (ds tail : List Char) (hg : c.script.Good) (hd : ∀ x ∈ d :: ds, x.isDigit = true)
    (hr : c.script.rest = T.NUMBER_START :: d :: ds ++ T.NUMBER_END :: tail)
    (ht : tail.head? ≠ some T.NUMBER_END) (hfit : decimal (d :: ds) ≤ 2147483647)
    (fuel : Nat) (hf : ds.length + 2 ≤ fuel) :
    parseNum (fuel + 1) T c =
      .ok (decimal (d :: ds) % 256) { c with script := (c.script.adv (ds.length + 3)).peek.2 } := by
  have hd1 : d.isDigit = true := hd d (by simp)
  have hr1 : c.script.rest = T.NUMBER_START ::
      (modChars T false false false false false ++ d :: (ds ++ T.NUMBER_END ::
        (List.replicate 0 T.NUMBER_END ++ tail))) := by
    simpa [modChars] using hr
  have hu := parseNum_unfold hT false false false false false fuel c d _ hg hr1
    (digit_payloadStart T hd1)
    (fun h => by rw [h, hT.2.1] at hd1; exact absurd hd1 (by simp))
    (fun _ => rfl) (fun _ _ _ h => by simp at h)
  have hp := parsePayload_digits (parseNum fuel T) fuel hT c
    { neg := false, val := false, ind := false, add := false, sub := false, op := some d,
      s := c.script.adv (1 + (modChars T false false false false false).length) }
    d ds 0 tail rfl hg (by simp [adv_rest, hr, modChars]) hd ht (by omega)
  rw [hu, hp]
  have e : 1 + (ds.length + 2) = ds.length + 3 := by omega
  simp [stoi, hfit, resolveDigits, u8_natCast, modChars, adv_adv, e]

theorem parseNum_value_at_index (T : Tokens) (hT : T.NumOK) (c : Ctx) (tail : List Char)
    (hg : c.script.Good)
    (hr : c.script.rest = T.NUMBER_START :: T.NUMBER_MODIFIER_VALUE_AT ::
      T.NUMBER_MODIFIER_INDEX :: T.NUMBER_END :: tail) (fuel : Nat) :
    parseNum (fuel + 1) T c = negAt false { c with script := c.script.adv 4 } c.index := by
  have hr1 : c.script.rest = T.NUMBER_START ::
      (modChars T false true true false false ++ T.NUMBER_END :: tail) := by
    simpa [modChars] using hr
  have hu := parseNum_unfold hT false true true false false fuel c T.NUMBER_END tail hg hr1
    (Or.inr (Or.inr rfl)) (fun _ => by simp [modChars]) (fun _ => rfl)
    (fun _ h => by simp at h)
  rw [hu, parsePayload_empty _ _ hT _ _ rfl]
  have hg2 : (c.script.adv 3).Good := hg
  have hr2 : (c.script.adv 3).rest = T.NUMBER_END :: tail := by simp [adv_rest, hr]
  simp [modChars, resolveEmpty, ignore_cons hg2 hr2, adv_adv]

theorem countdown_guard (v : Nat) (ls : List Int) :
    parseExpression 20 sampleTokens
        ((initial "\x7b[vi]>[0]-\x7d".toList [v]).atLoop (IStream.at_ "\x7b[vi]>[0]-\x7d".toList 1) ls) =
      .ok (decide (v % 256 > 0))
        ((initial "\x7b[vi]>[0]-\x7d".toList [v]).atLoop (IStream.at_ "\x7b[vi]>[0]-\x7d".toList 9) ls) := by
  generalize hc : (initial "\x7b[vi]>[0]-\x7d".toList [v]).atLoop (IStream.at_ "\x7b[vi]>[0]-\x7d".toList 1) ls = c0
  have hs0 : c0.script = IStream.at_ "\x7b[vi]>[0]-\x7d".toList 1 := by subst hc; rfl
  have hp0 : c0.pointer = [v] := by subst hc; rfl
  have hi0 : c0.index = 0 := by subst hc; rfl
  have hend : (initial "\x7b[vi]>[0]-\x7d".toList [v]).atLoop (IStream.at_ "\x7b[vi]>[0]-\x7d".toList 9) ls =
      { c0 with script := IStream.at_ "\x7b[vi]>[0]-\x7d".toList 9 } := by subst hc; rfl
  have h1 := parseNum_value_at_index sampleTokens (by decide) c0
    ">[0]-\x7d".toList (by rw [hs0]; decide) (by rw [hs0]; decide) 18
  have hneg : negAt false { c0 with script := c0.script.adv 4 } c0.index =
      .ok (v % 256) { c0 with script := c0.script.adv 4 } := by
    simp [negAt, Ctx.pointer_at, hp0, hi0, Res.bind, u8_natCast]
  have h2 : readUntil sampleTokens.NUMBER_START 19 (c0.script.adv 4) [] =
      some (['>'], IStream.at_ "\x7b[vi]>[0]-\x7d".toList 6) := by rw [hs0]; decide
  have h3 := parseNum_plain_digits sampleTokens (by decide)
    { c0 with script := IStream.at_ "\x7b[vi]>[0]-\x7d".toList 6 }
    '0' [] "-\x7d".toList (show (IStream.at_ "\x7b[vi]>[0]-\x7d".toList 6).Good by decide) (by decide)
    (show (IStream.at_ "\x7b[vi]>[0]-\x7d".toList 6).rest = _ by decide) (by decide) (by decide) 18
    (by decide)
  have h5 : matchConditional sampleTokens
      ((IStream.at_ "\x7b[vi]>[0]-\x7d".toList 6).adv (([] : List Char).length + 3)).peek.2 =
      ([], IStream.at_ "\x7b[vi]>[0]-\x7d".toList 9) := by decide
  have h4 : relational sampleTokens ['>'] (v % 256) (decimal ['0'] % 256) =
      some (decide (v % 256 > 0)) := by
    simp [relational, sampleTokens, decimal]
  rw [hend, parseExpression, h1, hneg]
  simp only [h2]
  rw [h3]
  simp only [h4, h5]
  simp [sampleTokens]



theorem countdown_body (v : Nat) (ls : List Int) :
    step 20 sampleTokens
        ((initial "\x7b[vi]>[0]-\x7d".toList [v]).atLoop (IStream.at_ "\x7b[vi]>[0]-\x7d".toList 9) ls) =
      .ok true
        ((initial "\x7b[vi]>[0]-\x7d".toList [u8 ((v : Int) - 1)]).atLoop
          (IStream.at_ "\x7b[vi]>[0]-\x7d".toList 10) ls) := by
  rfl

theorem loopIterations_one (k : Nat) : loopIterations (fun _ => 1) k = 2 * k := by
  induction k with
  | zero => rfl
  | succ k ih => rw [loopIterations, ih]; omega

/-- Countdown loops: for every `k` below 256 the loop `{[vi]>[0]-}`
started on a cell holding `k` performs exactly `k` value-decrements (one per
round, in `1 + 2 * k` iterations of the main loop) and ends with the cell at 0,
the cursor after the close marker and the Loop Position Stack as before. -/
theorem loop_countdown_family (k : Nat) (hk : k < 256) :
    iterate 20 sampleTokens (1 + 2 * k)
        ((initial "\x7b[vi]>[0]-\x7d".toList [k]).atLoop (IStream.at_ "\x7b[vi]>[0]-\x7d".toList 0) []) =
      some ((initial "\x7b[vi]>[0]-\x7d".toList [0]).atLoop
        (IStream.at_ "\x7b[vi]>[0]-\x7d".toList 11) []) := by
  have h := loop_rounds sampleTokens 20 "\x7b[vi]>[0]-\x7d".toList 0 9 10 [] k
    (fun j => initial "\x7b[vi]>[0]-\x7d".toList [k - j]) (fun _ => 1)
    (IStream.at_ "\x7b[vi]>[0]-\x7d".toList 9)
    (by decide) (by decide) (by decide)
    (by
      intro j hj
      have := countdown_guard (k - j) [((0 + 1 : Nat) : Int)]
      have hpos : decide ((k - j) % 256 > 0) = true := by
        simp only [decide_eq_true_eq]; omega
      rw [hpos] at this
      exact this)
    (by
      have := countdown_guard (k - k) [((0 + 1 : Nat) : Int)]
      have hpos : decide ((k - k) % 256 > 0) = false := by simp
      rw [hpos] at this
      exact this)
    ⟨rfl, rfl⟩
    (fun _ => ⟨rfl, ['-'], by decide, by decide, by decide, by decide⟩)
    (by
      intro j hj
      apply iterate_one
      have := countdown_body (k - j) [((0 + 1 : Nat) : Int)]
      have hv : u8 (((k - j : Nat) : Int) - 1) = k - (j + 1) := by unfold u8; omega
      rw [hv] at this
      exact this)
  rw [loopIterations_one] at h
  simpa using h


/-- C11 (failing input): on the nested literal `[[i]]` the call returns with the
cursor at position 4, before the number-end that closes the outer literal: the
inner literal `[i]` has an empty payload, and that path skips one number-end
only.  On `[[5]]`, where the inner literal has digits, the digit path skips
every number-end that follows and the cursor ends after the whole literal. -/
theorem parseNum_nested_empty_payload_leaves_number_end :
    parseNum 5 sampleTokens (initial "[[i]]".toList [0]) =
      .ok 0 { initial "[[i]]".toList [0] with
        script := { text := "[[i]]".toList, pos := 4, rest := "]".toList,
                    eofbit := false, failbit := false } } ∧
    parseNum 5 sampleTokens (initial "[[5]]".toList [0]) =
      .ok 5 { initial "[[5]]".toList [0] with
        script := { text := "[[5]]".toList, pos := 5, rest := [],
                    eofbit := true, failbit := false } } := by
  constructor <;> decide

theorem drop_one_add_length (a : Char) (l r : List Char) :
    List.drop (1 + l.length) (a :: (l ++ r)) = r := by
  rw [Nat.add_comm, List.drop_succ_cons, List.drop_left]

theorem get_fst_ne_throw (fuel : Nat) (T : Tokens) (c : Ctx)
    (h : c.script.get.1 ≠ some T.NUMBER_START) :
    parseNum (fuel + 1) T c =
      .throw (.runtime_error "Expected number start") { c with script := c.script.get.2 } := by
  rw [parseNum]
  simp only [h, ne_eq, not_false_eq_true, if_true]

/-- C12 (amended): `parseNum` raises a fatal error and returns no value (1) when
the character under the cursor is not the number-start (`Expected number
start`); (2) when the modifiers, of which there is at least one, are directly
followed by the number-end, unless the index marker is among them and no
offset marker is (`Expected number`); (3) when a digit run is followed by a
character other than the number-end or by the end of the script (`Expected
number end`). -/
theorem parseNum_malformed (T : Tokens) (hT : T.NumOK) (c : Ctx) (fuel : Nat) :
    (c.script.get.1 ≠ some T.NUMBER_START →
      parseNum (fuel + 1) T c =
        .throw (.runtime_error "Expected number start") { c with script := c.script.get.2 }) ∧
    (∀ (neg val ind add sub : Bool) (tail : List Char), c.script.Good →
      c.script.rest = T.NUMBER_START :: (modChars T neg val ind add sub ++ T.NUMBER_END :: tail) →
      modChars T neg val ind add sub ≠ [] → (add = true → sub = false) →
      (neg = false → val = false → ind = false → sub = true →
        T.NUMBER_MODIFIER_NEGATIVE ≠ '-') →
      (ind = false ∨ add = true ∨ sub = true) →
      parseNum (fuel + 1) T c =
        .throw (.runtime_error "Expected number")
          { c with script := c.script.adv (2 + (modChars T neg val ind add sub).length) }) ∧
    (∀ (neg val ind add sub : Bool) (d : Char) (ds : List Char) (e : Option Char)
      (tail : List Char), c.script.Good →
      c.script.rest =
        T.NUMBER_START :: (modChars T neg val ind add sub ++ d :: ds ++ e.toList ++ tail) →
      (add = true → sub = false) →
      (neg = false → val = false → ind = false → sub = true →
        T.NUMBER_MODIFIER_NEGATIVE ≠ '-') →
      (∀ x ∈ d :: ds, x.isDigit = true) → isdigit e = false → e ≠ some T.NUMBER_END →
      (e = none → tail = []) → ds.length + 1 ≤ fuel →
      ∃ s, parseNum (fuel + 1) T c =
        .throw (.runtime_error "Expected number end") { c with script := s }) := by
  refine ⟨get_fst_ne_throw fuel T c, ?_, ?_⟩
  · intro neg val ind add sub tail hg hr hne hadd hminus hbad
    have hu := parseNum_unfold hT neg val ind add sub fuel c T.NUMBER_END tail hg hr
      (Or.inr (Or.inr rfl)) (fun _ => hne) hadd hminus
    rw [hu, parsePayload_empty _ _ hT _ _ rfl]
    have hg2 : (c.script.adv (1 + (modChars T neg val ind add sub).length)).Good := hg
    have hr2 : (c.script.adv (1 + (modChars T neg val ind add sub).length)).rest =
        T.NUMBER_END :: tail := by
      rw [adv_rest, hr, drop_one_add_length]
    have e2 : 1 + (modChars T neg val ind add sub).length + 1 =
        2 + (modChars T neg val ind add sub).length := by omega
    have hcond : (!ind || add || sub) = true := by
      rcases hbad with h | h | h <;> simp [h]
    simp only [resolveEmpty, ignore_cons hg2 hr2, adv_adv, e2, hcond, if_true]
  · intro neg val ind add sub d ds e tail hg hr hadd hminus hd he hne hnone hf
    have hd1 : d.isDigit = true := hd d (by simp)
    have hr1 : c.script.rest = T.NUMBER_START ::
        (modChars T neg val ind add sub ++ d :: (ds ++ e.toList ++ tail)) := by
      simpa using hr
    have hu := parseNum_unfold hT neg val ind add sub fuel c d _ hg hr1
      (digit_payloadStart T hd1)
      (fun h => by rw [h, hT.2.1] at hd1; exact absurd hd1 (by simp)) hadd hminus
    have hg2 : (c.script.adv (1 + (modChars T neg val ind add sub).length)).Good := hg
    have hr2 : (c.script.adv (1 + (modChars T neg val ind add sub).length)).rest =
        d :: (ds ++ e.toList ++ tail) := by
      rw [adv_rest, hr1, drop_one_add_length]
    have hl := digitLoop_digits ds fuel
      ((c.script.adv (1 + (modChars T neg val ind add sub).length)).adv 1) [d] e tail hg
      (by rw [adv_rest, hr2]; simp) (fun x hx => hd x (by simp [hx])) he hnone hf
    rw [hu]
    simp only [parsePayload, isdigit, hd1, Bool.not_true, Bool.false_eq_true, if_false,
      ignore_cons hg2 hr2, Option.toList_some, hl, ne_eq, hne, not_false_eq_true, if_true]
    exact ⟨_, rfl⟩

/-- C12 (witness): the digit run of `[12x]` is followed by `x`. -/
theorem parseNum_malformed_witness :
    ∃ s, parseNum (4 + 1) sampleTokens (initial "[12x]".toList [0]) =
      .throw (.runtime_error "Expected number end")
        { initial "[12x]".toList [0] with script := s } :=
  (parseNum_malformed sampleTokens (by decide) (initial "[12x]".toList [0]) 4).2.2
    false false false false false '1' "2".toList (some 'x') "]".toList
    (by decide) (by decide) (by decide) (by decide) (by decide) (by decide) (by decide)
    (by decide) (by decide)

/-- C12 (counterexample): in the bare literal `[]` no digit follows the
number-start and there is no index marker, yet the call raises no error: it
returns 0. -/
theorem parseNum_bare_literal_returns_zero :
    parseNum 5 sampleTokens (initial "[]".toList [7]) =
      .ok 0 { initial "[]".toList [7] with
        script := { text := "[]".toList, pos := 2, rest := [],
                    eofbit := false, failbit := false } } := by
  decide


theorem readUntil_spec (stop : Char) (t : List Char) : ∀ (fuel : Nat) (s : IStream)
    (acc tail : List Char), s.Good → s.rest = t ++ stop :: tail → stop ∉ t →
    t.length + 1 ≤ fuel →
    readUntil stop fuel s acc = some (acc ++ t, s.adv t.length) := by
  induction t with
  | nil =>
    intro fuel s acc tail hg hr _ hf
    obtain ⟨fuel, rfl⟩ : ∃ n, fuel = n + 1 := ⟨fuel - 1, by simp at hf; omega⟩
    have hr2 : s.rest = stop :: tail := by simpa using hr
    simp [readUntil, peek_cons hg hr2, adv_zero]
  | cons ch t ih =>
    intro fuel s acc tail hg hr hn hf
    obtain ⟨fuel, rfl⟩ : ∃ n, fuel = n + 1 := ⟨fuel - 1, by simp at hf; omega⟩
    have hr2 : s.rest = ch :: (t ++ stop :: tail) := by simpa using hr
    have hch : ch ≠ stop := fun h => hn (by simp [h])
    have hnt : stop ∉ t := fun h => hn (by simp [h])
    have hg1 : (s.adv 1).Good := hg
    have hr1 : (s.adv 1).rest = t ++ stop :: tail := by simp [adv_rest, hr2]
    have := ih fuel (s.adv 1) (acc ++ [ch]) tail hg1 hr1 hnt (by simp at hf; omega)
    rw [readUntil]
    simp only [peek_cons hg hr2, get_cons hg hr2, IStream.eof, hg.1, ne_eq, Option.some.injEq,
      hch, not_false_eq_true, decide_True, Bool.not_false, Bool.and_self, if_true, toChar, this,
      adv_adv, List.length_cons]
    simp [Nat.add_comm]

theorem parseExpression_after_right {fuel : Nat} {T : Tokens} {c c1 c3 : Ctx} {l r : Nat}
    {t : List Char} {s2 : IStream} (hl : parseNum fuel T c = .ok l c1)
    (hrd : readUntil T.NUMBER_START fuel c1.script [] = some (t, s2))
    (hr : parseNum fuel T { c1 with script := s2 } = .ok r c3) :
    parseExpression (fuel + 1) T c =
      match relational T t l r with
      | none => .throw (.runtime_error "Invalid relational operator") c3
      | some e => connective (parseExpression fuel T) T e c3 := by
  rw [parseExpression]
  simp only [hl, hrd, hr]
  cases relational T t l r <;> rfl

theorem relational_none {T : Tokens} {t : List Char} (l r : Nat)
    (h : t ∉ T.relationals.map Prod.fst) : relational T t l r = none := by
  simp only [Tokens.relationals, List.map_cons, List.map_nil, List.mem_cons, List.mem_singleton,
    List.not_mem_nil, or_false, not_or] at h
  obtain ⟨h1, h2, h3, h4, h5, h6⟩ := h
  simp [relational, h1, h2, h3, h4, h5, h6]

theorem relational_some {T : Tokens} (hd : (T.relationals.map Prod.fst).Nodup)
    {p : List Char × (Nat → Nat → Bool)} (hp : p ∈ T.relationals) (l r : Nat) :
    relational T p.1 l r = some (p.2 l r) := by
  simp only [Tokens.relationals, List.map_cons, List.map_nil, List.nodup_cons, List.mem_cons,
    List.mem_singleton, List.not_mem_nil, or_false, not_or, not_false_eq_true,
    List.nodup_nil, and_true] at hd
  obtain ⟨⟨h12, h13, h14, h15, h16⟩, ⟨h23, h24, h25, h26⟩, ⟨h34, h35, h36⟩, ⟨h45, h46⟩, h56⟩ := hd
  simp only [Tokens.relationals, List.mem_cons, List.mem_singleton, List.not_mem_nil,
    or_false] at hp
  rcases hp with rfl | rfl | rfl | rfl | rfl | rfl
  · simp [relational]
  · simp [relational, Ne.symm h12]
  · simp [relational, Ne.symm h13, Ne.symm h23]
  · simp [relational, Ne.symm h14, Ne.symm h24, Ne.symm h34]
  · simp [relational, Ne.symm h15, Ne.symm h25, Ne.symm h35, Ne.symm h45]
  · simp [relational, Ne.symm h16, Ne.symm h26, Ne.symm h36, Ne.symm h46, Ne.symm h56]

/-- C13 (amended): let the parse of the left literal return `l` and leave the
cursor on a readable stream whose unread text is `t`, free of the number-start,
followed by a right literal that parses to `r`.  If `t` is one of the six
relational tokens, which are pairwise distinct, the relational result that
`parseExpression` feeds to the connective step is the corresponding comparison
of `l` and `r`; for every other `t` the call raises `Invalid relational
operator`. -/
theorem parseExpression_relational (T : Tokens) (fuel : Nat) (c c1 c3 : Ctx) (l r : Nat)
    (t tail : List Char) (hl : parseNum fuel T c = .ok l c1) (hg : c1.script.Good)
    (hrest : c1.script.rest = t ++ T.NUMBER_START :: tail) (ht : T.NUMBER_START ∉ t)
    (hr : parseNum fuel T { c1 with script := c1.script.adv t.length } = .ok r c3)
    (hf : t.length + 1 ≤ fuel) (hd : (T.relationals.map Prod.fst).Nodup) :
    (∀ p ∈ T.relationals, t = p.1 →
      parseExpression (fuel + 1) T c = connective (parseExpression fuel T) T (p.2 l r) c3) ∧
    (t ∉ T.relationals.map Prod.fst →
      parseExpression (fuel + 1) T c =
        .throw (.runtime_error "Invalid relational operator") c3) := by
  have hrd := readUntil_spec T.NUMBER_START t fuel c1.script [] tail hg hrest ht hf
  rw [List.nil_append] at hrd
  have h := parseExpression_after_right hl hrd hr
  constructor
  · intro p hp htp
    rw [h, htp, relational_some hd hp]
  · intro hn
    rw [h, relational_none l r hn]

/-- C13 (witness): in `[1]>=[0]+` the text between the literals is the
greater-or-equal token, and the comparison `1 ≥ 0` goes to the connective
step. -/
theorem parseExpression_relational_witness :
    parseExpression (5 + 1) sampleTokens (initial "[1]>=[0]+".toList [0]) =
      connective (parseExpression 5 sampleTokens) sampleTokens (decide (1 ≥ 0))
        { initial "[1]>=[0]+".toList [0] with
          script := { text := "[1]>=[0]+".toList, pos := 8, rest := "+".toList,
                      eofbit := false, failbit := false } } :=
  (parseExpression_relational sampleTokens 5 (initial "[1]>=[0]+".toList [0])
    { initial "[1]>=[0]+".toList [0] with
      script := { text := "[1]>=[0]+".toList, pos := 3, rest := ">=[0]+".toList,
                  eofbit := false, failbit := false } }
    { initial "[1]>=[0]+".toList [0] with
      script := { text := "[1]>=[0]+".toList, pos := 8, rest := "+".toList,
                  eofbit := false, failbit := false } }
    1 0 ">=".toList "0]+".toList (by decide) (by decide) (by decide) (by decide) (by decide)
    (by decide) (by decide)).1
    (">=".toList, fun l r => decide (l ≥ r)) (by simp [Tokens.relationals, sampleTokens]) rfl

/-- C13 (counterexample): in `[1]]=[1]` the text between the end of the left
literal `[1]` and the number-start of the right literal is `]=`, which is none
of the six relational tokens, yet no error is raised: the parse of the left
literal skips the second number-end and the call returns the comparison
`1 = 1`. -/
theorem parseExpression_number_end_before_token :
    "]=".toList ∉ sampleTokens.relationals.map Prod.fst ∧
    parseExpression 6 sampleTokens (initial "[1]]=[1]".toList [0]) =
      .ok true { initial "[1]]=[1]".toList [0] with
        script := { text := "[1]]=[1]".toList, pos := 8, rest := [],
                    eofbit := false, failbit := true } } := by
  constructor <;> decide


theorem samePlace_refl (s : IStream) : s.samePlace s := ⟨rfl, rfl, rfl⟩

theorem matchToken_bad (tok : List Char) : ∀ (s : IStream) (acc : List Char),
    (s.eofbit = true ∨ s.failbit = true) →
    (matchToken tok s acc).1 = acc ∧ s.samePlace (matchToken tok s acc).2 ∧
      (s.failbit = true → (matchToken tok s acc).2.failbit = true) ∧
      ((matchToken tok s acc).2.failbit = true → s.failbit = true ∨ 1 ≤ tok.length) := by
  induction tok with
  | nil =>
    intro s acc _
    exact ⟨rfl, samePlace_refl s, id, Or.inl⟩
  | cons ch tok ih =>
    intro s acc hb
    have hp : s.peek = (none, { s with failbit := true }) := by
      rcases hb with h | h <;> simp [IStream.peek, h]
    obtain ⟨h1, h2, h3, _⟩ := ih { s with failbit := true } acc (Or.inr rfl)
    rw [matchToken]
    simp only [hp, if_false]
    exact ⟨h1, h2, fun _ => h3 rfl, fun _ => Or.inr (by simp)⟩

theorem matchToken_good (tok : List Char) : ∀ (s : IStream) (acc : List Char), s.Good →
    ∃ m, (matchToken tok s acc).1 = acc ++ m ∧ m <+: s.rest ∧
      (matchToken tok s acc).2.text = s.text ∧
      ((matchToken tok s acc).2.failbit = true → m = s.rest ∧ m.length + 2 ≤ tok.length) ∧
      (m = [] → s.samePlace (matchToken tok s acc).2) := by
  induction tok with
  | nil =>
    intro s acc hg
    refine ⟨[], by simp [matchToken], List.nil_prefix, rfl, ?_, fun _ => samePlace_refl s⟩
    intro h
    simp only [matchToken] at h
    rw [hg.2] at h
    exact absurd h (by simp)
  | cons ch tok ih =>
    intro s acc hg
    cases hr : s.rest with
    | nil =>
      have hp : s.peek = (none, { s with eofbit := true }) := by
        simp [IStream.peek, hg.1, hg.2, hr]
      obtain ⟨h1, h2, _, h4⟩ := matchToken_bad tok { s with eofbit := true } acc (Or.inl rfl)
      rw [matchToken]
      simp only [hp, if_false]
      refine ⟨[], by simpa using h1, List.nil_prefix, h2.1, ?_, fun _ => h2⟩
      intro hf
      rcases h4 hf with h | h
      · exact absurd (hg.2 ▸ h : false = true) (by simp)
      · exact ⟨rfl, by simp; omega⟩
    | cons x r =>
      have hp := peek_cons hg hr
      by_cases hx : x = ch
      · subst hx
        have hg1 : (s.adv 1).Good := hg
        have hr1 : (s.adv 1).rest = r := by simp [adv_rest, hr]
        obtain ⟨m, h1, h2, h3, h4, _⟩ := ih (s.adv 1) (acc ++ [x]) hg1
        rw [matchToken]
        simp only [hp, if_true, get_cons hg hr, toChar]
        refine ⟨x :: m, by simpa using h1, ?_, h3, ?_, fun h => by simp at h⟩
        · rw [hr1] at h2
          exact (List.prefix_cons_inj x).2 h2
        · intro hf
          obtain ⟨h5, h6⟩ := h4 hf
          rw [hr1] at h5
          exact ⟨by rw [h5], by simp; omega⟩
      · obtain ⟨m, h1, h2, h3, h4, h5⟩ := ih s acc hg
        have hne : ¬ (some x = some ch) := fun h => hx (Option.some.inj h)
        rw [matchToken]
        simp only [hp, hne, if_false]
        rw [hr] at h2 h4
        refine ⟨m, h1, h2, h3, ?_, h5⟩
        intro hf
        obtain ⟨h6, h7⟩ := h4 hf
        exact ⟨h6, by simp; omega⟩

/-- One attempt of `parseExpression` to read a connective that is not there,
followed by `seekg(before)`: the stream is back where it was, possibly with
`failbit` set. -/
theorem matchToken_attempt {s0 s1 : IStream} {p : Int} {tok : List Char}
    (hP : (s1 = s0 ∧ s0.Good ∧ p = (s0.pos : Int)) ∨ (s1.failbit = true ∧ s0.samePlace s1))
    (hco : s0.rest = s0.text.drop s0.pos)
    (hlen : s0.rest ≠ [] → tok.length ≤ s0.rest.length + 1) :
    (matchToken tok s1 []).1 <+: s0.rest ∧
    ((((matchToken tok s1 []).2.seekg p) = s0 ∧ s0.Good ∧ p = (s0.pos : Int)) ∨
      (((matchToken tok s1 []).2.seekg p).failbit = true ∧
        s0.samePlace ((matchToken tok s1 []).2.seekg p))) := by
  rcases hP with ⟨rfl, hg, hp⟩ | ⟨hf, hs⟩
  · obtain ⟨m, h1, h2, h3, h4, h5⟩ := matchToken_good tok s1 [] hg
    rw [List.nil_append] at h1
    refine ⟨h1 ▸ h2, ?_⟩
    cases hfb : (matchToken tok s1 []).2.failbit with
    | true =>
      right
      obtain ⟨h6, h7⟩ := h4 hfb
      have hm : m = [] := by
        by_contra hne
        have := hlen (h6 ▸ hne)
        rw [← h6] at this
        omega
      obtain ⟨e1, e2, e3⟩ := h5 hm
      simp only [IStream.seekg, hfb, if_true]
      exact ⟨trivial, e1, e2, e3⟩
    | false =>
      left
      refine ⟨?_, hg, hp⟩
      have hp0 : ¬ (p < 0) := by omega
      simp only [IStream.seekg, hfb, Bool.false_eq_true, if_false, hp0, h3, hp, Int.toNat_ofNat,
        ← hco]
      obtain ⟨text, pos, rest, e, f⟩ := s1
      obtain ⟨g1, g2⟩ := hg
      simp only at g1 g2
      simp [g1, g2]
  · obtain ⟨h1, h2, h3, _⟩ := matchToken_bad tok s1 [] (Or.inr hf)
    rw [h1]
    refine ⟨List.nil_prefix, Or.inr ?_⟩
    have hfb := h3 hf
    obtain ⟨e1, e2, e3⟩ := h2
    obtain ⟨f1, f2, f3⟩ := hs
    simp only [IStream.seekg, hfb, if_true]
    exact ⟨trivial, e1.trans f1, e2.trans f2, e3.trans f3⟩

theorem matchConditional_none (T : Tokens) (s0 : IStream)
    (hco : s0.rest = s0.text.drop s0.pos)
    (hno : ∀ tok ∈ T.conditionals, ¬ tok <+: s0.rest)
    (hlen : s0.rest ≠ [] → ∀ tok ∈ T.conditionals, tok.length ≤ s0.rest.length + 1) :
    (matchConditional T s0).1 ∉ T.conditionals ∧ s0.samePlace (matchConditional T s0).2 := by
  have hP0 : (s0.tellg.2 = s0 ∧ s0.Good ∧ s0.tellg.1 = (s0.pos : Int)) ∨
      (s0.tellg.2.failbit = true ∧ s0.samePlace s0.tellg.2) := by
    by_cases hg : s0.Good
    · left
      simp [IStream.tellg, hg.1, hg.2, hg]
    · right
      have hb : (s0.eofbit || s0.failbit) = true := by
        simp only [IStream.Good, not_and_or] at hg
        rcases hg with h | h
        · simp at h; simp [h]
        · simp at h; simp [h]
      simp only [IStream.tellg, hb, if_true]
      exact ⟨trivial, rfl, rfl, rfl⟩
  have hA := @matchToken_attempt _ _ _ T.CONDITIONAL_AND hP0 hco
    (fun h => hlen h _ (by simp [Tokens.conditionals]))
  have hO := @matchToken_attempt _ _ _ T.CONDITIONAL_OR hA.2 hco
    (fun h => hlen h _ (by simp [Tokens.conditionals]))
  have hX := @matchToken_attempt _ _ _ T.CONDITIONAL_XOR hO.2 hco
    (fun h => hlen h _ (by simp [Tokens.conditionals]))
  have nA : (matchToken T.CONDITIONAL_AND s0.tellg.2 []).1 ≠ T.CONDITIONAL_AND :=
    fun h => hno _ (by simp [Tokens.conditionals]) (h ▸ hA.1)
  have nO : (matchToken T.CONDITIONAL_OR
      ((matchToken T.CONDITIONAL_AND s0.tellg.2 []).2.seekg s0.tellg.1) []).1 ≠
        T.CONDITIONAL_OR :=
    fun h => hno _ (by simp [Tokens.conditionals]) (h ▸ hO.1)
  have nX : (matchToken T.CONDITIONAL_XOR
      ((matchToken T.CONDITIONAL_OR
        ((matchToken T.CONDITIONAL_AND s0.tellg.2 []).2.seekg s0.tellg.1) []).2.seekg
          s0.tellg.1) []).1 ≠ T.CONDITIONAL_XOR :=
    fun h => hno _ (by simp [Tokens.conditionals]) (h ▸ hX.1)
  simp only [matchConditional, ne_eq, nA, nO, nX, not_false_eq_true, if_true]
  constructor
  · intro hmem
    exact hno _ hmem hX.1
  · rcases hX.2 with ⟨h, _, _⟩ | ⟨_, h⟩
    · rw [h]; exact samePlace_refl s0
    · exact h

theorem connective_none {again : Ctx → Res Bool} {T : Tokens} {c3 : Ctx}
    (h : (matchConditional T c3.script).1 ∉ T.conditionals) (b : Bool) :
    connective again T b c3 = .ok b { c3 with script := (matchConditional T c3.script).2 } := by
  simp only [Tokens.conditionals, List.mem_cons, List.mem_singleton, List.not_mem_nil, or_false,
    not_or] at h
  simp [connective, h.1, h.2.1, h.2.2]

/-- C14: let the left literal, the relational operator and the right literal
parse, with relational result `b` and the state `c3` left by the parse of the
right number.  If none of the three connective tokens is a prefix of the text
unread in `c3`, then `parseExpression` returns `b` and the stream of the
result is that of `c3` up to its state bits: same position, same unread text,
so that no character after the right number is consumed, also when that text
starts with a proper prefix of a token.  The stream of `c3` is on its text
(`rest` is the text from `pos` on), and a token longer than the unread text
plus one character is left aside. -/
theorem parseExpression_no_connective (T : Tokens) (fuel : Nat) (c c1 c3 : Ctx) (l r : Nat)
    (t : List Char) (s2 : IStream) (b : Bool) (hl : parseNum fuel T c = .ok l c1)
    (hrd : readUntil T.NUMBER_START fuel c1.script [] = some (t, s2))
    (hr : parseNum fuel T { c1 with script := s2 } = .ok r c3)
    (hb : relational T t l r = some b)
    (hco : c3.script.rest = c3.script.text.drop c3.script.pos)
    (hno : ∀ tok ∈ T.conditionals, ¬ tok <+: c3.script.rest)
    (hlen : c3.script.rest ≠ [] →
      ∀ tok ∈ T.conditionals, tok.length ≤ c3.script.rest.length + 1) :
    ∃ s, parseExpression (fuel + 1) T c = .ok b { c3 with script := s } ∧
      c3.script.samePlace s := by
  obtain ⟨h1, h2⟩ := matchConditional_none T c3.script hco hno hlen
  refine ⟨(matchConditional T c3.script).2, ?_, h2⟩
  rw [parseExpression_after_right hl hrd hr, hb]
  exact connective_none h1 b

/-- C14 (witness): in `[1]>=[0]&+` the right number is followed by `&`, a proper
prefix of the token `&&` and itself an opcode; the call returns `true` with
the cursor still before `&`. -/
theorem parseExpression_no_connective_witness :
    ∃ s, parseExpression (5 + 1) sampleTokens (initial "[1]>=[0]&+".toList [0]) =
        .ok true { initial "[1]>=[0]&+".toList [0] with script := s } ∧
      IStream.samePlace { text := "[1]>=[0]&+".toList, pos := 8, rest := "&+".toList,
                          eofbit := false, failbit := false } s :=
  parseExpression_no_connective sampleTokens 5 (initial "[1]>=[0]&+".toList [0])
    { initial "[1]>=[0]&+".toList [0] with
      script := { text := "[1]>=[0]&+".toList, pos := 3, rest := ">=[0]&+".toList,
                  eofbit := false, failbit := false } }
    { initial "[1]>=[0]&+".toList [0] with
      script := { text := "[1]>=[0]&+".toList, pos := 8, rest := "&+".toList,
                  eofbit := false, failbit := false } }
    1 0 ">=".toList
    { text := "[1]>=[0]&+".toList, pos := 5, rest := "[0]&+".toList,
      eofbit := false, failbit := false }
    true (by decide) (by decide) (by decide) (by decide) (by decide) (by decide) (by decide)


/-- C15 (amended): for every state whose Uncertainty Counter fits its type
`uint32_t`, `UNCERTAINTY_END` raises `Unexpected uncertainty end` exactly when
the counter is 0, and then changes nothing; otherwise it decreases the counter
by 1 and changes nothing else.  `UNCERTAINTY_START` with a guard that
evaluates to true replaces the counter `n` by `(n + 1) mod 2^32`, leaves the
cursor where the guard left it and changes nothing else. -/
theorem uncertainty_counter_bookkeeping (T : Tokens) (fuel : Nat) (c : Ctx)
    (hc : c.uncertainty_count < 4294967296) :
    (c.uncertainty_count = 0 →
      UNCERTAINTY_END c = .throw (.runtime_error "Unexpected uncertainty end") c) ∧
    (c.uncertainty_count ≠ 0 →
      UNCERTAINTY_END c = .ok () { c with uncertainty_count := c.uncertainty_count - 1 }) ∧
    (∀ c1, parseExpression fuel T c = .ok true c1 →
      UNCERTAINTY_START fuel T c =
        .ok () { c with script := c1.script,
                        uncertainty_count := (c.uncertainty_count + 1) % 4294967296 }) := by
  refine ⟨?_, ?_, ?_⟩
  · intro h
    simp [UNCERTAINTY_END, h]
  · intro h
    have e : u32 ((c.uncertainty_count : Int) - 1) = c.uncertainty_count - 1 := by
      simp only [u32]; omega
    simp [UNCERTAINTY_END, h, e]
  · intro c1 hguard
    have hk := keeps_parseExpression fuel T c
    rw [hguard] at hk
    have hk : c1 = { c with script := c1.script } := hk
    have e : u32 ((c.uncertainty_count : Int) + 1) = (c.uncertainty_count + 1) % 4294967296 := by
      simp only [u32]; omega
    unfold UNCERTAINTY_START
    simp only [hguard]
    conv_lhs => rw [hk]
    simp only [e]

/-- C15 (witness): with the counter at 2 and the guard `[1]=[1]` the counter
becomes 3 and the cursor is after the guard, before `+`. -/
theorem uncertainty_counter_bookkeeping_witness :
    UNCERTAINTY_START 6 sampleTokens
        { initial "[1]=[1]+".toList [0] with uncertainty_count := 2 } =
      .ok () { initial "[1]=[1]+".toList [0] with
        script := { text := "[1]=[1]+".toList, pos := 7, rest := "+".toList,
                    eofbit := false, failbit := false },
        uncertainty_count := (2 + 1) % 4294967296 } :=
  (uncertainty_counter_bookkeeping sampleTokens 6
    { initial "[1]=[1]+".toList [0] with uncertainty_count := 2 } (by decide)).2.2
    { initial "[1]=[1]+".toList [0] with
      script := { text := "[1]=[1]+".toList, pos := 7, rest := "+".toList,
                  eofbit := false, failbit := false },
      uncertainty_count := 2 } (by decide)

/-- C15 (counterexample): with the counter at 4294967295, its largest value,
`UNCERTAINTY_START` with the true guard `[1]=[1]` leaves the counter at 0: it
has not increased by 1. -/
theorem UNCERTAINTY_START_counter_wraps :
    UNCERTAINTY_START 6 sampleTokens
        { initial "[1]=[1]+".toList [0] with uncertainty_count := 4294967295 } =
      .ok () { initial "[1]=[1]+".toList [0] with
        script := { text := "[1]=[1]+".toList, pos := 7, rest := "+".toList,
                    eofbit := false, failbit := false },
        uncertainty_count := 0 } := by
  decide


theorem write_nil (c : Ctx) : c.write [] = c := by
  obtain ⟨sc, inp, out, fi, fo, di, dout, p, i, u, l⟩ := c
  cases fo <;> simp [Ctx.write]

theorem write_write (c : Ctx) (a b : List Char) : (c.write a).write b = c.write (a ++ b) := by
  unfold Ctx.write
  cases h : c.file_output <;> simp [h]

theorem write_script (c : Ctx) (a : List Char) (s : IStream) :
    { c.write a with script := s } = { c with script := s }.write a := by
  unfold Ctx.write
  cases h : c.file_output <;> simp [h]

theorem writeFormatted_tag (c : Ctx) (v : Nat) (t : Char) (hv : c.pointer[c.index]? = some v) :
    writeFormatted (some t) c = .ok () (c.write (formatText v t)) := by
  have hp : c.pointer_at c.index = .ok v c := by simp [Ctx.pointer_at, hv]
  unfold writeFormatted formatText
  by_cases h1 : t = 'n'
  · simp [h1, hp, Res.bind]
  · by_cases h2 : t = 'c'
    · simp [h2, hp, Res.bind]
    · by_cases h3 : t = '_'
      · simp [h3]
      · simp [h1, h2, h3]

theorem writeLoop_tags (v : Nat) (tail : List Char) (tags : List Char) :
    ∀ (fuel : Nat) (c : Ctx), c.script.Good → c.script.rest = tags ++ tail →
    (∀ t ∈ tags, isFormat (some t) = true) → isFormat tail.head? = false →
    c.pointer[c.index]? = some v → tags.length + 1 ≤ fuel →
    writeLoop fuel c.script.peek.1 { c with script := c.script.peek.2 } =
      .ok () ({ c with script := (c.script.adv tags.length).peek.2 }.write
        (tags.flatMap (formatText v))) := by
  induction tags with
  | nil =>
    intro fuel c hg hr _ htail _ hf
    obtain ⟨fuel, rfl⟩ : ∃ n, fuel = n + 1 := ⟨fuel - 1, by simp at hf; omega⟩
    have hr2 : c.script.rest = tail := by simpa using hr
    rw [writeLoop]
    simp only [peek_fst_good hg, hr2, htail, Bool.false_and, Bool.false_eq_true, if_false,
      List.length_nil, adv_zero, List.flatMap_nil, write_nil]
  | cons t tags ih =>
    intro fuel c hg hr htags htail hv hf
    obtain ⟨fuel, rfl⟩ : ∃ n, fuel = n + 1 := ⟨fuel - 1, by simp at hf; omega⟩
    have hr2 : c.script.rest = t :: (tags ++ tail) := by simpa using hr
    have ht : isFormat (some t) = true := htags t (by simp)
    have hg1 : (c.script.adv 1).Good := hg
    have hr1 : (c.script.adv 1).rest = tags ++ tail := by simp [adv_rest, hr2]
    have hw := writeFormatted_tag { c with script := c.script.adv 1 } v t hv
    have hih := ih fuel ({ c with script := c.script.adv 1 }.write (formatText v t))
      (by unfold Ctx.write; cases c.file_output <;> exact hg1)
      (by unfold Ctx.write; cases c.file_output <;> exact hr1)
      (fun x hx => htags x (by simp [hx])) htail
      (by unfold Ctx.write; cases c.file_output <;> exact hv) (by simp at hf; omega)
    have hsc : ({ c with script := c.script.adv 1 }.write (formatText v t)).script =
        c.script.adv 1 := by
      unfold Ctx.write; cases c.file_output <;> rfl
    rw [writeLoop]
    simp only [peek_cons hg hr2, ht, IStream.eof, hg.1, Bool.not_false, Bool.and_self, if_true,
      ignore_cons hg hr2, hw, Res.bind]
    rw [hih, hsc, write_script, write_write, adv_adv]
    simp [Nat.add_comm]

theorem peek_text (s : IStream) : s.peek.2.text = s.text := by
  obtain ⟨text, pos, rest, e, f⟩ := s
  cases e <;> cases f <;> cases rest <;> simp [IStream.peek]

/-- The run of `OUTPUT_WRITE` over a maximal run of format tags, in terms of
`Ctx.write` and `formatText`. -/
theorem OUTPUT_WRITE_run (c : Ctx) (v : Nat) (tags tail : List Char) (fuel : Nat)
    (hg : c.script.Good) (hr : c.script.rest = tags ++ tail)
    (htags : ∀ t ∈ tags, isFormat (some t) = true) (htail : isFormat tail.head? = false)
    (hv : c.pointer[c.index]? = some v) (hf : tags.length + 1 ≤ fuel) :
    OUTPUT_WRITE fuel c =
      .ok () ({ c with script := (c.script.adv tags.length).peek.2 }.write
        (if tags = [] then [Char.ofNat v] else tags.flatMap (formatText v))) ∧
    (c.script.adv tags.length).peek.2.pos = c.script.pos + tags.length ∧
    (c.script.adv tags.length).peek.2.rest = tail := by
  have hga : (c.script.adv tags.length).Good := hg
  have hp2 : ∀ s : IStream, s.Good → s.peek.2.pos = s.pos ∧ s.peek.2.rest = s.rest := by
    intro s hs
    unfold IStream.peek
    cases hrs : s.rest <;> simp [hs.1, hs.2, hrs]
  refine ⟨?_, (hp2 _ hga).1, by rw [(hp2 _ hga).2, adv_rest, hr, List.drop_left]⟩
  cases tags with
  | nil =>
    have hr2 : c.script.rest = tail := by simpa using hr
    have hp : ({ c with script := c.script.peek.2 } : Ctx).pointer_at c.index =
        .ok v { c with script := c.script.peek.2 } := by
      simp [Ctx.pointer_at, hv]
    unfold OUTPUT_WRITE
    simp only [peek_fst_good hg, hr2, htail, Bool.not_false, if_true, hp, Res.bind,
      List.length_nil, adv_zero]
  | cons t tags =>
    have hr2 : c.script.rest = t :: (tags ++ tail) := by simpa using hr
    have ht : isFormat (some t) = true := htags t (by simp)
    have h := writeLoop_tags v tail (t :: tags) fuel c hg hr htags htail hv hf
    unfold OUTPUT_WRITE
    simp only [peek_cons hg hr2, ht, Bool.not_true, Bool.false_eq_true, if_false]
    rw [peek_cons hg hr2] at h
    simpa using h

/-- C17: in a state whose current cell holds `v`, with the script readable and
the opcode followed by the maximal run `tags` of the format tags `n`, `c`, `_`
and backslash (the next character, if any, is none of the four),
`OUTPUT_WRITE` returns with the cursor moved over the tags and no further,
having appended the text below to the content of the open output file when
there is one, and to the default output otherwise; the other of the two, the
tape, the index and everything else are unchanged.  The text is the raw byte
`v` when the run is empty; otherwise it is, tag after tag, the decimal digits
of `v` for `n`, the raw byte `v` for `c`, one space for `_` and one line feed
for the backslash. -/
theorem OUTPUT_WRITE_tags (c : Ctx) (v : Nat) (tags tail : List Char) (fuel : Nat)
    (hg : c.script.Good) (hr : c.script.rest = tags ++ tail)
    (htags : ∀ t ∈ tags, t = 'n' ∨ t = 'c' ∨ t = '_' ∨ t = Char.ofNat 92)
    (htail : ∀ t, tail.head? = some t → t ≠ 'n' ∧ t ≠ 'c' ∧ t ≠ '_' ∧ t ≠ Char.ofNat 92)
    (hv : c.pointer[c.index]? = some v) (hf : tags.length + 1 ≤ fuel) :
    (∀ name content, c.file_output = some (name, content) →
      OUTPUT_WRITE fuel c =
        .ok () { c with
          script := (c.script.adv tags.length).peek.2,
          file_output := some (name, content ++
            (if tags = [] then [Char.ofNat v]
             else tags.flatMap (fun t =>
               if t = 'n' then (Nat.repr v).toList
               else if t = 'c' then [Char.ofNat v]
               else if t = '_' then [' ']
               else [Char.ofNat 10]))) }) ∧
    (c.file_output = none →
      OUTPUT_WRITE fuel c =
        .ok () { c with
          script := (c.script.adv tags.length).peek.2,
          output := c.output ++
            (if tags = [] then [Char.ofNat v]
             else tags.flatMap (fun t =>
               if t = 'n' then (Nat.repr v).toList
               else if t = 'c' then [Char.ofNat v]
               else if t = '_' then [' ']
               else [Char.ofNat 10])) }) ∧
    (c.script.adv tags.length).peek.2.pos = c.script.pos + tags.length ∧
    (c.script.adv tags.length).peek.2.rest = tail ∧
    (c.script.adv tags.length).peek.2.text = c.script.text := by
  have htags1 : ∀ t ∈ tags, isFormat (some t) = true := by
    intro t ht
    rcases htags t ht with h | h | h | h <;> subst h <;> decide
  have htail1 : isFormat tail.head? = false := by
    cases hh : tail.head? with
    | none => rfl
    | some t =>
      obtain ⟨h1, h2, h3, h4⟩ := htail t hh
      simp [isFormat, h1, h2, h3, h4]
  obtain ⟨hrun, hpos, hrest⟩ := OUTPUT_WRITE_run c v tags tail fuel hg hr htags1 htail1 hv hf
  have htext : (c.script.adv tags.length).peek.2.text = c.script.text :=
    peek_text (c.script.adv tags.length)
  have hfmt : (fun t => formatText v t) = (fun t =>
      if t = 'n' then (Nat.repr v).toList
      else if t = 'c' then [Char.ofNat v]
      else if t = '_' then [' ']
      else [Char.ofNat 10]) := by
    funext t
    rfl
  have hfm : tags.flatMap (formatText v) = tags.flatMap (fun t =>
      if t = 'n' then (Nat.repr v).toList
      else if t = 'c' then [Char.ofNat v]
      else if t = '_' then [' ']
      else [Char.ofNat 10]) := by
    rw [← hfmt]
  rw [hfm] at hrun
  refine ⟨?_, ?_, hpos, hrest, htext⟩
  · intro name content hfile
    rw [hrun]
    simp only [Ctx.write, hfile]
  · intro hfile
    rw [hrun]
    simp only [Ctx.write, hfile]

/-- C17 (witness): with the cell at 65 and the output file `out` open, holding
`x`, the tags of `^n_c\^` append `65 A` and a line feed to the file and leave
the default output `y` as it is; with no file open and no tag after the
opcode, as in `^+`, the byte 65 goes to the default output. -/
theorem OUTPUT_WRITE_tags_witness :
    OUTPUT_WRITE 6
        { initial ("^n_c".toList ++ [Char.ofNat 92, '^']) [65] with
          script := (IStream.open_ ("^n_c".toList ++ [Char.ofNat 92, '^'])).adv 1,
          output := "y".toList, file_output := some ("out".toList, "x".toList) } =
      .ok () { initial ("^n_c".toList ++ [Char.ofNat 92, '^']) [65] with
          script := (IStream.open_ ("^n_c".toList ++ [Char.ofNat 92, '^'])).adv 5,
          output := "y".toList,
          file_output := some ("out".toList, "x65 A".toList ++ [Char.ofNat 10]) } ∧
    OUTPUT_WRITE 6
        { initial "^+".toList [65] with
          script := (IStream.open_ "^+".toList).adv 1, output := "y".toList } =
      .ok () { initial "^+".toList [65] with
          script := (IStream.open_ "^+".toList).adv 1, output := "yA".toList } :=
  ⟨(OUTPUT_WRITE_tags
      { initial ("^n_c".toList ++ [Char.ofNat 92, '^']) [65] with
        script := (IStream.open_ ("^n_c".toList ++ [Char.ofNat 92, '^'])).adv 1,
        output := "y".toList, file_output := some ("out".toList, "x".toList) }
      65 ("n_c".toList ++ [Char.ofNat 92]) "^".toList 6 (by decide) (by decide) (by decide)
      (by decide) (by decide) (by decide)).1 "out".toList "x".toList rfl,
   (OUTPUT_WRITE_tags
      { initial "^+".toList [65] with
        script := (IStream.open_ "^+".toList).adv 1, output := "y".toList }
      65 [] "+".toList 6 (by decide) (by decide) (by decide)
      (by decide) (by decide) (by decide)).2.1 rfl⟩

theorem step_increment (fuel : Nat) (T : Tokens) (c : Ctx) (tail : List Char) (v : Nat)
    (hg : c.script.Good) (hr : c.script.rest = '+' :: tail)
    (hv : c.pointer[c.index]? = some v) :
    step fuel T c = .ok true { c with script := c.script.adv 1,
                                      pointer := c.pointer.set c.index ((v + 1) % 256) } := by
  have e : u8 ((v : Int) + 1) = (v + 1) % 256 := by simp only [u8]; omega
  unfold step
  simp only [get_cons hg hr]
  simp [isSkipped, findInstruction, Instr.execute, VALUE_INCREMENT, Ctx.store, hv, Res.bind, e]

theorem set_same {l : List Nat} {i v : Nat} (h : l[i]? = some v) : l.set i v = l := by
  apply List.ext_getElem?
  intro j
  have hi : i < l.length := by
    rcases Nat.lt_or_ge i l.length with h1 | h1
    · exact h1
    · rw [List.getElem?_eq_none h1] at h; simp at h
  by_cases hj : i = j
  · subst hj
    rw [List.getElem?_set_self hi]
    exact h.symm
  · rw [List.getElem?_set_ne hj]

theorem iterate_increments (fuel : Nat) (T : Tokens) (tail : List Char) (m : Nat) :
    ∀ (c : Ctx) (v : Nat), c.script.Good → c.script.rest = List.replicate m '+' ++ tail →
    c.pointer[c.index]? = some v → v < 256 →
    iterate fuel T m c = some { c with script := c.script.adv m,
                                       pointer := c.pointer.set c.index ((v + m) % 256) } := by
  induction m with
  | zero =>
    intro c v _ _ hv hlt
    have e : (v + 0) % 256 = v := by omega
    simp only [iterate, adv_zero, e, set_same hv]
  | succ m ih =>
    intro c v hg hr hv hlt
    have hr2 : c.script.rest = '+' :: (List.replicate m '+' ++ tail) := by
      simpa [List.replicate_succ] using hr
    have hi : c.index < c.pointer.length := by
      rcases Nat.lt_or_ge c.index c.pointer.length with h | h
      · exact h
      · rw [List.getElem?_eq_none h] at hv; simp at hv
    have hs := step_increment fuel T c _ v hg hr2 hv
    have hih := ih { c with script := c.script.adv 1,
                            pointer := c.pointer.set c.index ((v + 1) % 256) } ((v + 1) % 256)
      hg (by simp [adv_rest, hr2]) (by simp [List.getElem?_set_self, hi]) (by omega)
    have e : ((v + 1) % 256 + m) % 256 = (v + (m + 1)) % 256 := by omega
    rw [iterate]
    simp only [hs, hih, adv_adv, List.set_set, e]
    simp [Nat.add_comm]

theorem interpretLoop_iterate (fuel : Nat) (T : Tokens) (m n : Nat) : ∀ (c c1 : Ctx),
    iterate fuel T m c = some c1 →
    interpretLoop fuel T (m + n) c = interpretLoop fuel T n c1 := by
  induction m with
  | zero =>
    intro c c1 h
    simp only [iterate, Option.some.injEq] at h
    rw [h, Nat.zero_add]
  | succ m ih =>
    intro c c1 h
    rw [iterate] at h
    have e : m + 1 + n = (m + n) + 1 := by omega
    rw [e, interpretLoop]
    cases hs : step fuel T c with
    | ok b c2 =>
      cases b with
      | true => rw [hs] at h; simp only at h ⊢; exact ih c2 c1 h
      | false => rw [hs] at h; simp at h
    | throw e1 c2 => rw [hs] at h; simp at h
    | undef => rw [hs] at h; simp at h
    | timeout => rw [hs] at h; simp at h

/-- The last two iterations of the main loop on a script that ends with the
output instruction and one format tag. -/
theorem interpretLoop_output_tag (fuel : Nat) (T : Tokens) (c : Ctx) (t : Char) (v : Nat)
    (hg : c.script.Good) (hr : c.script.rest = ['^', t]) (ht : isFormat (some t) = true)
    (hv : c.pointer[c.index]? = some v) (hf : 2 ≤ fuel) :
    interpretLoop fuel T 2 c =
      .ok () ({ c with
        script := { text := c.script.text, pos := c.script.pos + 2, rest := [],
                    eofbit := true, failbit := true } }.write
        (formatText v t)) := by
  have hg1 : (c.script.adv 1).Good := hg
  have hr1 : (c.script.adv 1).rest = [t] ++ [] := by simp [adv_rest, hr]
  have hr1b : (c.script.adv 1).rest = [t] := by simp [adv_rest, hr]
  have hw : writeLoop fuel (some t) { c with script := c.script.adv 1 } =
      .ok () ({ c with script := ((c.script.adv 1).adv 1).peek.2 }.write (formatText v t)) := by
    have := writeLoop_tags v [] [t] fuel { c with script := c.script.adv 1 } hg1 hr1
      (by simpa using ht) (by decide) hv (by simpa using hf)
    rw [peek_cons hg1 hr1b] at this
    simpa using this
  have hstep : step fuel T c = .ok true
      ({ c with script := ((c.script.adv 1).adv 1).peek.2 }.write (formatText v t)) := by
    unfold step
    simp only [get_cons hg hr]
    have hfi : findInstruction '^' = some .OUTPUT_WRITE := by decide
    have hsk : isSkipped '^' = false := by decide
    simp only [hsk, hfi, Instr.execute, OUTPUT_WRITE, peek_cons hg1 hr1b, ht, hw, Res.bind,
      Bool.false_eq_true, if_false, Bool.not_true]
  have hp : ((c.script.adv 1).adv 1).peek.2 =
      { text := c.script.text, pos := c.script.pos + 2, rest := [],
        eofbit := true, failbit := false } := by
    rw [adv_adv]
    have : (c.script.adv 2).rest = [] := by simp [adv_rest, hr]
    have hg2 : (c.script.adv 2).Good := hg
    simp [IStream.peek, hg2.1, hg2.2, this]
    exact ⟨rfl, rfl⟩
  rw [hp] at hstep
  have hstep2 : step fuel T
      ({ c with
        script := { text := c.script.text, pos := c.script.pos + 2, rest := [],
                    eofbit := true, failbit := false } }.write (formatText v t)) =
      .ok false ({ c with
        script := { text := c.script.text, pos := c.script.pos + 2, rest := [],
                    eofbit := true, failbit := true } }.write (formatText v t)) := by
    unfold step Ctx.write
    cases c.file_output <;> simp [IStream.get]
  rw [interpretLoop]
  simp only [hstep]
  rw [interpretLoop]
  simp only [hstep2]

theorem drop_replicate_append (k : Nat) (a : Char) (tail : List Char) :
    (List.replicate k a ++ tail).drop k = tail := by
  have h := @List.drop_left _ (List.replicate k a) tail
  rwa [List.length_replicate] at h

/-- C18: for every `k` below 256, the main loop on `k` value-increments
followed by `^c`, from the tape `[0]`, ends normally at the end of the script
with the tape `[k]` and exactly the character with code `k` on the default
output; on `>` followed by `k` value-increments and `^n`, from the tape `[0, 0]`
and index 0, it ends normally with index 1, tape `[0, k]` and exactly the
decimal digits of `k` on the default output. -/
theorem main_loop_scenarios (T : Tokens) (k fuel : Nat) (hk : k < 256) (hf : 2 ≤ fuel) :
    interpretLoop fuel T (k + 2) (initial (List.replicate k '+' ++ "^c".toList) [0]) =
      .ok () { initial (List.replicate k '+' ++ "^c".toList) [0] with
        script := { text := List.replicate k '+' ++ "^c".toList, pos := k + 2, rest := [],
                    eofbit := true, failbit := true },
        pointer := [k], output := [Char.ofNat k] } ∧
    interpretLoop fuel T (1 + (k + 2)) (initial ('>' :: (List.replicate k '+' ++ "^n".toList)) [0, 0]) =
      .ok () { initial ('>' :: (List.replicate k '+' ++ "^n".toList)) [0, 0] with
        script := { text := '>' :: (List.replicate k '+' ++ "^n".toList), pos := k + 3, rest := [],
                    eofbit := true, failbit := true },
        index := 1, pointer := [0, k], output := (Nat.repr k).toList } := by
  have hmod : k % 256 = k := Nat.mod_eq_of_lt hk
  constructor
  · have hit := iterate_increments fuel T "^c".toList k
      (initial (List.replicate k '+' ++ "^c".toList) [0]) 0 ⟨rfl, rfl⟩ rfl rfl (by omega)
    rw [interpretLoop_iterate fuel T k 2 _ _ hit]
    rw [interpretLoop_output_tag fuel T _ 'c' k ⟨rfl, rfl⟩
      (by simp [initial, IStream.open_, adv_rest, drop_replicate_append]) (by decide)
      (by simp [initial, hmod]) hf]
    simp [initial, IStream.open_, IStream.adv, Ctx.write, formatText, hmod]
  · have h1 : step fuel T (initial ('>' :: (List.replicate k '+' ++ "^n".toList)) [0, 0]) =
        .ok true { initial ('>' :: (List.replicate k '+' ++ "^n".toList)) [0, 0] with
          script := (IStream.open_ ('>' :: (List.replicate k '+' ++ "^n".toList))).adv 1,
          index := 1 } := by
      unfold step
      rw [get_cons (s := (initial ('>' :: (List.replicate k '+' ++ "^n".toList)) [0, 0]).script)
        ⟨rfl, rfl⟩ rfl]
      have hfi : findInstruction '>' = some .INDEX_INCREMENT := by decide
      have hsk : isSkipped '>' = false := by decide
      simp [hsk, hfi, Instr.execute, INDEX_INCREMENT, initial, Res.bind, u32]
    have hit := iterate_increments fuel T "^n".toList k
      { initial ('>' :: (List.replicate k '+' ++ "^n".toList)) [0, 0] with
        script := (IStream.open_ ('>' :: (List.replicate k '+' ++ "^n".toList))).adv 1,
        index := 1 } 0 ⟨rfl, rfl⟩ rfl rfl (by omega)
    rw [interpretLoop_iterate fuel T 1 (k + 2) _ _ (iterate_one h1)]
    rw [interpretLoop_iterate fuel T k 2 _ _ hit]
    rw [interpretLoop_output_tag fuel T _ 'n' k ⟨rfl, rfl⟩
      (by simp [initial, IStream.open_, adv_rest, drop_replicate_append]) (by decide)
      (by simp [initial, hmod]) hf]
    simp [initial, IStream.open_, IStream.adv, Ctx.write, formatText, hmod]
    omega

/-- C18 (witness): `+++^c` from the tape `[0]` writes the character with code 3,
and `>+++^n` from the tape `[0, 0]` ends with index 1, tape `[0, 3]` and the
text `3` written. -/
theorem main_loop_scenarios_witness :
    interpretLoop 2 sampleTokens 5 (initial "+++^c".toList [0]) =
      .ok () { initial "+++^c".toList [0] with
        script := { text := "+++^c".toList, pos := 5, rest := [],
                    eofbit := true, failbit := true },
        pointer := [3], output := [Char.ofNat 3] } ∧
    interpretLoop 2 sampleTokens 6 (initial ">+++^n".toList [0, 0]) =
      .ok () { initial ">+++^n".toList [0, 0] with
        script := { text := ">+++^n".toList, pos := 6, rest := [],
                    eofbit := true, failbit := true },
        index := 1, pointer := [0, 3], output := "3".toList } :=
  main_loop_scenarios sampleTokens 3 2 (by decide) (by decide)


/-- C19 (failing input): with an empty Loop Position Stack `LOOP_END` calls
`top()` on the empty stack, which is undefined behaviour: whatever the rest of
the state, the call has no defined result and raises no error of its own, as
on the script made of the loop-close marker alone.  The handler of the
uncertainty close tests its counter first and raises `Unexpected uncertainty
end`. -/
theorem LOOP_END_empty_stack_undefined :
    (∀ (fuel : Nat) (T : Tokens) (c : Ctx), LOOP_END fuel T { c with loop_stack := [] } = .undef) ∧
    interpretLoop 5 sampleTokens 5 (initial "\x7d".toList [0]) = .undef ∧
    interpretLoop 5 sampleTokens 5 (initial "!".toList [0]) =
      .throw (.runtime_error "Unexpected uncertainty end")
        { initial "!".toList [0] with script := (IStream.open_ "!".toList).adv 1 } := by
  refine ⟨fun fuel T c => rfl, by decide, by decide⟩

/-- C20: let the Loop Position Stack have the top `p`, let `LOOP_END` be called
on a readable stream at a position `a` that fits a `uint32_t`, and let the
guard evaluated from position `p` return `b` in the state `c1`.  If `b` is true
the call returns `c1`, which is the state at entry with the cursor where the
guard left it: stack, tape, index and counter are unchanged.  If `b` is false,
the guard having left the stream without `failbit`, the call returns the state
at entry with the stack popped once and a readable stream at position `a`. -/
theorem LOOP_END_step (T : Tokens) (fuel : Nat) (c c1 : Ctx) (p : Int) (ls : List Int)
    (b : Bool) (hstack : c.loop_stack = p :: ls) (hg : c.script.Good)
    (ha : c.script.pos < 4294967296)
    (hguard : parseExpression fuel T { c with script := c.script.seekg p } = .ok b c1)
    (hfail : b = false → c1.script.failbit = false) :
    (b = true → LOOP_END fuel T c = .ok () c1 ∧ c1 = { c with script := c1.script }) ∧
    (b = false →
      LOOP_END fuel T c =
        .ok () { c with script := c1.script.seekg (c.script.pos : Int), loop_stack := ls } ∧
      (c1.script.seekg (c.script.pos : Int)).pos = c.script.pos ∧
      (c1.script.seekg (c.script.pos : Int)).rest = c1.script.text.drop c.script.pos ∧
      (c1.script.seekg (c.script.pos : Int)).Good) := by
  have hk := keeps_parseExpression fuel T { c with script := c.script.seekg p }
  rw [hguard] at hk
  have hk : c1 = { c with script := c1.script } := hk
  have ht : c.script.tellg = ((c.script.pos : Int), c.script) := by
    simp [IStream.tellg, hg.1, hg.2]
  have hu : ((u32 (c.script.pos : Int) : Nat) : Int) = (c.script.pos : Int) := by
    rw [u32_natCast]; congr 1; omega
  have hl1 : c1.loop_stack = p :: ls := by rw [hk]; exact hstack
  simp only [hstack] at hguard
  constructor
  · intro hb
    subst hb
    refine ⟨?_, hk⟩
    unfold LOOP_END
    simp only [ht, hstack, hguard]
  · intro hb
    subst hb
    have hf := hfail rfl
    have hpos : ¬ ((c.script.pos : Int) < 0) := by omega
    refine ⟨?_, ?_, ?_, ?_⟩
    · unfold LOOP_END
      simp only [ht, hstack, hguard, hu, hl1, List.tail_cons]
      conv_lhs => rw [hk]
    · simp [IStream.seekg, hf, hpos]
    · simp [IStream.seekg, hf, hpos]
    · simp [IStream.seekg, hf, hpos, IStream.Good]

/-- C20 (witness): in the loop of `{[vi]=[0]+}>` the body has run once, the
cell holds 1 and the cursor is after the close marker, at position 11, with
the guard position 1 on the stack; the guard is now false, the stack is popped
and the cursor is back at position 11. -/
theorem LOOP_END_step_witness :
    LOOP_END 6 sampleTokens
        { initial "\x7b[vi]=[0]+\x7d>".toList [1] with
          script := IStream.at_ "\x7b[vi]=[0]+\x7d>".toList 11, loop_stack := [1] } =
      .ok () { initial "\x7b[vi]=[0]+\x7d>".toList [1] with
          script := IStream.at_ "\x7b[vi]=[0]+\x7d>".toList 11, loop_stack := [] } :=
  ((LOOP_END_step sampleTokens 6
    { initial "\x7b[vi]=[0]+\x7d>".toList [1] with
      script := IStream.at_ "\x7b[vi]=[0]+\x7d>".toList 11, loop_stack := [1] }
    { initial "\x7b[vi]=[0]+\x7d>".toList [1] with
      script := IStream.at_ "\x7b[vi]=[0]+\x7d>".toList 9, loop_stack := [1] }
    1 [] false rfl (by decide) (by decide) (by decide) (by decide)).2 rfl).1


/-! ## No undefined result in the parsers -/

theorem bind_ne_undef {α β : Type} {r : Res α} {f : α → Ctx → Res β}
    (hr : r ≠ .undef) (hf : ∀ a c1, f a c1 ≠ .undef) : r.bind f ≠ .undef := by
  cases r with
  | ok a c1 => exact hf a c1
  | throw e c1 => simp [Res.bind]
  | undef => exact absurd rfl hr
  | timeout => simp [Res.bind]

theorem negAt_ne_undef (neg : Bool) (c : Ctx) (i : Nat) : negAt neg c i ≠ .undef := by
  unfold negAt Ctx.pointer_at
  cases c.pointer[i]? <;> simp [Res.bind]

theorem resolveEmpty_ne_undef (m : Mods) (c : Ctx) : resolveEmpty m c ≠ .undef := by
  unfold resolveEmpty
  repeat' split
  all_goals first | exact negAt_ne_undef _ _ _ | simp

theorem resolveNested_ne_undef (m : Mods) (n : Nat) (c : Ctx) : resolveNested m n c ≠ .undef := by
  unfold resolveNested
  simp only
  repeat' split
  all_goals first | exact negAt_ne_undef _ _ _ | simp

theorem resolveDigits_ne_undef (again : Ctx → Res Nat) (hagain : ∀ c, again c ≠ .undef)
    (m : Mods) (n : Nat) (c : Ctx) : resolveDigits again m n c ≠ .undef := by
  unfold resolveDigits
  simp only
  repeat' split
  all_goals first
    | exact negAt_ne_undef _ _ _
    | exact bind_ne_undef (hagain c) (fun a c1 => by simp)
    | simp

theorem parsePayload_ne_undef (again : Ctx → Res Nat) (hagain : ∀ c, again c ≠ .undef)
    (fuel : Nat) (T : Tokens) (c : Ctx) (m : Mods) : parsePayload again fuel T c m ≠ .undef := by
  unfold parsePayload
  split
  · split
    · exact resolveEmpty_ne_undef _ _
    · split
      · exact bind_ne_undef (hagain _) (fun a c1 => resolveNested_ne_undef m a c1)
      · simp
  · split
    · simp
    · split
      · simp
      · split
        · simp
        · split
          · simp
          · exact resolveDigits_ne_undef again hagain m _ _

theorem parseNum_ne_undef (fuel : Nat) (T : Tokens) : ∀ c, parseNum fuel T c ≠ .undef := by
  induction fuel with
  | zero => intro c; simp [parseNum]
  | succ fuel ih =>
    intro c
    rw [parseNum]
    simp only
    split
    · simp
    · split
      · simp
      · exact parsePayload_ne_undef _ ih fuel T c _

theorem parseExpression_ne_undef (fuel : Nat) (T : Tokens) :
    ∀ c, parseExpression fuel T c ≠ .undef := by
  induction fuel with
  | zero => intro c; simp [parseExpression]
  | succ fuel ih =>
    intro c
    rw [parseExpression]
    have h1 := parseNum_ne_undef fuel T c
    split
    · simp
    · rename_i heq; exact absurd heq h1
    · simp
    · rename_i left c1 heq
      split
      · simp
      · rename_i rel s2 hrel
        have h2 := parseNum_ne_undef fuel T { c1 with script := s2 }
        split
        · simp
        · rename_i heq3; exact absurd heq3 h2
        · simp
        · split
          · simp
          · simp only
            split
            · split
              · exact ih _
              · simp
            · split
              · exact bind_ne_undef (ih _) (fun a c1 => by simp)
              · split
                · exact bind_ne_undef (ih _) (fun a c1 => by simp)
                · simp


/-! ## Skip scans that find no close marker -/

theorem get_cases (s : IStream) :
    (∃ ch r, s.rest = ch :: r ∧ s.get = (some ch, s.adv 1)) ∨
    (s.get.1 = none ∧ s.get.2.rest = s.rest) := by
  unfold IStream.get
  by_cases hb : (s.eofbit || s.failbit) = true
  · right
    simp [hb]
  · cases hr : s.rest with
    | nil => right; simp [hb]
    | cons ch r =>
      left
      refine ⟨ch, r, rfl, ?_⟩
      simp [hb, IStream.adv, hr]

theorem unclosed_pos {o cl : Char} {d : Nat} {l : List Char} (h : unclosed o cl d l = true) :
    0 < d := by
  cases l <;> simp [unclosed] at h
  · exact h
  · exact h.1

theorem skipUncertainty_unclosed : ∀ (fuel d : Nat) (s : IStream),
    unclosed '?' '!' d s.rest = true → d + s.rest.length < 2147483647 →
    skipUncertainty fuel (d : Int) s = .timeout := by
  intro fuel
  induction fuel with
  | zero => intro d s _ _; rfl
  | succ fuel ih =>
    intro d s hu hlen
    have hd := unclosed_pos hu
    have hpos : (d : Int) > 0 := by omega
    rw [skipUncertainty]
    simp only [hpos, if_true]
    rcases get_cases s with ⟨ch, r, hr, hget⟩ | ⟨hnone, hrest⟩
    · rw [hr] at hu hlen
      simp only [List.length_cons] at hlen
      have hr1 : (s.adv 1).rest = r := by simp [adv_rest, hr]
      simp only [unclosed, hd, decide_True, Bool.true_and] at hu
      simp only [hget, Option.some.injEq]
      by_cases h1 : ch = '?'
      · have hne : ¬ ((d : Int) = 2147483647) := by omega
        simp only [h1, if_true] at hu ⊢
        simp only [hne, if_false]
        have := ih (d + 1) (s.adv 1) (by rw [hr1]; exact hu) (by rw [hr1]; omega)
        simpa using this
      · by_cases h2 : ch = '!'
        · simp only [h1, h2, if_false, if_true] at hu ⊢
          have := ih (d - 1) (s.adv 1) (by rw [hr1]; exact hu) (by rw [hr1]; omega)
          have e : ((d - 1 : Nat) : Int) = (d : Int) - 1 := by omega
          rw [e] at this
          simpa using this
        · simp only [h1, h2, if_false] at hu ⊢
          exact ih d (s.adv 1) (by rw [hr1]; exact hu) (by rw [hr1]; omega)
    · simp only [hnone, if_false]
      exact ih d s.get.2 (by rw [hrest]; exact hu) (by rw [hrest]; exact hlen)

theorem skipLoop_unclosed : ∀ (fuel d : Nat) (s : IStream),
    unclosed '\x7b' '\x7d' d s.rest = true → d + s.rest.length < 4294967296 →
    skipLoop fuel d s = .timeout := by
  intro fuel
  induction fuel with
  | zero => intro d s _ _; rfl
  | succ fuel ih =>
    intro d s hu hlen
    have hd := unclosed_pos hu
    rw [skipLoop]
    simp only [gt_iff_lt, hd, if_true]
    rcases get_cases s with ⟨ch, r, hr, hget⟩ | ⟨hnone, hrest⟩
    · rw [hr] at hu hlen
      simp only [List.length_cons] at hlen
      have hr1 : (s.adv 1).rest = r := by simp [adv_rest, hr]
      simp only [unclosed, hd, decide_True, Bool.true_and] at hu
      simp only [hget, Option.some.injEq]
      by_cases h1 : ch = '\x7b'
      · simp only [h1, if_true] at hu ⊢
        have e : u32 ((d : Int) + 1) = d + 1 := by simp only [u32]; omega
        rw [e]
        exact ih (d + 1) (s.adv 1) (by rw [hr1]; exact hu) (by rw [hr1]; omega)
      · by_cases h2 : ch = '\x7d'
        · simp only [h1, h2, if_false, if_true] at hu ⊢
          have e : u32 ((d : Int) - 1) = d - 1 := by simp only [u32]; omega
          rw [e]
          exact ih (d - 1) (s.adv 1) (by rw [hr1]; exact hu) (by rw [hr1]; omega)
        · simp only [h1, h2, if_false] at hu ⊢
          exact ih d (s.adv 1) (by rw [hr1]; exact hu) (by rw [hr1]; omega)
    · simp only [hnone, if_false]
      exact ih d s.get.2 (by rw [hrest]; exact hu) (by rw [hrest]; exact hlen)


/-! ## The fuel is only a bound -/

theorem digitLoop_mono : ∀ (f : Nat) (s : IStream) (acc : List Char)
    (r : Option Char × List Char × IStream),
    digitLoop f s acc = some r → digitLoop (f + 1) s acc = some r := by
  intro f
  induction f with
  | zero => intro s acc r h; simp [digitLoop] at h
  | succ f ih =>
    intro s acc r h
    rw [digitLoop] at h ⊢
    rcases hget : s.get with ⟨o, s1⟩
    rw [hget] at h
    cases o with
    | none => exact h
    | some d =>
      simp only at h ⊢
      by_cases hd : d.isDigit = true
      · simp only [hd, if_true] at h ⊢
        exact ih _ _ _ h
      · simp only [hd, if_false] at h ⊢
        exact h

theorem skipNumberEnds_mono (T : Tokens) : ∀ (f : Nat) (s r : IStream),
    skipNumberEnds T f s = some r → skipNumberEnds T (f + 1) s = some r := by
  intro f
  induction f with
  | zero => intro s r h; simp [skipNumberEnds] at h
  | succ f ih =>
    intro s r h
    rw [skipNumberEnds] at h ⊢
    split at h
    · rename_i hc
      simp only [hc, if_true]
      exact ih _ _ h
    · rename_i hc
      simp only [hc, if_false]
      exact h

theorem readUntil_mono (stop : Char) : ∀ (f : Nat) (s : IStream) (acc : List Char)
    (r : List Char × IStream),
    readUntil stop f s acc = some r → readUntil stop (f + 1) s acc = some r := by
  intro f
  induction f with
  | zero => intro s acc r h; simp [readUntil] at h
  | succ f ih =>
    intro s acc r h
    rw [readUntil] at h ⊢
    split at h
    · rename_i hc
      simp only [hc, if_true]
      exact ih _ _ _ h
    · rename_i hc
      simp only [hc, if_false]
      exact h

theorem bind_ne_timeout {α β : Type} {r : Res α} {f : α → Ctx → Res β}
    (h : r.bind f ≠ .timeout) : r ≠ .timeout := by
  intro hr
  rw [hr] at h
  exact h rfl

theorem resolveDigits_mono {again again' : Ctx → Res Nat}
    (hagain : ∀ c, again c ≠ .timeout → again' c = again c) (m : Mods) (n : Nat) (c : Ctx)
    (h : resolveDigits again m n c ≠ .timeout) :
    resolveDigits again' m n c = resolveDigits again m n c := by
  unfold resolveDigits at h ⊢
  simp only at h ⊢
  repeat' split
  all_goals first
    | rfl
    | (simp only [*, if_true, if_false] at h
       rw [hagain c (bind_ne_timeout h)])

theorem parsePayload_mono {again again' : Ctx → Res Nat}
    (hagain : ∀ c, again c ≠ .timeout → again' c = again c) (f : Nat) (T : Tokens) (c : Ctx)
    (m : Mods) (h : parsePayload again f T c m ≠ .timeout) :
    parsePayload again' (f + 1) T c m = parsePayload again f T c m := by
  unfold parsePayload at h ⊢
  by_cases hdig : (!isdigit m.op) = true
  · rw [if_pos hdig] at h
    rw [if_pos hdig, if_pos hdig]
    by_cases h1 : m.op = some T.NUMBER_END
    · rw [if_pos h1, if_pos h1]
    · rw [if_neg h1] at h
      rw [if_neg h1, if_neg h1]
      by_cases h2 : m.op = some T.NUMBER_START
      · rw [if_pos h2] at h
        rw [if_pos h2, if_pos h2, hagain _ (bind_ne_timeout h)]
      · rw [if_neg h2, if_neg h2]
  · rw [if_neg hdig] at h
    rw [if_neg hdig, if_neg hdig]
    cases hd : digitLoop f m.s.ignore m.op.toList with
    | none => rw [hd] at h; exact absurd rfl h
    | some r =>
      obtain ⟨op1, res, s1⟩ := r
      rw [digitLoop_mono f _ _ _ hd]
      rw [hd] at h
      simp only at h ⊢
      by_cases h3 : op1 ≠ some T.NUMBER_END
      · rw [if_pos h3, if_pos h3]
      · rw [if_neg h3] at h
        rw [if_neg h3, if_neg h3]
        cases hs : skipNumberEnds T f s1 with
        | none => rw [hs] at h; exact absurd rfl h
        | some s2 =>
          rw [skipNumberEnds_mono T f _ _ hs]
          rw [hs] at h
          simp only at h ⊢
          cases hst : stoi res with
          | none => rfl
          | some num =>
            rw [hst] at h
            simp only at h ⊢
            exact resolveDigits_mono hagain m num _ h

theorem parseNum_mono (T : Tokens) : ∀ (f : Nat) (c : Ctx),
    parseNum f T c ≠ .timeout → parseNum (f + 1) T c = parseNum f T c := by
  intro f
  induction f with
  | zero => intro c h; exact absurd rfl h
  | succ f ih =>
    intro c h
    rw [parseNum] at h
    rw [parseNum, parseNum]
    simp only at h ⊢
    by_cases h1 : c.script.get.1 ≠ some T.NUMBER_START
    · rw [if_pos h1, if_pos h1]
    · rw [if_neg h1] at h
      rw [if_neg h1, if_neg h1]
      by_cases h2 : c.script.get.2.peek.1 = some T.NUMBER_END
      · rw [if_pos h2, if_pos h2]
      · rw [if_neg h2] at h
        rw [if_neg h2, if_neg h2]
        exact parsePayload_mono (fun c1 hc => ih c1 hc) f T c _ h

theorem parseNum_mono_le (T : Tokens) (c : Ctx) {f g : Nat} (hfg : f ≤ g)
    (h : parseNum f T c ≠ .timeout) : parseNum g T c = parseNum f T c := by
  induction g with
  | zero =>
    have : f = 0 := by omega
    subst this; rfl
  | succ g ih =>
    by_cases he : f = g + 1
    · subst he; rfl
    · have h1 := ih (by omega)
      rw [parseNum_mono T g c (by rw [h1]; exact h), h1]

theorem connective_mono {again again' : Ctx → Res Bool}
    (hagain : ∀ c, again c ≠ .timeout → again' c = again c) (T : Tokens) (e : Bool) (c3 : Ctx)
    (h : connective again T e c3 ≠ .timeout) :
    connective again' T e c3 = connective again T e c3 := by
  unfold connective at h ⊢
  simp only at h ⊢
  by_cases h1 : (matchConditional T c3.script).1 = T.CONDITIONAL_AND
  · rw [if_pos h1] at h
    rw [if_pos h1, if_pos h1]
    cases e with
    | false => rfl
    | true =>
      simp only [if_true] at h ⊢
      exact hagain _ h
  · rw [if_neg h1] at h
    rw [if_neg h1, if_neg h1]
    by_cases h2 : (matchConditional T c3.script).1 = T.CONDITIONAL_OR
    · rw [if_pos h2] at h
      rw [if_pos h2, if_pos h2, hagain _ (bind_ne_timeout h)]
    · rw [if_neg h2] at h
      rw [if_neg h2, if_neg h2]
      by_cases h3 : (matchConditional T c3.script).1 = T.CONDITIONAL_XOR
      · rw [if_pos h3] at h
        rw [if_pos h3, if_pos h3, hagain _ (bind_ne_timeout h)]
      · rw [if_neg h3, if_neg h3]

theorem parseExpression_mono (T : Tokens) : ∀ (f : Nat) (c : Ctx),
    parseExpression f T c ≠ .timeout → parseExpression (f + 1) T c = parseExpression f T c := by
  intro f
  induction f with
  | zero => intro c h; exact absurd rfl h
  | succ f ih =>
    intro c h
    cases hl : parseNum f T c with
    | timeout => rw [parseExpression, hl] at h; exact absurd rfl h
    | undef => exact absurd hl (parseNum_ne_undef f T c)
    | throw e c1 =>
      have e1 : parseNum (f + 1) T c = .throw e c1 := by
        rw [parseNum_mono T f c (by rw [hl]; simp), hl]
      conv_lhs => rw [parseExpression]
      conv_rhs => rw [parseExpression]
      simp only [hl, e1]
    | ok l c1 =>
      have e1 : parseNum (f + 1) T c = .ok l c1 := by
        rw [parseNum_mono T f c (by rw [hl]; simp), hl]
      cases hrd : readUntil T.NUMBER_START f c1.script [] with
      | none => rw [parseExpression] at h; simp only [hl, hrd] at h; exact absurd rfl h
      | some r =>
        obtain ⟨t, s2⟩ := r
        have e2 := readUntil_mono T.NUMBER_START f _ _ _ hrd
        cases hr : parseNum f T { c1 with script := s2 } with
        | timeout => rw [parseExpression] at h; simp only [hl, hrd, hr] at h; exact absurd rfl h
        | undef => exact absurd hr (parseNum_ne_undef f T _)
        | throw e c3 =>
          have e3 : parseNum (f + 1) T { c1 with script := s2 } = .throw e c3 := by
            rw [parseNum_mono T f _ (by rw [hr]; simp), hr]
          conv_lhs => rw [parseExpression]
          conv_rhs => rw [parseExpression]
          simp only [hl, e1, hrd, e2, hr, e3]
        | ok r c3 =>
          have e3 : parseNum (f + 1) T { c1 with script := s2 } = .ok r c3 := by
            rw [parseNum_mono T f _ (by rw [hr]; simp), hr]
          rw [parseExpression_after_right hl hrd hr] at h
          rw [parseExpression_after_right hl hrd hr, parseExpression_after_right e1 e2 e3]
          cases hrel : relational T t l r with
          | none => rfl
          | some b =>
            rw [hrel] at h
            simp only at h ⊢
            exact connective_mono (fun c4 hc => ih c4 hc) T b c3 h

theorem parseExpression_mono_le (T : Tokens) (c : Ctx) {f g : Nat} (hfg : f ≤ g)
    (h : parseExpression f T c ≠ .timeout) : parseExpression g T c = parseExpression f T c := by
  induction g with
  | zero =>
    have : f = 0 := by omega
    subst this; rfl
  | succ g ih =>
    by_cases he : f = g + 1
    · subst he; rfl
    · have h1 := ih (by omega)
      rw [parseExpression_mono T g c (by rw [h1]; exact h), h1]

/-- The fuel is only a bound: two runs of `parseExpression` that both end give
the same result. -/
theorem parseExpression_fuel (T : Tokens) (c : Ctx) (f g : Nat)
    (hf : parseExpression f T c ≠ .timeout) (hg : parseExpression g T c ≠ .timeout) :
    parseExpression g T c = parseExpression f T c := by
  rcases Nat.le_total f g with h | h
  · exact parseExpression_mono_le T c h hf
  · exact (parseExpression_mono_le T c h hg).symm


/-- C23: let the guard of an uncertainty-open (respectively of a loop-open)
evaluate to false and leave unread a text, shorter than the range of the
nesting count, in which no close marker balances the block: read from depth 1
the depth never comes back to 0.  Then the handler neither returns nor raises
an error, whatever the bound put on its loops, and the skip scan started after
the guard is still running after any number of steps: a read at or past the
end of the script yields no character, hence neither marker, and the count
stays above 0. -/
theorem skip_scan_never_ends (T : Tokens) (c c1 : Ctx) (fuel0 : Nat) :
    (parseExpression fuel0 T c = .ok false c1 →
      unclosed '?' '!' 1 c1.script.rest = true → 1 + c1.script.rest.length < 2147483647 →
      ∀ fuel, UNCERTAINTY_START fuel T c = .timeout ∧
        skipUncertainty fuel 1 c1.script = .timeout) ∧
    (parseExpression fuel0 T
        { c with script := c.script.tellg.2, loop_stack := c.script.tellg.1 :: c.loop_stack } =
        .ok false c1 →
      unclosed '\x7b' '\x7d' 1 c1.script.rest = true → 1 + c1.script.rest.length < 4294967296 →
      ∀ fuel, LOOP_START fuel T c = .timeout ∧ skipLoop fuel 1 c1.script = .timeout) := by
  constructor
  · intro hguard hu hlen fuel
    have hscan : ∀ n, skipUncertainty n 1 c1.script = .timeout := by
      intro n
      have := skipUncertainty_unclosed n 1 c1.script hu hlen
      simpa using this
    refine ⟨?_, hscan fuel⟩
    unfold UNCERTAINTY_START
    by_cases ht : parseExpression fuel T c = .timeout
    · rw [ht]
    · have e := parseExpression_fuel T c fuel0 fuel (by rw [hguard]; simp) ht
      rw [e, hguard]
      simp only [hscan fuel]
  · intro hguard hu hlen fuel
    have hscan : ∀ n, skipLoop n 1 c1.script = .timeout :=
      fun n => skipLoop_unclosed n 1 c1.script hu hlen
    refine ⟨?_, hscan fuel⟩
    unfold LOOP_START
    simp only
    by_cases ht : parseExpression fuel T
        { c with script := c.script.tellg.2, loop_stack := c.script.tellg.1 :: c.loop_stack } =
        .timeout
    · rw [ht]
    · have e := parseExpression_fuel T _ fuel0 fuel (by rw [hguard]; simp) ht
      rw [e, hguard]
      simp only [hscan fuel]

/-- C23 (witness): after the false guard of `?[1]=[2]+?+!+` the text `+?+!+`
closes its nested block only, and after the false guard of `{[1]=[2]+{+}+`
the text `+{+}+` does the same: with the bound 100 on the loops neither
handler has ended. -/
theorem skip_scan_never_ends_witness :
    UNCERTAINTY_START 100 sampleTokens
        { initial "?[1]=[2]+?+!+".toList [0] with
          script := (IStream.open_ "?[1]=[2]+?+!+".toList).adv 1 } = .timeout ∧
    LOOP_START 100 sampleTokens
        { initial "\x7b[1]=[2]+\x7b+\x7d+".toList [0] with
          script := (IStream.open_ "\x7b[1]=[2]+\x7b+\x7d+".toList).adv 1 } = .timeout :=
  ⟨((skip_scan_never_ends sampleTokens
      { initial "?[1]=[2]+?+!+".toList [0] with
        script := (IStream.open_ "?[1]=[2]+?+!+".toList).adv 1 }
      { initial "?[1]=[2]+?+!+".toList [0] with
        script := (IStream.open_ "?[1]=[2]+?+!+".toList).adv 8 } 6).1
      (by decide) (by decide) (by decide) 100).1,
   ((skip_scan_never_ends sampleTokens
      { initial "\x7b[1]=[2]+\x7b+\x7d+".toList [0] with
        script := (IStream.open_ "\x7b[1]=[2]+\x7b+\x7d+".toList).adv 1 }
      { initial "\x7b[1]=[2]+\x7b+\x7d+".toList [0] with
        script := (IStream.open_ "\x7b[1]=[2]+\x7b+\x7d+".toList).adv 8, loop_stack := [1] } 6).2
      (by decide) (by decide) (by decide) 100).1⟩


/-! ## Chains of relational expressions -/

theorem follows_refl (s : IStream) : s.follows s := ⟨rfl, Nat.le_refl _, id, id⟩

theorem follows_trans {a b c : IStream} (h1 : a.follows b) (h2 : b.follows c) : a.follows c :=
  ⟨h2.1.trans h1.1, Nat.le_trans h2.2.1 h1.2.1, fun h => h2.2.2.1 (h1.2.2.1 h),
    fun h => h2.2.2.2 (h1.2.2.2 h)⟩

theorem drop_succ_of_drop {l : List Char} {n : Nat} {ch : Char} {r : List Char}
    (h : ch :: r = l.drop n) : r = l.drop (n + 1) := by
  have : (l.drop n).drop 1 = l.drop (n + 1) := by rw [List.drop_drop, Nat.add_comm]
  rw [← this, ← h]
  rfl

theorem get_follows (s : IStream) : s.follows s.get.2 := by
  obtain ⟨text, pos, rest, e, f⟩ := s
  cases e <;> cases f <;> cases rest <;>
    simp [IStream.get, IStream.follows, IStream.Coherent, IStream.Ended]
  exact fun h => drop_succ_of_drop h

theorem peek_follows (s : IStream) : s.follows s.peek.2 := by
  obtain ⟨text, pos, rest, e, f⟩ := s
  cases e <;> cases f <;> cases rest <;>
    simp [IStream.peek, IStream.follows, IStream.Coherent, IStream.Ended]

theorem ignore_follows (s : IStream) : s.follows s.ignore := by
  obtain ⟨text, pos, rest, e, f⟩ := s
  cases e <;> cases f <;> cases rest <;>
    simp [IStream.ignore, IStream.follows, IStream.Coherent, IStream.Ended]
  exact fun h => drop_succ_of_drop h

theorem get_some_lt {s : IStream} {ch : Char} (h : s.get.1 = some ch) :
    s.Good ∧ s.get.2.rest.length + 1 = s.rest.length := by
  obtain ⟨text, pos, rest, e, f⟩ := s
  cases e <;> cases f <;> cases rest <;> simp [IStream.get, IStream.Good] at h ⊢

theorem peek_some_good {s : IStream} {ch : Char} (h : s.peek.1 = some ch) :
    s.Good ∧ s.peek.2 = s ∧ s.rest ≠ [] := by
  obtain ⟨text, pos, rest, e, f⟩ := s
  cases e <;> cases f <;> cases rest <;> simp [IStream.peek, IStream.Good] at h ⊢

theorem ignore_good_lt {s : IStream} (hg : s.Good) (hr : s.rest ≠ []) :
    s.ignore.rest.length + 1 = s.rest.length := by
  obtain ⟨text, pos, rest, e, f⟩ := s
  obtain ⟨h1, h2⟩ := hg
  simp only at h1 h2
  subst h1 h2
  cases rest with
  | nil => exact absurd rfl hr
  | cons ch r => simp [IStream.ignore]

theorem takeModifier_follows (m : Char) (op : Option Char) (s : IStream) :
    s.follows (takeModifier m op s).2.2 := by
  unfold takeModifier
  split
  · exact follows_trans (ignore_follows s) (peek_follows _)
  · exact follows_refl s

theorem readModifiers_follows (T : Tokens) (op : Option Char) (s : IStream) :
    s.follows (readModifiers T op s).s := by
  unfold readModifiers
  simp only
  have h1 := takeModifier_follows T.NUMBER_MODIFIER_NEGATIVE op s
  generalize takeModifier T.NUMBER_MODIFIER_NEGATIVE op s = m1 at h1 ⊢
  have h2 := takeModifier_follows T.NUMBER_MODIFIER_VALUE_AT m1.2.1 m1.2.2
  generalize takeModifier T.NUMBER_MODIFIER_VALUE_AT m1.2.1 m1.2.2 = m2 at h2 ⊢
  have h3 := takeModifier_follows T.NUMBER_MODIFIER_INDEX m2.2.1 m2.2.2
  generalize takeModifier T.NUMBER_MODIFIER_INDEX m2.2.1 m2.2.2 = m3 at h3 ⊢
  have h4 := takeModifier_follows '+' m3.2.1 m3.2.2
  generalize takeModifier '+' m3.2.1 m3.2.2 = m4 at h4 ⊢
  have h14 := follows_trans h1 (follows_trans h2 (follows_trans h3 h4))
  split
  · exact h14
  · exact follows_trans h14 (takeModifier_follows '-' m4.2.1 m4.2.2)

theorem digitLoop_total : ∀ (fuel : Nat) (s : IStream) (acc : List Char),
    s.rest.length + 1 ≤ fuel → ∃ r, digitLoop fuel s acc = some r ∧ s.follows r.2.2 := by
  intro fuel
  induction fuel with
  | zero => intro s acc h; omega
  | succ fuel ih =>
    intro s acc h
    rw [digitLoop]
    have hf := get_follows s
    rcases hget : s.get with ⟨o, s1⟩
    rw [hget] at hf
    cases o with
    | none => exact ⟨_, rfl, hf⟩
    | some d =>
      simp only
      by_cases hd : d.isDigit = true
      · simp only [hd, if_true]
        have hlt := (@get_some_lt s d (by rw [hget])).2
        rw [hget] at hlt
        obtain ⟨r, h1, h2⟩ := ih s1 (acc ++ [d]) (by simp only at hlt; omega)
        exact ⟨r, h1, follows_trans hf h2⟩
      · simp only [hd, if_false]
        exact ⟨_, rfl, hf⟩

theorem skipNumberEnds_total (T : Tokens) : ∀ (fuel : Nat) (s : IStream),
    s.rest.length + 1 ≤ fuel → ∃ r, skipNumberEnds T fuel s = some r ∧ s.follows r := by
  intro fuel
  induction fuel with
  | zero => intro s h; omega
  | succ fuel ih =>
    intro s h
    rw [skipNumberEnds]
    by_cases hc : (s.peek.1 = some T.NUMBER_END && !s.peek.2.eof) = true
    · rw [if_pos hc]
      simp only [Bool.and_eq_true, decide_eq_true_eq] at hc
      obtain ⟨hg, hp, hne⟩ := peek_some_good hc.1
      rw [hp]
      have hlt := ignore_good_lt hg hne
      obtain ⟨r, h1, h2⟩ := ih s.ignore (by omega)
      exact ⟨r, h1, follows_trans (ignore_follows s) h2⟩
    · rw [if_neg hc]
      exact ⟨_, rfl, peek_follows s⟩

theorem readUntil_total (stop : Char) : ∀ (fuel : Nat) (s : IStream) (acc : List Char),
    s.Ended → s.rest.length + 1 ≤ fuel →
    ∃ r, readUntil stop fuel s acc = some r ∧ s.follows r.2 := by
  intro fuel
  induction fuel with
  | zero => intro s acc _ h; omega
  | succ fuel ih =>
    intro s acc he h
    rw [readUntil]
    by_cases hc : (s.peek.1 ≠ some stop && !s.peek.2.eof) = true
    · rw [if_pos hc]
      have hgood : s.Good ∧ s.rest ≠ [] := by
        obtain ⟨text, pos, rest, e, f⟩ := s
        simp only [IStream.Ended] at he
        cases e <;> cases f <;> cases rest <;>
          simp [IStream.peek, IStream.eof, IStream.Good] at hc he ⊢
      have hp : s.peek.2 = s := by
        obtain ⟨text, pos, rest, e, f⟩ := s
        obtain ⟨⟨h1, h2⟩, h3⟩ := hgood
        simp only at h1 h2 h3
        subst h1 h2
        cases rest with
        | nil => exact absurd rfl h3
        | cons ch r => simp [IStream.peek]
      rw [hp]
      have hlt : s.get.2.rest.length + 1 = s.rest.length := by
        obtain ⟨text, pos, rest, e, f⟩ := s
        obtain ⟨⟨h1, h2⟩, h3⟩ := hgood
        simp only at h1 h2 h3
        subst h1 h2
        cases rest with
        | nil => exact absurd rfl h3
        | cons ch r => simp [IStream.get]
      obtain ⟨r, h1, h2⟩ := ih s.get.2 (acc ++ [toChar s.get.1]) ((get_follows s).2.2.2 he)
        (by omega)
      exact ⟨r, h1, follows_trans (get_follows s) h2⟩
    · rw [if_neg hc]
      exact ⟨_, rfl, peek_follows s⟩


theorem negAt_ne_timeout (neg : Bool) (c : Ctx) (i : Nat) : negAt neg c i ≠ .timeout := by
  unfold negAt Ctx.pointer_at
  cases c.pointer[i]? <;> simp [Res.bind]

theorem negAt_ok {neg : Bool} {c c1 : Ctx} {i v : Nat} (h : negAt neg c i = .ok v c1) :
    c1 = c := by
  unfold negAt Ctx.pointer_at at h
  cases hp : c.pointer[i]? with
  | none => rw [hp] at h; simp [Res.bind] at h
  | some w => rw [hp] at h; simp [Res.bind] at h; exact h.2.symm

theorem resolveEmpty_ne_timeout (m : Mods) (c : Ctx) : resolveEmpty m c ≠ .timeout := by
  unfold resolveEmpty
  repeat' split
  all_goals first | exact negAt_ne_timeout _ _ _ | simp

theorem resolveEmpty_ok {m : Mods} {c c1 : Ctx} {v : Nat} (h : resolveEmpty m c = .ok v c1) :
    c1 = c := by
  unfold resolveEmpty at h
  repeat' split at h
  all_goals first
    | exact negAt_ok h
    | (simp only [Res.ok.injEq] at h; exact h.2.symm)
    | simp at h

theorem resolveNested_ne_timeout (m : Mods) (n : Nat) (c : Ctx) :
    resolveNested m n c ≠ .timeout := by
  unfold resolveNested
  simp only
  repeat' split
  all_goals first | exact negAt_ne_timeout _ _ _ | simp

theorem resolveNested_ok {m : Mods} {n : Nat} {c c1 : Ctx} {v : Nat}
    (h : resolveNested m n c = .ok v c1) : c1 = c := by
  unfold resolveNested at h
  simp only at h
  repeat' split at h
  all_goals first
    | exact negAt_ok h
    | (simp only [Res.ok.injEq] at h; exact h.2.symm)

theorem bind_ne_timeout_of {α β : Type} {r : Res α} {f : α → Ctx → Res β}
    (hr : r ≠ .timeout) (hf : ∀ a c1, f a c1 ≠ .timeout) : r.bind f ≠ .timeout := by
  cases r with
  | ok a c1 => exact hf a c1
  | throw e c1 => simp [Res.bind]
  | undef => simp [Res.bind]
  | timeout => exact absurd rfl hr

theorem resolveDigits_ne_timeout {again : Ctx → Res Nat} (m : Mods) (n : Nat) (c : Ctx)
    (hagain : again c ≠ .timeout) : resolveDigits again m n c ≠ .timeout := by
  unfold resolveDigits
  simp only
  repeat' split
  all_goals first
    | exact negAt_ne_timeout _ _ _
    | exact bind_ne_timeout_of hagain (fun a c1 => by simp)
    | simp

theorem resolveDigits_ok {again : Ctx → Res Nat} {m : Mods} {n : Nat} {c c1 : Ctx} {v : Nat}
    (h : resolveDigits again m n c = .ok v c1) : c1 = c ∨ ∃ k, again c = .ok k c1 := by
  unfold resolveDigits at h
  simp only at h
  repeat' split at h
  all_goals first
    | exact Or.inl (negAt_ok h)
    | (simp only [Res.ok.injEq] at h; exact Or.inl h.2.symm)
    | (obtain ⟨a, c2, h1, h2⟩ := bind_eq_ok h
       simp only [Res.ok.injEq] at h2
       exact Or.inr ⟨a, h2.2 ▸ h1⟩)

theorem parsePayload_total {again : Ctx → Res Nat} (n : Nat)
    (hagain : ∀ c', c'.script.rest.length ≤ n → again c' ≠ .timeout ∧
      ∀ v c1, again c' = .ok v c1 → c'.script.follows c1.script)
    (fuel : Nat) (T : Tokens) (c : Ctx) (m : Mods) (hm : m.s.rest.length ≤ n)
    (hf : n + 1 ≤ fuel) :
    parsePayload again fuel T c m ≠ .timeout ∧
    ∀ v c1, parsePayload again fuel T c m = .ok v c1 → m.s.follows c1.script := by
  unfold parsePayload
  by_cases hdig : (!isdigit m.op) = true
  · rw [if_pos hdig]
    by_cases h1 : m.op = some T.NUMBER_END
    · rw [if_pos h1]
      refine ⟨resolveEmpty_ne_timeout _ _, ?_⟩
      intro v c1 h
      rw [resolveEmpty_ok h]
      exact ignore_follows m.s
    · rw [if_neg h1]
      by_cases h2 : m.op = some T.NUMBER_START
      · rw [if_pos h2]
        obtain ⟨ha1, ha2⟩ := hagain { c with script := m.s } hm
        refine ⟨bind_ne_timeout_of ha1 (fun a c1 => resolveNested_ne_timeout m a c1), ?_⟩
        intro v c1 h
        obtain ⟨a, c2, e1, e2⟩ := bind_eq_ok h
        rw [resolveNested_ok e2]
        exact ha2 a c2 e1
      · rw [if_neg h2]
        refine ⟨by simp, ?_⟩
        intro v c1 h
        simp only [Res.ok.injEq] at h
        rw [← h.2]
        exact follows_refl m.s
  · rw [if_neg hdig]
    have hi := ignore_follows m.s
    obtain ⟨r, hd, hfd⟩ := digitLoop_total fuel m.s.ignore m.op.toList (by have := hi.2.1; omega)
    obtain ⟨op1, res, s1⟩ := r
    rw [hd]
    simp only
    by_cases h3 : op1 ≠ some T.NUMBER_END
    · rw [if_pos h3]
      exact ⟨by simp, fun v c1 h => by simp at h⟩
    · rw [if_neg h3]
      have h01 : m.s.follows s1 := follows_trans hi hfd
      obtain ⟨s2, hs, hfs⟩ := skipNumberEnds_total T fuel s1 (by have := h01.2.1; omega)
      rw [hs]
      simp only
      have h02 : m.s.follows s2 := follows_trans h01 hfs
      cases hst : stoi res with
      | none => exact ⟨by simp, fun v c1 h => by simp at h⟩
      | some num =>
        simp only
        obtain ⟨ha1, ha2⟩ := hagain { c with script := s2 } (by have := h02.2.1; simp only; omega)
        refine ⟨resolveDigits_ne_timeout m num _ ha1, ?_⟩
        intro v c1 h
        rcases resolveDigits_ok h with e | ⟨k, e⟩
        · rw [e]; exact h02
        · exact follows_trans h02 (ha2 k c1 e)

theorem parseNum_total (T : Tokens) : ∀ (fuel : Nat) (c : Ctx),
    c.script.rest.length + 1 ≤ fuel →
    parseNum fuel T c ≠ .timeout ∧
    ∀ v c1, parseNum fuel T c = .ok v c1 →
      c.script.follows c1.script ∧ c.script.Good ∧
        c1.script.rest.length < c.script.rest.length := by
  intro fuel
  induction fuel with
  | zero => intro c h; omega
  | succ fuel ih =>
    intro c hlen
    rw [parseNum]
    simp only
    by_cases h1 : c.script.get.1 ≠ some T.NUMBER_START
    · rw [if_pos h1]
      exact ⟨by simp, fun v c1 h => by simp at h⟩
    · rw [if_neg h1]
      have hget : c.script.get.1 = some T.NUMBER_START := by
        by_contra hne; exact h1 hne
      obtain ⟨hg, hlt⟩ := get_some_lt hget
      have hfg := get_follows c.script
      have hfp := peek_follows c.script.get.2
      have h0p : c.script.follows c.script.get.2.peek.2 := follows_trans hfg hfp
      by_cases h2 : c.script.get.2.peek.1 = some T.NUMBER_END
      · rw [if_pos h2]
        refine ⟨by simp, ?_⟩
        intro v c1 h
        simp only [Res.ok.injEq] at h
        rw [← h.2]
        have hfi := ignore_follows c.script.get.2.peek.2
        refine ⟨follows_trans h0p hfi, hg, ?_⟩
        have := hfi.2.1
        have := hfp.2.1
        simp only
        omega
      · rw [if_neg h2]
        have hfm := readModifiers_follows T c.script.get.2.peek.1 c.script.get.2.peek.2
        have hmlen : (readModifiers T c.script.get.2.peek.1 c.script.get.2.peek.2).s.rest.length ≤
            c.script.rest.length - 1 := by
          have := hfm.2.1
          have := hfp.2.1
          omega
        obtain ⟨p1, p2⟩ := parsePayload_total (c.script.rest.length - 1)
          (fun c' hc' => by
            obtain ⟨q1, q2⟩ := ih c' (by omega)
            exact ⟨q1, fun v c1 h => (q2 v c1 h).1⟩)
          fuel T c (readModifiers T c.script.get.2.peek.1 c.script.get.2.peek.2) hmlen (by omega)
        refine ⟨p1, ?_⟩
        intro v c1 h
        have hf1 := p2 v c1 h
        refine ⟨follows_trans h0p (follows_trans hfm hf1), hg, ?_⟩
        have := hf1.2.1
        omega


theorem matchToken_follows (tok : List Char) : ∀ (s : IStream) (acc : List Char),
    s.follows (matchToken tok s acc).2 := by
  induction tok with
  | nil => intro s acc; exact follows_refl s
  | cons ch tok ih =>
    intro s acc
    rw [matchToken]
    split
    · exact follows_trans (peek_follows s) (follows_trans (get_follows _) (ih _ _))
    · exact follows_trans (peek_follows s) (ih _ _)

theorem tellg_back (s0 : IStream) (hco : s0.Coherent) :
    s0.tellg.2.text = s0.text ∧ s0.tellg.2.Coherent ∧
      s0.tellg.2.rest.length ≤ s0.rest.length := by
  unfold IStream.tellg
  split
  · exact ⟨rfl, hco, Nat.le_refl _⟩
  · exact ⟨rfl, hco, Nat.le_refl _⟩

theorem seekg_back (s0 s1 : IStream) (hco : s0.Coherent)
    (h : s1.text = s0.text ∧ s1.Coherent ∧ s1.rest.length ≤ s0.rest.length) :
    (s1.seekg s0.tellg.1).text = s0.text ∧ (s1.seekg s0.tellg.1).Coherent ∧
      (s1.seekg s0.tellg.1).rest.length ≤ s0.rest.length := by
  obtain ⟨h1, h2, h3⟩ := h
  unfold IStream.seekg
  by_cases hf : s1.failbit = true
  · rw [if_pos hf]
    exact ⟨h1, h2, h3⟩
  · rw [if_neg hf]
    by_cases hp : s0.tellg.1 < 0
    · rw [if_pos hp]
      exact ⟨h1, h2, h3⟩
    · rw [if_neg hp]
      have hpos : s0.tellg.1 = (s0.pos : Int) := by
        unfold IStream.tellg at hp ⊢
        split
        · rename_i hb; rw [if_pos hb] at hp; exact absurd (by decide : (-1 : Int) < 0) hp
        · rfl
      refine ⟨h1, rfl, ?_⟩
      simp only [hpos, Int.toNat_ofNat, h1]
      rw [← hco]

theorem matchToken_back (tok : List Char) (s0 s1 : IStream) (acc : List Char)
    (h : s1.text = s0.text ∧ s1.Coherent ∧ s1.rest.length ≤ s0.rest.length) :
    (matchToken tok s1 acc).2.text = s0.text ∧ (matchToken tok s1 acc).2.Coherent ∧
      (matchToken tok s1 acc).2.rest.length ≤ s0.rest.length := by
  have hf := matchToken_follows tok s1 acc
  exact ⟨hf.1.trans h.1, hf.2.2.1 h.2.1, Nat.le_trans hf.2.1 h.2.2⟩

theorem matchConditional_back (T : Tokens) (s0 : IStream) (hco : s0.Coherent) :
    (matchConditional T s0).2.Coherent ∧
      (matchConditional T s0).2.rest.length ≤ s0.rest.length := by
  have hA := matchToken_back T.CONDITIONAL_AND s0 s0.tellg.2 [] (tellg_back s0 hco)
  have hO := matchToken_back T.CONDITIONAL_OR s0 _ [] (seekg_back s0 _ hco hA)
  have hX := matchToken_back T.CONDITIONAL_XOR s0 _ [] (seekg_back s0 _ hco hO)
  have hE := seekg_back s0 _ hco hX
  unfold matchConditional
  simp only
  split
  · split
    · split
      · exact hE.2
      · exact hX.2
    · exact hO.2
  · exact hA.2

theorem connective_ne_timeout {again : Ctx → Res Bool} (T : Tokens) (b : Bool) (c3 : Ctx)
    (h : again { c3 with script := (matchConditional T c3.script).2 } ≠ .timeout) :
    connective again T b c3 ≠ .timeout := by
  unfold connective
  simp only
  split
  · split
    · exact h
    · simp
  · split
    · exact bind_ne_timeout_of h (fun a c1 => by simp)
    · split
      · exact bind_ne_timeout_of h (fun a c1 => by simp)
      · simp

theorem parseExpression_total (T : Tokens) : ∀ (fuel : Nat) (c : Ctx),
    c.script.Coherent → c.script.rest.length + 2 ≤ fuel →
    parseExpression fuel T c ≠ .timeout := by
  intro fuel
  induction fuel with
  | zero => intro c _ h; omega
  | succ fuel ih =>
    intro c hco hlen
    obtain ⟨hn1, hn2⟩ := parseNum_total T fuel c (by omega)
    cases hl : parseNum fuel T c with
    | timeout => exact absurd hl hn1
    | undef => exact absurd hl (parseNum_ne_undef fuel T c)
    | throw e c1 => rw [parseExpression]; simp only [hl]; simp
    | ok l c1 =>
      obtain ⟨hf1, hg, hlt1⟩ := hn2 l c1 hl
      have hend : c1.script.Ended := hf1.2.2.2 (fun hfb => by rw [hg.2] at hfb; simp at hfb)
      obtain ⟨p, hrd, hf2⟩ := readUntil_total T.NUMBER_START fuel c1.script [] hend (by omega)
      obtain ⟨t, s2⟩ := p
      have hs2 : s2.rest.length ≤ c1.script.rest.length := hf2.2.1
      obtain ⟨hm1, hm2⟩ := parseNum_total T fuel { c1 with script := s2 } (by simp only; omega)
      cases hr : parseNum fuel T { c1 with script := s2 } with
      | timeout => exact absurd hr hm1
      | undef => exact absurd hr (parseNum_ne_undef fuel T _)
      | throw e c3 => rw [parseExpression]; simp only [hl, hrd, hr]; simp
      | ok r c3 =>
        obtain ⟨hf3, _, hlt3⟩ := hm2 r c3 hr
        simp only at hf3 hlt3
        rw [parseExpression_after_right hl hrd hr]
        cases hrel : relational T t l r with
        | none => simp
        | some b =>
          simp only
          have hco3 : c3.script.Coherent := hf3.2.2.1 (hf2.2.2.1 (hf1.2.2.1 hco))
          obtain ⟨hb1, hb2⟩ := matchConditional_back T c3.script hco3
          exact connective_ne_timeout T b c3 (ih _ hb1 (by simp only; omega))


/-! ## Parsing is read-only -/

/-- C22: for every script, cursor position and state, a call of `parseNum` or of
`parseExpression` that returns a value or raises an error ends in the state it
started from with at most the script stream changed: tape, index, Uncertainty
Counter, Loop Position Stack, standard streams and file slots are the same.
Neither call has an undefined result, and both end, with one of these two
outcomes, as soon as the bound on their loops exceeds the number of unread
characters by two (for `parseExpression` on a stream that is on its text). -/
theorem parsing_read_only (fuel : Nat) (T : Tokens) (c : Ctx) :
    (∀ v c1, parseNum fuel T c = .ok v c1 → c1 = { c with script := c1.script }) ∧
    (∀ e c1, parseNum fuel T c = .throw e c1 → c1 = { c with script := c1.script }) ∧
    (∀ b c1, parseExpression fuel T c = .ok b c1 → c1 = { c with script := c1.script }) ∧
    (∀ e c1, parseExpression fuel T c = .throw e c1 → c1 = { c with script := c1.script }) ∧
    parseNum fuel T c ≠ .undef ∧ parseExpression fuel T c ≠ .undef ∧
    (c.script.rest.length + 2 ≤ fuel → parseNum fuel T c ≠ .timeout) ∧
    (c.script.Coherent → c.script.rest.length + 2 ≤ fuel →
      parseExpression fuel T c ≠ .timeout) := by
  have h1 := keeps_parseNum fuel T c
  have h2 := keeps_parseExpression fuel T c
  refine ⟨?_, ?_, ?_, ?_, parseNum_ne_undef fuel T c, parseExpression_ne_undef fuel T c,
    fun h => (parseNum_total T fuel c (by omega)).1, parseExpression_total T fuel c⟩
  · intro v c1 h; rw [h] at h1; exact h1
  · intro e c1 h; rw [h] at h1; exact h1
  · intro b c1 h; rw [h] at h2; exact h2
  · intro e c1 h; rw [h] at h2; exact h2

/-- C22 (witness): on the tape `[9]` the expression `[vi]=[9]+` evaluates to
true, and the state returned is the initial one with the script stream of the
result. -/
theorem parsing_read_only_witness :
    parseExpression 6 sampleTokens (initial "[vi]=[9]+".toList [9]) =
      .ok true { initial "[vi]=[9]+".toList [9] with
        script := (IStream.open_ "[vi]=[9]+".toList).adv 8 } ∧
    ({ initial "[vi]=[9]+".toList [9] with
        script := (IStream.open_ "[vi]=[9]+".toList).adv 8 } : Ctx) =
      { initial "[vi]=[9]+".toList [9] with
        script := ({ initial "[vi]=[9]+".toList [9] with
          script := (IStream.open_ "[vi]=[9]+".toList).adv 8 } : Ctx).script } :=
  ⟨by decide,
   (parsing_read_only 6 sampleTokens (initial "[vi]=[9]+".toList [9])).2.2.1 true
      { initial "[vi]=[9]+".toList [9] with
        script := (IStream.open_ "[vi]=[9]+".toList).adv 8 } (by decide)⟩


end Exomit
